import Mathlib

/-! mattermost-load-test: `loadtest/bulkload.go`

A shallow embedding of the bulk-load generator (`generateTeams`,
`GenerateBulkloadFile`, `UserImportData.PickTeamChannel`) and of the post
loader (`ConnectToDB`, `LoadPosts`), with the properties of the generated
population and of the fabricated posts proved over the embedding.

Conventions of the embedding

* Go `int` values are `Int`; loop counters and slice lengths, which start at
  `0` and are bounded by a slice length or by an `int`, are `Nat` (for the
  counter of the batches of a channel see `fabricateChannel`).
* Slices are `List`s; every slice index the source evaluates is checked and a
  run-time panic of the source is the `Except.error` outcome of the model.
* A `float64` is the rational number it stands for (a configuration holds no
  infinity and no NaN); arithmetic on them is exact arithmetic followed by the
  rounding of binary64 (`roundFloat64`).  The one expression the generator
  uses is `int(math.Floor(float64(n) * p))` (`Env.floorMul`); a conversion to
  `int` that overflows has a value left to the implementation, which is a
  field of the environment.
* The platform has 64 bits: `int` arithmetic wraps at `2^63` (`wrapInt64`)
  where the source adds or multiplies values read from the configuration, and
  `make` panics for a capacity that is negative or above the allocation limit
  (`makesliceFails`).
* The seeded pseudo random source `rand.New(rand.NewSource(29))` is the state
  `seed29` of the environment together with its method `Perm`, which is known
  (from the documentation of `math/rand`) to return a permutation of
  `0, ..., n-1`.
* In `LoadPosts` the one float expression is the quotient of line 391;
  `ReplyChance` and the values of `rand.Float64` are rationals.
* The database, the server and the global random source of `LoadPosts` are an
  oracle (`World`, `PostDraws`); a run is the list of the requests made and the
  way the run ends.
-/

namespace Loadtest

/-! ## Run-time failures -/

/-- The run-time panics the embedded code can raise. -/
inductive Panic where
  /-- A slice index out of range. -/
  | indexOutOfRange
  /-- A call `make([]T, 0, n)` with a capacity that is negative or above the allocation limit. -/
  | makesliceCapOutOfRange
  /-- A failed type assertion `x.(int)`. -/
  | typeAssertion
  /-- The call `panic(err)` on an error returned by `randutil.WeightedChoice`. -/
  | weightedChoiceError
  /-- The call `rand.Int63n(n)` with `n <= 0`. -/
  | invalidArgumentInt63n
  /-- The call `rand.Intn(n)` with `n <= 0`. -/
  | invalidArgumentIntn
  /-- An integer division or remainder with divisor `0`. -/
  | integerDivideByZero
  /-- A method call on a nil `*sql.Stmt`. -/
  | nilDereference
  deriving DecidableEq, Repr

/-- The ways in which a call of `GenerateBulkloadFile` does not return a result. -/
inductive Failure where
  /-- The goroutine panicked. -/
  | panic (p : Panic)
  /-- The schedule under consideration ended before `doneChan` was closed. -/
  | notDone
  deriving DecidableEq, Repr

/-- Slice indexing `xs[i]` with the bounds check of the Go run time. -/
def index {α : Type} (xs : List α) (i : Nat) : Except Panic α :=
  match xs[i]? with
  | some x => .ok x
  | none => .error .indexOutOfRange

/-- The loop `for i := 0; i < n; i++ { s = body(i, s) }`, where the body may panic. -/
def forLoop {σ : Type} (n : Nat) (body : Nat → σ → Except Panic σ) (s : σ) : Except Panic σ :=
  (List.range n).foldlM (fun st i => body i st) s

/-- The loop `for i, x := range xs { s = body(i, x, s) }` started at index `start`. -/
def forRangeFrom {α σ : Type} (start : Nat) (xs : List α)
    (body : Nat → α → σ → Except Panic σ) (s : σ) : Except Panic σ :=
  match xs with
  | [] => .ok s
  | x :: rest =>
    match body start x s with
    | .error e => .error e
    | .ok s1 => forRangeFrom (start + 1) rest body s1

/-- The loop `for i, x := range xs { s = body(i, x, s) }`. -/
def forRange {α σ : Type} (xs : List α)
    (body : Nat → α → σ → Except Panic σ) (s : σ) : Except Panic σ :=
  forRangeFrom 0 xs body s

/-! ## Data model (`bulkload.go`, lines 26-144) -/

/-- The configuration `LoadtestEnviromentConfig`; `F` is the type of its `float64` fields. -/
structure LoadtestEnviromentConfig (F : Type) where
  NumTeams : Int
  NumChannelsPerTeam : Int
  NumUsers : Int
  PercentHighVolumeChannels : F
  PercentMidVolumeChannels : F
  PercentLowVolumeChannels : F
  PercentUsersHighVolumeChannel : F
  PercentUsersMidVolumeChannel : F
  PercentUsersLowVolumeChannel : F
  PercentHighVolumeTeams : F
  PercentMidVolumeTeams : F
  PercentLowVolumeTeams : F
  PercentUsersHighVolumeTeams : F
  PercentUsersMidVolumeTeams : F
  PercentUsersLowVolumeTeams : F
  HighVolumeTeamSelectionWeight : Int
  MidVolumeTeamSelectionWeight : Int
  LowVolumeTeamSelectionWeight : Int
  HighVolumeChannelSelectionWeight : Int
  MidVolumeChannelSelectionWeight : Int
  LowVolumeChannelSelectionWeight : Int
  NumPosts : Int
  PostTimeRange : Int
  ReplyChance : F

/-- A dynamic value of type `interface{}`: an `int`, or a value of another type. -/
inductive Item where
  | int (i : Int)
  | other (description : String)
  deriving DecidableEq, Repr

/-- The type `randutil.Choice`. -/
structure Choice where
  Weight : Int
  Item : Item
  deriving DecidableEq, Repr

/-- The type `TeamImportData`. -/
structure TeamImportData where
  Name : String
  DisplayName : String
  Type_ : String
  Description : String
  AllowOpenInvite : Bool
  deriving DecidableEq, Repr

/-- The type `ChannelImportData`. -/
structure ChannelImportData where
  Team : String
  Name : String
  DisplayName : String
  Type_ : String
  Header : String
  Purpose : String
  deriving DecidableEq, Repr

/-- The type `UserChannelImportData`. -/
structure UserChannelImportData where
  Name : String
  Roles : String
  deriving DecidableEq, Repr

/-- The type `UserTeamImportData`. -/
structure UserTeamImportData where
  Name : String
  Roles : String
  Channels : List UserChannelImportData
  ChannelChoice : List Choice
  deriving DecidableEq, Repr

/-- The type `UserImportData`; the fields the generator never sets keep their zero value. -/
structure UserImportData where
  Username : String
  Email : String
  AuthService : String := ""
  AuthData : String := ""
  Password : String
  Nickname : String := ""
  FirstName : String := ""
  LastName : String := ""
  Position : String := ""
  Roles : String
  Locale : String := ""
  Teams : List UserTeamImportData
  TeamChoice : List Choice
  Theme : String := ""
  SelectedFont : String := ""
  UseMilitaryTime : String := ""
  NameFormat : String := ""
  CollapsePreviews : String := ""
  MessageDisplay : String := ""
  ChannelDisplayMode : String := ""
  deriving DecidableEq, Repr

/-- The type `PostImportData` (its pointer fields are options). -/
structure PostImportData where
  Team : Option String
  Channel : Option String
  User : Option String
  Message : Option String
  CreateAt : Option Int
  FlaggedBy : Option (List String)
  deriving DecidableEq, Repr

/-- The type `LineImportData`: one record of the bulk-import stream. -/
structure LineImportData where
  Type_ : String
  Team : Option TeamImportData
  Channel : Option ChannelImportData
  User : Option UserImportData
  Post : Option PostImportData
  Version : Int
  deriving DecidableEq, Repr

/-- The type `GenerateBulkloadFileResult`; `File` is the sequence of records the encoder wrote. -/
structure GenerateBulkloadFileResult where
  File : List LineImportData
  Users : List UserImportData
  Teams : List TeamImportData
  Channels : List ChannelImportData
  deriving DecidableEq, Repr

/-! ## `float64` and `int` arithmetic -/

/-- Rounding of a rational number to an integer, to nearest, ties to even. -/
def roundHalfEven (y : ℚ) : Int :=
  let f := ⌊y⌋
  let r := y - f
  if r < 1 / 2 then f else if 1 / 2 < r then f + 1 else if f % 2 = 0 then f else f + 1

/-- The loop `for n >= 2 { n /= 2; e++ }`, run for at most `fuel` iterations. -/
def log2Fuel : Nat → Nat → Nat
  | 0, _ => 0
  | fuel + 1, n => if 2 ≤ n then log2Fuel fuel (n / 2) + 1 else 0

/-- The binary exponent of a rational number `x` other than `0`: the integer `e` with
`2^e <= |x| < 2^(e+1)`.  For `x = a / b` it is the difference of the bit lengths of `a` and
`b`, or one less. -/
def binaryExponent (x : ℚ) : Int :=
  let a := x.num.natAbs
  let b := x.den
  let e0 : Int := (log2Fuel a a : Int) - (log2Fuel b b : Int)
  if b * 2 ^ e0.toNat ≤ a * 2 ^ (-e0).toNat then e0 else e0 - 1

/-- The `float64` nearest to the rational number `x` (IEEE 754 binary64, round to nearest, ties
to even): `x` is rounded to a multiple of `2^(e-52)`, where `2^e <= |x| < 2^(e+1)`.  Overflow
and subnormal numbers are not modelled: the numbers rounded are 64-bit integers, quotients of
two of them and products of one with a `float64`; of these only the floor is used, which is
`0` or `-1` for a subnormal product here as there, and which is outside of the range of `int`
when the product overflows. -/
def roundFloat64 (x : ℚ) : ℚ :=
  if x = 0 then 0
  else
    let u : ℚ := (2 : ℚ) ^ (binaryExponent x - 52)
    (roundHalfEven (x / u) : ℚ) * u

/-- The conversion `float64(n)` of an `int`. -/
def float64OfInt (n : Int) : ℚ := roundFloat64 n

/-- The result of an `int` addition or multiplication whose exact value is `z`: 64-bit two's
complement arithmetic wraps around. -/
def wrapInt64 (z : Int) : Int := (z + 2 ^ 63) % 2 ^ 64 - 2 ^ 63

/-! ## The environment: the run time and the random source -/

/-- What the generator takes from the Go run time: the value of a conversion to `int` that
overflows and the pseudo random source `rand.New(rand.NewSource(29))`. -/
structure Env (S : Type) where
  /-- The value of `int(math.Floor(float64(n) * p))` when the floor of the product is outside of
  the range of `int` (or the product is an infinity): the language leaves it to the
  implementation (on amd64 it is `-2^63`). -/
  outOfRangeInt : Int → ℚ → Int
  /-- The value is an `int`. -/
  outOfRangeInt_range : ∀ n p, -2 ^ 63 ≤ outOfRangeInt n p ∧ outOfRangeInt n p < 2 ^ 63
  /-- The state of `rand.New(rand.NewSource(29))`. -/
  seed29 : S
  /-- The method `(*rand.Rand).Perm`: the permutation drawn and the state after the call. -/
  Perm : S → Nat → List Nat × S
  /-- The method `Perm` returns a permutation of `0, ..., n-1`. -/
  Perm_perm : ∀ s n, List.Perm (Perm s n).1 (List.range n)

/-- The expression `int(math.Floor(float64(n) * p))` of lines 218-223 and 258-263, for the
`float64` value `p`: the conversion of `n`, the product rounded to `float64`, its floor, and the
conversion to `int`. -/
def Env.floorMul {S : Type} (env : Env S) (n : Int) (p : ℚ) : Int :=
  let q := ⌊roundFloat64 (float64OfInt n * p)⌋
  if -2 ^ 63 ≤ q ∧ q < 2 ^ 63 then q else env.outOfRangeInt n p

/-- The limit `maxAlloc` of the run time on the size of an allocation, in bytes (64-bit
platforms with 48 address bits). -/
def maxAlloc : Nat := 2 ^ 48

/-- Whether `make([]T, 0, cap)` panics (`runtime.makeslice`), for elements of `elemSize` bytes:
it does for a negative capacity and for one of more than `maxAlloc` bytes.  An allocation within
the limit is taken to succeed. -/
def makesliceFails (elemSize : Nat) (cap : Int) : Bool :=
  decide (cap < 0) || decide ((elemSize : Int) * cap > (maxAlloc : Int))

/-! ## `strconv.Itoa` -/

/-- The function `strconv.Itoa` on the non-negative integers (the generator applies it to loop
counters only): the decimal numeral without leading zeros. -/
def Itoa (n : Nat) : String := Nat.repr n

/-! ## `generateTeams` (lines 170-184) -/

/-- The team literal of the loop body of `generateTeams`. -/
def newTeam (teamNum : Nat) : TeamImportData :=
  { Name := "loadtestteam" ++ Itoa teamNum
    DisplayName := "Loadtest Team " ++ Itoa teamNum
    Type_ := "O"
    Description := "This is loadtest team " ++ Itoa teamNum
    AllowOpenInvite := true }

/-- The function `generateTeams`; a `TeamImportData` takes 72 bytes. -/
def generateTeams (numTeams : Int) : Except Panic (List TeamImportData) :=
  if makesliceFails 72 numTeams then .error .makesliceCapOutOfRange
  else .ok ((List.range numTeams.toNat).foldl (fun teams teamNum => teams ++ [newTeam teamNum]) [])

/-! ## `GenerateBulkloadFile` (lines 186-357) -/

/-- The channel literal of lines 197-204. -/
def newChannel (teamNum channelNum : Nat) : ChannelImportData :=
  { Team := "loadtestteam" ++ Itoa teamNum
    Name := "loadtestchannel" ++ Itoa channelNum
    DisplayName := "Loadtest Channel " ++ Itoa channelNum
    Type_ := "O"
    Header := "Hea: This is loadtest channel " ++ Itoa teamNum ++ " on team " ++ Itoa teamNum
    Purpose := "Pur: This is loadtest channel " ++ Itoa teamNum ++ " on team " ++ Itoa teamNum }

/-- The user literal of lines 210-215. -/
def newUser (userNum : Nat) : UserImportData :=
  { Username := "user" ++ Itoa userNum
    Roles := "system_user"
    Email := "success+user" ++ Itoa userNum ++ "@simulator.amazonses.com"
    Password := "Loadtestpassword1"
    Teams := []
    TeamChoice := [] }

/-- The assignment `xs[i] = f(xs[i])` on a slice of slices (line 205); the index is in range
whenever the source evaluates it. -/
def updateAt {α : Type} (xs : List α) (i : Nat) (f : α → α) : List α :=
  match xs[i]? with
  | some x => xs.set i (f x)
  | none => xs

/-- The channel generation loops of lines 194-207: `channels` and `channelsByTeam`. -/
def generateChannels (numTeams numChannelsPerTeam : Nat) :
    List ChannelImportData × List (List Nat) :=
  (List.range numTeams).foldl
    (fun st teamNum =>
      (List.range numChannelsPerTeam).foldl
        (fun st1 channelNum =>
          let channels := st1.1 ++ [newChannel teamNum channelNum]
          (channels, updateAt st1.2 teamNum (fun l => l ++ [channels.length - 1])))
        (st.1, st.2 ++ [[]]))
    ([], [])

/-- The user generation loop of lines 209-216. -/
def generateUsers (numUsers : Nat) : List UserImportData :=
  (List.range numUsers).foldl (fun users userNum => users ++ [newUser userNum]) []

/-- The two consecutive tests of lines 232-241 (and 267-277): the value chosen for the element
at position `sequenceNum`, given the counts of high and of mid volume elements; the sum of the
two counts is an `int` addition. -/
def tierOf {α : Type} (sequenceNum : Nat) (numHigh numMid : Int) (high mid low : α) : α :=
  let r := high
  let r := if (sequenceNum : Int) > numHigh then mid else r
  let r := if (sequenceNum : Int) > wrapInt64 (numHigh + numMid) then low else r
  r

/-- Lines 246-254 for one user: a new team membership and its entry of the choice table. -/
def addTeam (name : String) (selectWeight : Int) (u : UserImportData) : UserImportData :=
  let teams := u.Teams ++ [{ Name := name, Roles := "team_user", Channels := [], ChannelChoice := [] }]
  { u with
    Teams := teams
    TeamChoice := u.TeamChoice ++ [{ Item := .int ((teams.length : Int) - 1), Weight := selectWeight }] }

/-- Lines 284-292 on the team membership they modify. -/
def addChannelToTeam (name : String) (selectWeight : Int) (t : UserTeamImportData) :
    UserTeamImportData :=
  let channels := t.Channels ++ [{ Name := name, Roles := "channel_user" }]
  { t with
    Channels := channels
    ChannelChoice :=
      t.ChannelChoice ++ [{ Item := .int ((channels.length : Int) - 1), Weight := selectWeight }] }

/-- Lines 284-292 for one user: a new channel membership in the last team membership
`Teams[len(Teams)-1]` of the user. -/
def addChannel (name : String) (selectWeight : Int) (u : UserImportData) :
    Except Panic UserImportData :=
  match u.Teams.getLast? with
  | none => .error .indexOutOfRange
  | some t =>
    .ok { u with Teams := u.Teams.set (u.Teams.length - 1) (addChannelToTeam name selectWeight t) }

/-- The loop of lines 245-256: the first `numUsersToAdd` users of `userPermutation` join the
team; the result is the new `users` and `usersInTeam`. -/
def addTeamMembers (name : String) (selectWeight : Int) (userPermutation : List Nat)
    (numUsersToAdd : Nat) (users : List UserImportData) :
    Except Panic (List UserImportData × List Nat) :=
  forLoop numUsersToAdd
    (fun userNum st =>
      match index userPermutation userNum with
      | .error e => .error e
      | .ok i =>
        match index st.1 i with
        | .error e => .error e
        | .ok u => .ok (st.1.set i (addTeam name selectWeight u), st.2 ++ [i]))
    (users, [])

/-- The loop of lines 282-293: the first `numUsersToAddChannel` entries of
`usersInTeamPermutation` name the members of the team that join the channel. -/
def addChannelMembers (name : String) (selectWeight : Int) (usersInTeam : List Nat)
    (usersInTeamPermutation : List Nat) (numUsersToAddChannel : Nat)
    (users : List UserImportData) : Except Panic (List UserImportData) :=
  forLoop numUsersToAddChannel
    (fun userInTeamNum us =>
      match index usersInTeamPermutation userInTeamNum with
      | .error e => .error e
      | .ok k =>
        match index usersInTeam k with
        | .error e => .error e
        | .ok userNum =>
          match index us userNum with
          | .error e => .error e
          | .ok u =>
            match addChannel name selectWeight u with
            | .error e => .error e
            | .ok u1 => .ok (us.set userNum u1))
    users

/-- The body of the loop over `channelsInTeam` (lines 266-293). -/
def channelIteration {S : Type} (env : Env S) (config : LoadtestEnviromentConfig ℚ)
    (channels : List ChannelImportData) (usersInTeam : List Nat)
    (numHighVolumeChannels numMidVolumeChannels : Int)
    (numUsersInHighVolumeChannel numUsersInMidVolumeChannel numUsersInLowVolumeChannel : Int)
    (channelSequenceNum channelNum : Nat) (st : List UserImportData × S) :
    Except Panic (List UserImportData × S) :=
  match index channels channelNum with
  | .error e => .error e
  | .ok channel =>
    let tier := tierOf channelSequenceNum numHighVolumeChannels numMidVolumeChannels
      (numUsersInHighVolumeChannel, config.HighVolumeChannelSelectionWeight)
      (numUsersInMidVolumeChannel, config.MidVolumeChannelSelectionWeight)
      (numUsersInLowVolumeChannel, config.LowVolumeChannelSelectionWeight)
    let numUsersToAddChannel : Int :=
      if tier.1 > (usersInTeam.length : Int) then (usersInTeam.length : Int) else tier.1
    let p := env.Perm st.2 usersInTeam.length
    match addChannelMembers channel.Name tier.2 usersInTeam p.1 numUsersToAddChannel.toNat st.1 with
    | .error e => .error e
    | .ok users => .ok (users, p.2)

/-- The body of the loop over `teamPermutation` (lines 229-295). -/
def teamIteration {S : Type} (env : Env S) (config : LoadtestEnviromentConfig ℚ)
    (teams : List TeamImportData) (channels : List ChannelImportData)
    (channelsByTeam : List (List Nat)) (sequenceNum teamNum : Nat)
    (st : List UserImportData × S) : Except Panic (List UserImportData × S) :=
  let numHighVolumeTeams := env.floorMul config.NumTeams config.PercentHighVolumeTeams
  let numMidVolumeTeams := env.floorMul config.NumTeams config.PercentMidVolumeTeams
  let numUsersInHighVolumeTeam := env.floorMul config.NumUsers config.PercentUsersHighVolumeTeams
  let numUsersInMidVolumeTeam := env.floorMul config.NumUsers config.PercentUsersMidVolumeTeams
  let numUsersInLowVolumeTeam := env.floorMul config.NumUsers config.PercentUsersLowVolumeTeams
  match index teams teamNum with
  | .error e => .error e
  | .ok currentTeam =>
    match index channelsByTeam teamNum with
    | .error e => .error e
    | .ok channelsInTeam =>
      let tier := tierOf sequenceNum numHighVolumeTeams numMidVolumeTeams
        (numUsersInHighVolumeTeam, config.HighVolumeTeamSelectionWeight)
        (numUsersInMidVolumeTeam, config.MidVolumeTeamSelectionWeight)
        (numUsersInLowVolumeTeam, config.LowVolumeTeamSelectionWeight)
      let numUsersToAdd := tier.1
      let p := env.Perm st.2 st.1.length
      if makesliceFails 8 numUsersToAdd then .error .makesliceCapOutOfRange
      else
        match addTeamMembers currentTeam.Name tier.2 p.1 numUsersToAdd.toNat st.1 with
        | .error e => .error e
        | .ok (users, usersInTeam) =>
          let numHighVolumeChannels :=
            env.floorMul channelsInTeam.length config.PercentHighVolumeChannels
          let numMidVolumeChannels :=
            env.floorMul channelsInTeam.length config.PercentMidVolumeChannels
          let numUsersInHighVolumeChannel :=
            env.floorMul numUsersToAdd config.PercentUsersHighVolumeChannel
          let numUsersInMidVolumeChannel :=
            env.floorMul numUsersToAdd config.PercentUsersMidVolumeChannel
          let numUsersInLowVolumeChannel :=
            env.floorMul numUsersToAdd config.PercentUsersLowVolumeChannel
          forRange channelsInTeam
            (channelIteration env config channels usersInTeam
              numHighVolumeChannels numMidVolumeChannels
              numUsersInHighVolumeChannel numUsersInMidVolumeChannel numUsersInLowVolumeChannel)
            (users, p.2)

/-- The population built by lines 187-296: `users`, `teams` and `channels` once the loop over
`teamPermutation` has ended.  The slices of lines 187, 188, 192 and 195 have elements of 336
(`UserImportData`), 96 (`ChannelImportData`), 24 (`[]int`) and 8 (`int`) bytes. -/
def distribute {S : Type} (env : Env S) (config : LoadtestEnviromentConfig ℚ) :
    Except Panic (List UserImportData × List TeamImportData × List ChannelImportData) :=
  if makesliceFails 336 config.NumUsers then .error .makesliceCapOutOfRange
  else if makesliceFails 96 (wrapInt64 (config.NumChannelsPerTeam * config.NumTeams)) then
    .error .makesliceCapOutOfRange
  else
    match generateTeams config.NumTeams with
    | .error e => .error e
    | .ok teams =>
      if makesliceFails 24 (wrapInt64 (config.NumChannelsPerTeam * config.NumTeams)) then
        .error .makesliceCapOutOfRange
      else if 0 < config.NumTeams ∧ makesliceFails 8 config.NumChannelsPerTeam then
        .error .makesliceCapOutOfRange
      else
        let gen := generateChannels config.NumTeams.toNat config.NumChannelsPerTeam.toNat
        let channels := gen.1
        let channelsByTeam := gen.2
        let users := generateUsers config.NumUsers.toNat
        let teamPermutation := env.Perm env.seed29 teams.length
        match forRange teamPermutation.1
            (teamIteration env config teams channels channelsByTeam) (users, teamPermutation.2) with
        | .error e => .error e
        | .ok st => .ok (st.1, teams, channels)

/-- The records the main goroutine sends on `lineObjectsChan`, in the order of lines 317-346. -/
def lineObjects (users : List UserImportData) (teams : List TeamImportData)
    (channels : List ChannelImportData) : List LineImportData :=
  [{ Type_ := "version", Team := none, Channel := none, User := none, Post := none, Version := 1 }]
  ++ teams.map (fun t =>
      { Type_ := "team", Team := some t, Channel := none, User := none, Post := none, Version := 1 })
  ++ channels.map (fun c =>
      { Type_ := "channel", Team := none, Channel := some c, User := none, Post := none,
        Version := 1 })
  ++ users.map (fun u =>
      { Type_ := "user", Team := none, Channel := none, User := some u, Post := none,
        Version := 1 })

/-- The two goroutines of lines 298-349. -/
inductive Actor where
  /-- The main goroutine: sends the records, then closes `lineObjectsChan`. -/
  | producer
  /-- The encoding goroutine: receives and encodes until the channel is closed and drained. -/
  | consumer
  deriving DecidableEq, Repr

/-- The state of the encoder pipeline. -/
structure PipeState where
  /-- The records the main goroutine has still to send. -/
  pending : List LineImportData
  /-- The contents of the buffered channel `lineObjectsChan` (capacity 100), oldest first. -/
  queue : List LineImportData
  /-- Whether `lineObjectsChan` has been closed. -/
  closed : Bool
  /-- The records encoded into `output` so far. -/
  output : List LineImportData
  /-- Whether `doneChan` has been closed. -/
  done : Bool
  deriving DecidableEq, Repr

/-- One scheduling step of the pipeline: the chosen goroutine advances if it is not blocked.
The producer sends its next record if the channel has room (lines 321-346) and closes the channel
once all records are sent (line 348); the consumer receives the oldest record and encodes it
(lines 309-313) and closes `doneChan` once the channel is closed and drained (line 314).
`jenc.Encode` cannot fail on these records (their exported fields are strings, integers and
booleans; the choice tables are tagged `json:"-"`), so every record received is written. -/
def pipeStep (a : Actor) (st : PipeState) : PipeState :=
  match a with
  | .producer =>
    match st.pending with
    | [] => { st with closed := true }
    | x :: rest =>
      if st.queue.length < 100 then { st with pending := rest, queue := st.queue ++ [x] } else st
  | .consumer =>
    match st.queue with
    | x :: rest => { st with queue := rest, output := st.output ++ [x] }
    | [] => if st.closed then { st with done := true } else st

/-- The pipeline run along a schedule. -/
def pipeRun (sched : List Actor) (st : PipeState) : PipeState :=
  sched.foldl (fun s a => pipeStep a s) st

/-- The state of the pipeline at line 317. -/
def pipeInit (records : List LineImportData) : PipeState :=
  { pending := records, queue := [], closed := false, output := [], done := false }

/-- The function `GenerateBulkloadFile`, run with the goroutine schedule `sched`: the function
returns once the main goroutine has received from `doneChan`. -/
def GenerateBulkloadFile {S : Type} (env : Env S) (sched : List Actor)
    (config : LoadtestEnviromentConfig ℚ) : Except Failure GenerateBulkloadFileResult :=
  match distribute env config with
  | .error e => .error (.panic e)
  | .ok (users, teams, channels) =>
    let final := pipeRun sched (pipeInit (lineObjects users teams channels))
    if final.done then
      .ok { File := final.output, Users := users, Teams := teams, Channels := channels }
    else .error .notDone

/-! ## `UserImportData.PickTeamChannel` (lines 146-168) -/

/-- What a call of `PickTeamChannel` did: the tables it passed to `randutil.WeightedChoice`, in
the order of the calls, and its outcome; the outcome `.ok none` is the pair `nil, nil`. -/
structure PickTrace where
  calls : List (List Choice)
  outcome : Except Panic (Option (UserTeamImportData × UserChannelImportData))

/-- The method `PickTeamChannel`.  The function `randutil.WeightedChoice` is a parameter:
`WeightedChoice n table` is what its call number `n` of this run returns on `table` (the draw
depends on the state of the global random source). -/
def PickTeamChannel (WeightedChoice : Nat → List Choice → Except String Choice)
    (s : UserImportData) : PickTrace :=
  if s.TeamChoice.length = 0 then { calls := [], outcome := .ok none }
  else
    match WeightedChoice 0 s.TeamChoice with
    | .error _ => { calls := [s.TeamChoice], outcome := .error .weightedChoiceError }
    | .ok item =>
      match item.Item with
      | .other _ => { calls := [s.TeamChoice], outcome := .error .typeAssertion }
      | .int teamIndex =>
        if teamIndex < 0 then { calls := [s.TeamChoice], outcome := .error .indexOutOfRange }
        else
          match index s.Teams teamIndex.toNat with
          | .error e => { calls := [s.TeamChoice], outcome := .error e }
          | .ok team =>
            if team.ChannelChoice.length = 0 then { calls := [s.TeamChoice], outcome := .ok none }
            else
              match WeightedChoice 1 team.ChannelChoice with
              | .error _ =>
                { calls := [s.TeamChoice, team.ChannelChoice], outcome := .error .weightedChoiceError }
              | .ok item2 =>
                match item2.Item with
                | .other _ =>
                  { calls := [s.TeamChoice, team.ChannelChoice], outcome := .error .typeAssertion }
                | .int channelIndex =>
                  if channelIndex < 0 then
                    { calls := [s.TeamChoice, team.ChannelChoice],
                      outcome := .error .indexOutOfRange }
                  else
                    match index team.Channels channelIndex.toNat with
                    | .error e =>
                      { calls := [s.TeamChoice, team.ChannelChoice], outcome := .error e }
                    | .ok channel =>
                      { calls := [s.TeamChoice, team.ChannelChoice],
                        outcome := .ok (some (team, channel)) }

/-! ## The post target of `LoadPosts` -/

/-- Line 391: `numPostsPerChannel`.  When the divisor is `0` the quotient is an infinity or not
a number, and when the floor of the quotient is outside of the range of `int` the conversion
`int(...)` yields a value that depends on the implementation: `implementationDependent`. -/
def numPostsPerChannel {F : Type} (implementationDependent : Int)
    (config : LoadtestEnviromentConfig F) : Int :=
  let divisor := float64OfInt (wrapInt64 (config.NumTeams * config.NumChannelsPerTeam))
  if divisor = 0 then implementationDependent
  else
    let q := ⌊roundFloat64 (float64OfInt config.NumPosts / divisor)⌋
    if -2 ^ 63 ≤ q ∧ q < 2 ^ 63 then q else implementationDependent

/-! ## `LoadPosts` (lines 373-481) -/

/-- A value passed to `statement.Exec`: a string or an integer. -/
inductive SqlValue where
  | str (s : String)
  | int (i : Int)
  deriving DecidableEq, Repr

/-- The fields of `model.Team` that `LoadPosts` reads. -/
structure ModelTeam where
  Id : String
  Name : String
  deriving DecidableEq, Repr

/-- The field of `model.Channel` that `LoadPosts` reads. -/
structure ModelChannel where
  Id : String
  deriving DecidableEq, Repr

/-- The fields of `model.User` that `LoadPosts` reads. -/
structure ModelUser where
  Id : String
  Username : String
  deriving DecidableEq, Repr

/-- What one channel worker draws from its environment: the values returned by
`fake.SentencesN(1)`, `time.Now().Unix()`, `rand.Int63n`, `model.NewId()`, `rand.Float64()` and
`rand.Intn` while it fabricates post `j` of the batch that starts at `i`.  Of these values only
the documented ranges of `rand.Float64` (in `[0, 1)`) and of `rand.Intn(n)` (in `[0, n)`) are
known. -/
structure PostDraws where
  SentencesN : Nat → Nat → String
  Now : Nat → Nat → Int
  Int63n : Nat → Nat → Int
  NewId : Nat → Nat → String
  Float64 : Nat → Nat → ℚ
  Intn : Nat → Nat → Nat → Nat
  Float64_nonneg : ∀ i j, 0 ≤ Float64 i j
  Float64_lt_one : ∀ i j, Float64 i j < 1
  Intn_lt : ∀ i j n, 0 < n → Intn i j n < n

/-- The 18 values that line 470 appends to `vals` for one post. -/
def postValues (id : String) (now : Int) (userId channelId parentRoot message : String) :
    List SqlValue :=
  [.str id, .int now, .int now, .int 0, .int 0, .int 0, .str userId, .str channelId,
   .str parentRoot, .str parentRoot, .str "", .str message, .str "", .str "\x7b\x7d", .str "",
   .str "[]", .str "[]", .int 0]

/-- Lines 461-468: the value of `parentRoot` for post `j` of the batch that starts at `i`, and
`rootPosts` after the post. -/
def pickParentRoot (config : LoadtestEnviromentConfig ℚ) (draws : PostDraws) (i j : Nat)
    (id : String) (rootPosts : List String) : Except Panic (String × List String) :=
  if j = 0 then .ok ("", rootPosts ++ [id])
  else if draws.Float64 i j < config.ReplyChance then
    if rootPosts.length = 0 then .error .invalidArgumentIntn
    else
      match index rootPosts (draws.Intn i j rootPosts.length) with
      | .error e => .error e
      | .ok root => .ok (root, rootPosts)
  else .ok ("", rootPosts)

/-- The body of the loop over `j` (lines 454-470): post `j` of the batch that starts at `i`; the
state is `vals` and `rootPosts`. -/
def fabricatePost (config : LoadtestEnviromentConfig ℚ) (draws : PostDraws)
    (users : List ModelUser) (channels : List ModelChannel) (channelNum i j : Nat)
    (st : List SqlValue × List String) : Except Panic (List SqlValue × List String) :=
  let message := "PL" ++ draws.SentencesN i j
  if config.PostTimeRange ≤ 0 then .error .invalidArgumentInt63n
  else
    let now := draws.Now i j - draws.Int63n i j
    let id := draws.NewId i j
    match pickParentRoot config draws i j id st.2 with
    | .error e => .error e
    | .ok (parentRoot, rootPosts) =>
      if users.length = 0 then .error .integerDivideByZero
      else
        match index users ((j + i + channelNum) % users.length) with
        | .error e => .error e
        | .ok user =>
          match index channels channelNum with
          | .error e => .error e
          | .ok channel =>
            .ok (st.1 ++ postValues id now user.Id channel.Id parentRoot message, rootPosts)

/-- A call of `statement.Exec`: the values passed and whether the call returned an error. -/
structure ExecCall where
  vals : List SqlValue
  failed : Bool
  deriving DecidableEq, Repr

/-- The body of the loop over `i` (lines 451-476): one batch.  `statement` is `none` when
`db.Prepare` returned an error (the statement is then nil); an error of `Exec` is logged and
changes nothing else. -/
def fabricateBatch (config : LoadtestEnviromentConfig ℚ) (draws : PostDraws)
    (users : List ModelUser) (channels : List ModelChannel) (channelNum : Nat)
    (statement : Option String) (execError : Nat → Bool) (i : Nat)
    (st : List ExecCall × List String) : Except Panic (List ExecCall × List String) :=
  match forLoop 100 (fabricatePost config draws users channels channelNum i) ([], st.2) with
  | .error e => .error e
  | .ok (vals, rootPosts) =>
    match statement with
    | none => .error .nilDereference
    | some _ => .ok (st.1 ++ [{ vals := vals, failed := execError i }], rootPosts)

/-- The loop `for i := start; i < n; i += step { s = body(i, s) }`, run for at most `fuel`
iterations. -/
def forStepFrom {σ : Type} (fuel : Nat) (start : Nat) (n : Int) (step : Nat)
    (body : Nat → σ → Except Panic σ) (s : σ) : Except Panic σ :=
  match fuel with
  | 0 => .ok s
  | fuel + 1 =>
    if (start : Int) < n then
      match body start s with
      | .error e => .error e
      | .ok s1 => forStepFrom fuel (start + step) n step body s1
    else .ok s

/-- The function passed to `ThreadSplit` (lines 447-477): the fabrication loop of the channel
`channelNum`; the result is the sequence of the calls of `statement.Exec` and the final
`rootPosts`.  The loop over `i` ends after at most `numPostsPerChannel` iterations, which is the
fuel given to it.  The counter `i` is a natural number here; the `int` counter of the source
equals it as long as `i += 100` does not overflow, that is for
`numPostsPerChannel <= 2^63 - 100`. -/
def fabricateChannel (config : LoadtestEnviromentConfig ℚ) (draws : PostDraws)
    (users : List ModelUser) (channels : List ModelChannel) (channelNum : Nat)
    (statement : Option String) (execError : Nat → Bool) (numPostsPerChannel : Int) :
    Except Panic (List ExecCall × List String) :=
  forStepFrom numPostsPerChannel.toNat 0 numPostsPerChannel 100
    (fabricateBatch config draws users channels channelNum statement execError) ([], [])

/-- The names of the columns in the insert statement of line 393. -/
def postColumns : List String :=
  ["Id", "CreateAt", "UpdateAt", "EditAt", "DeleteAt", "IsPinned", "UserId", "ChannelId",
   "RootId", "ParentId", "OriginalId", "Message", "Type", "Props", "Hashtags", "Filenames",
   "FileIds", "HasReactions"]

/-- Lines 393-397: the text of the insert statement. -/
def statementStr : String :=
  let s := (List.range 100).foldl
    (fun acc _ => acc ++ "(?, ?, ?, ?, ?, ?, ?, ?, ?, ?, ?, ?, ?, ?, ?, ?, ?, ?),")
    ("INSERT INTO Posts (Id, CreateAt, UpdateAt, EditAt, DeleteAt, IsPinned, UserId, ChannelId, "
      ++ "RootId, ParentId, OriginalId, Message, Type, Props, Hashtags, Filenames, FileIds, "
      ++ "HasReactions) VALUES ")
  String.mk s.data.dropLast

/-- The requests to the server and to the database that `LoadPosts` makes. -/
inductive Event where
  | dbOpen
  | dbPing
  | login
  | getAllTeams (perPage : Int)
  | prepare (query : String)
  | getPublicChannelsForTeam (teamId : String) (page : Nat)
  | getUsersInTeam (teamId : String) (page : Nat)
  | exec (teamId : String) (channelNum : Nat) (vals : List SqlValue)
  | close
  deriving DecidableEq, Repr

/-- How a run of `LoadPosts` ends. -/
inductive Outcome where
  /-- The function returned (at its end or at a `return` statement). -/
  | returned
  /-- A goroutine panicked. -/
  | panicked (p : Panic)
  /-- The fuel given to the fetch of the channels ended before the server sent a short page. -/
  | unfinished
  deriving DecidableEq, Repr

/-- The answers of the database, of the server and of the random source to a run of
`LoadPosts`; `none` is an answer with an error. -/
structure World where
  openError : Bool
  pingError : Bool
  loginError : Bool
  GetAllTeams : Option (List ModelTeam)
  prepareError : Bool
  GetPublicChannelsForTeam : String → Nat → Option (List ModelChannel)
  GetUsersInTeam : String → Nat → Option (List ModelUser)
  execError : Nat → Nat → Nat → Bool
  draws : Nat → Nat → PostDraws
  implementationDependent : Int

/-- The loop of lines 414-422: the pages of the channels of a team, from `page` on. -/
def fetchChannels (w : World) (teamId : String) :
    Nat → Nat → List ModelChannel → List Event × Except Outcome (List ModelChannel)
  | 0, _, _ => ([], .error .unfinished)
  | fuel + 1, page, channels =>
    match w.GetPublicChannelsForTeam teamId page with
    | none => ([.getPublicChannelsForTeam teamId page], .error .returned)
    | some newchannels =>
      if newchannels.length = 200 then
        let r := fetchChannels w teamId fuel (page + 1) (channels ++ newchannels)
        (.getPublicChannelsForTeam teamId page :: r.1, r.2)
      else ([.getPublicChannelsForTeam teamId page], .ok (channels ++ newchannels))

/-- The loop of lines 428-443: the pages of the users of a team, from `page` on; `total` is the
number of users received so far. -/
def fetchUsers (w : World) (teamId : String) :
    Nat → Nat → Nat → List ModelUser → List Event × Except Outcome (List ModelUser)
  | 0, _, _, _ => ([], .error .unfinished)
  | fuel + 1, page, total, users =>
    match w.GetUsersInTeam teamId page with
    | none => ([.getUsersInTeam teamId page], .error .returned)
    | some newusers =>
      match newusers with
      | [] => ([.getUsersInTeam teamId page], .error (.panicked .indexOutOfRange))
      | _ :: _ =>
        if total + newusers.length ≥ 10000 then
          ([.getUsersInTeam teamId page], .ok (users ++ newusers))
        else if newusers.length = 200 then
          let r := fetchUsers w teamId fuel (page + 1) (total + newusers.length)
            (users ++ newusers)
          (.getUsersInTeam teamId page :: r.1, r.2)
        else ([.getUsersInTeam teamId page], .ok (users ++ newusers))

/-- The calls `action(k)` for the indices `k` of a list, one after the other. -/
def runActions (action : Nat → List Event × Except Panic Unit) :
    List Nat → List Event × Except Panic Unit
  | [] => ([], .ok ())
  | k :: rest =>
    match action k with
    | (events, .error p) => (events, .error p)
    | (events, .ok _) =>
      let r := runActions action rest
      (events ++ r.1, r.2)

/-- Modelled from the spec: `ThreadSplit`, a function of this package that is not under src/.
The specification says of it: "Work is distributed by assigning channel indices to workers; the
pool blocks the caller until all channels are processed."  The model calls `action` once for
every index below `sliceLen` and lists the requests of the calls in the order of the indices
(the workers run concurrently, so requests of different channels may interleave); a panic in a
call ends the program. -/
def ThreadSplit (sliceLen : Nat) (action : Nat → List Event × Except Panic Unit) :
    List Event × Except Panic Unit :=
  runActions action (List.range sliceLen)

/-- The function `strings.HasPrefix`: whether `s` begins with `pre`. -/
def HasPrefix (s pre : String) : Bool := pre.data.isPrefixOf s.data

/-- The function that line 446 passes to `ThreadSplit`, called for the channel `channelNum` of
the team at position `teamIndex`: the calls of `statement.Exec` of the channel, or a panic. -/
def channelWorker (w : World) (config : LoadtestEnviromentConfig ℚ)
    (statement : Option String) (numPostsPerChannel : Int) (teamIndex : Nat)
    (team : ModelTeam) (users : List ModelUser) (channels : List ModelChannel)
    (channelNum : Nat) : List Event × Except Panic Unit :=
  match fabricateChannel config (w.draws teamIndex channelNum) users channels channelNum
      statement (w.execError teamIndex channelNum) numPostsPerChannel with
  | .error p => ([], .error p)
  | .ok (calls, _) => (calls.map (fun c => Event.exec team.Id channelNum c.vals), .ok ())

/-- The body of the loop over `teams` (lines 407-478) for the team at position `teamIndex`. -/
def processTeam (w : World) (fuel : Nat) (config : LoadtestEnviromentConfig ℚ)
    (statement : Option String) (numPostsPerChannel : Int) (teamIndex : Nat)
    (team : ModelTeam) : List Event × Except Outcome Unit :=
  if ¬ HasPrefix team.Name "loadtestteam" then ([], .ok ())
  else
    match fetchChannels w team.Id fuel 0 [] with
    | (events1, .error o) => (events1, .error o)
    | (events1, .ok channels) =>
      match fetchUsers w team.Id 50 0 0 [] with
      | (events2, .error o) => (events1 ++ events2, .error o)
      | (events2, .ok users) =>
        match ThreadSplit channels.length
            (channelWorker w config statement numPostsPerChannel teamIndex team users
              channels) with
        | (events3, .error p) => (events1 ++ events2 ++ events3, .error (.panicked p))
        | (events3, .ok _) => (events1 ++ events2 ++ events3, .ok ())

/-- The loop over `teams` (lines 406-479), from the team at position `teamIndex` on. -/
def processTeams (w : World) (fuel : Nat) (config : LoadtestEnviromentConfig ℚ)
    (statement : Option String) (numPostsPerChannel : Int) :
    Nat → List ModelTeam → List Event × Except Outcome Unit
  | _, [] => ([], .ok ())
  | teamIndex, team :: rest =>
    match processTeam w fuel config statement numPostsPerChannel teamIndex team with
    | (events, .error o) => (events, .error o)
    | (events, .ok _) =>
      let r := processTeams w fuel config statement numPostsPerChannel (teamIndex + 1) rest
      (events ++ r.1, r.2)

/-- A run of `LoadPosts`: its requests, in order, and how it ended. -/
structure LoadPostsRun where
  events : List Event
  outcome : Outcome
  deriving DecidableEq, Repr

/-- The function `LoadPosts` (with `ConnectToDB`, lines 359-371, inlined), in the world `w`;
`fuel` bounds the number of channel pages fetched per team.  A failed login and a failed
`db.Prepare` are logged only (lines 381-383 and 398-403). -/
def LoadPosts (w : World) (fuel : Nat) (config : LoadtestEnviromentConfig ℚ) : LoadPostsRun :=
  if w.openError then { events := [.dbOpen], outcome := .returned }
  else if w.pingError then { events := [.dbOpen, .dbPing], outcome := .returned }
  else
    match w.GetAllTeams with
    | none =>
      { events := [.dbOpen, .dbPing, .login, .getAllTeams (config.NumTeams + 200)],
        outcome := .returned }
    | some teams =>
      let numPosts := numPostsPerChannel w.implementationDependent config
      let statement := if w.prepareError then none else some statementStr
      let r := processTeams w fuel config statement numPosts 0 teams
      let events := [.dbOpen, .dbPing, .login, .getAllTeams (config.NumTeams + 200),
        .prepare statementStr] ++ r.1
      match r.2 with
      | .error o => { events := events, outcome := o }
      | .ok _ =>
        match statement with
        | none => { events := events, outcome := .panicked .nilDereference }
        | some _ => { events := events ++ [.close], outcome := .returned }

/-! ## Auxiliary definitions for the proofs -/

/-- The team tier at position `sequenceNum` of `teamPermutation` (lines 218-241): the number of
users to add and the selection weight. -/
def teamTier {S : Type} (env : Env S) (config : LoadtestEnviromentConfig ℚ)
    (sequenceNum : Nat) : Int × Int :=
  tierOf sequenceNum
    (env.floorMul config.NumTeams config.PercentHighVolumeTeams)
    (env.floorMul config.NumTeams config.PercentMidVolumeTeams)
    (env.floorMul config.NumUsers config.PercentUsersHighVolumeTeams,
      config.HighVolumeTeamSelectionWeight)
    (env.floorMul config.NumUsers config.PercentUsersMidVolumeTeams,
      config.MidVolumeTeamSelectionWeight)
    (env.floorMul config.NumUsers config.PercentUsersLowVolumeTeams,
      config.LowVolumeTeamSelectionWeight)

/-- The channel tier at position `channelSequenceNum` of `channelsInTeam` (lines 258-277), in a
team of `numChannels` channels to which `numUsersToAdd` users were added: the number of users to
add before the cap of line 278, and the selection weight. -/
def channelTier {S : Type} (env : Env S) (config : LoadtestEnviromentConfig ℚ)
    (numChannels : Nat) (numUsersToAdd : Int) (channelSequenceNum : Nat) : Int × Int :=
  tierOf channelSequenceNum
    (env.floorMul numChannels config.PercentHighVolumeChannels)
    (env.floorMul numChannels config.PercentMidVolumeChannels)
    (env.floorMul numUsersToAdd config.PercentUsersHighVolumeChannel,
      config.HighVolumeChannelSelectionWeight)
    (env.floorMul numUsersToAdd config.PercentUsersMidVolumeChannel,
      config.MidVolumeChannelSelectionWeight)
    (env.floorMul numUsersToAdd config.PercentUsersLowVolumeChannel,
      config.LowVolumeChannelSelectionWeight)

/-- The cap of lines 278-280 on the number of users to add to a channel. -/
def capAt (numUsersToAddChannel : Int) (len : Nat) : Int :=
  if numUsersToAddChannel > (len : Int) then (len : Int) else numUsersToAddChannel

/-- The total form of `addChannel`: a user without team membership is left as it is. -/
def addChannelT (name : String) (selectWeight : Int) (u : UserImportData) : UserImportData :=
  match u.Teams.getLast? with
  | none => u
  | some t =>
    { u with Teams := u.Teams.set (u.Teams.length - 1) (addChannelToTeam name selectWeight t) }

/-- What one iteration of the loop over `channelsInTeam` did: the name and weight of the channel
and the indices of the users it was given to. -/
structure ChannelEffect where
  name : String
  weight : Int
  sel : List Nat

/-- What one iteration of the loop over `teamPermutation` did: the name and weight of the team,
the indices of the users added to it (`usersInTeam`) and the effects of its channels. -/
structure TeamEffect where
  name : String
  weight : Int
  members : List Nat
  chans : List ChannelEffect

/-- The channel iterations of one team, seen from the user with index `j`. -/
def applyChannels (chans : List ChannelEffect) (j : Nat) (u : UserImportData) : UserImportData :=
  chans.foldl (fun v c => if j ∈ c.sel then addChannelT c.name c.weight v else v) u

/-- One team iteration, seen from the user with index `j`. -/
def applyTeam (e : TeamEffect) (j : Nat) (u : UserImportData) : UserImportData :=
  if j ∈ e.members then applyChannels e.chans j (addTeam e.name e.weight u) else u

/-- All team iterations, seen from the user with index `j`. -/
def applyTeams (effs : List TeamEffect) (j : Nat) (u : UserImportData) : UserImportData :=
  effs.foldl (fun v e => applyTeam e j v) u

/-- The channel iteration at position `k` of a team with members `usersInTeam` is described by
the effect `c`. -/
def ChannelEffectOK {S : Type} (env : Env S) (config : LoadtestEnviromentConfig ℚ)
    (teamNum numChannels : Nat) (numUsersToAdd : Int) (usersInTeam : List Nat) (k : Nat)
    (c : ChannelEffect) : Prop :=
  c.name = (newChannel teamNum k).Name ∧
  c.weight = (channelTier env config numChannels numUsersToAdd k).2 ∧
  c.sel.Nodup ∧ (∀ x ∈ c.sel, x ∈ usersInTeam) ∧
  c.sel.length =
    (capAt (channelTier env config numChannels numUsersToAdd k).1 usersInTeam.length).toNat

/-- The team iteration at position `sequenceNum`, on team `teamNum`, is described by the
effect `e`. -/
def TeamEffectOK {S : Type} (env : Env S) (config : LoadtestEnviromentConfig ℚ)
    (sequenceNum teamNum : Nat) (e : TeamEffect) : Prop :=
  e.name = (newTeam teamNum).Name ∧
  e.weight = (teamTier env config sequenceNum).2 ∧
  (e.members.length : Int) = (teamTier env config sequenceNum).1 ∧
  e.members.Nodup ∧ (∀ i ∈ e.members, i < config.NumUsers.toNat) ∧
  e.chans.length = config.NumChannelsPerTeam.toNat ∧
  ∀ k c, e.chans[k]? = some c →
    ChannelEffectOK env config teamNum config.NumChannelsPerTeam.toNat
      (teamTier env config sequenceNum).1 e.members k c

/-- The number a decimal numeral stands for. -/
def decimalValue (cs : List Char) : Nat :=
  cs.foldl (fun a c => 10 * a + (c.toNat - 48)) 0

/-- The closed form of `channels`: team by team, channel by channel. -/
def channelsClosed (numTeams numChannelsPerTeam : Nat) : List ChannelImportData :=
  (List.range numTeams).flatMap (fun t => (List.range numChannelsPerTeam).map (newChannel t))

/-- The closed form of `channelsByTeam`. -/
def channelsByTeamClosed (numTeams numChannelsPerTeam : Nat) : List (List Nat) :=
  (List.range numTeams).map
    (fun t => (List.range numChannelsPerTeam).map (fun c => t * numChannelsPerTeam + c))

/-- The permutation of the teams drawn at line 227, the first draw from the random source. -/
def teamPermutation {S : Type} (env : Env S) (config : LoadtestEnviromentConfig ℚ) :
    List Nat :=
  (env.Perm env.seed29 config.NumTeams.toNat).1

/-- The channel iterations of one team, seen from the team membership they extend. -/
def chanFold (chans : List ChannelEffect) (j : Nat) (t : UserTeamImportData) :
    UserTeamImportData :=
  chans.foldl (fun v c => if j ∈ c.sel then addChannelToTeam c.name c.weight v else v) t

/-- The team membership one team iteration builds for the user with index `j`. -/
def membership (e : TeamEffect) (j : Nat) : UserTeamImportData :=
  chanFold e.chans j { Name := e.name, Roles := "team_user", Channels := [], ChannelChoice := [] }

/-- The team iterations that added the user with index `j` to their team. -/
def teamsOf (effs : List TeamEffect) (j : Nat) : List TeamEffect :=
  effs.filter (fun e => decide (j ∈ e.members))

/-- The channel iterations that added the user with index `j` to their channel. -/
def channelsOf (chans : List ChannelEffect) (j : Nat) : List ChannelEffect :=
  chans.filter (fun c => decide (j ∈ c.sel))

/-! ## Notions used to state the properties -/

/-- The position in `teamPermutation` of the team called `name` (the number of teams if there is
no such team). -/
def teamPosition {S : Type} (env : Env S) (config : LoadtestEnviromentConfig ℚ)
    (name : String) : Nat :=
  (teamPermutation env config).findIdx (fun teamNum => (newTeam teamNum).Name == name)

/-- The tier selection weight of the team called `name`. -/
def teamSelectionWeight {S : Type} (env : Env S) (config : LoadtestEnviromentConfig ℚ)
    (name : String) : Int :=
  (teamTier env config (teamPosition env config name)).2

/-- The number of users the tier of the team called `name` adds to the team. -/
def teamMemberTarget {S : Type} (env : Env S) (config : LoadtestEnviromentConfig ℚ)
    (name : String) : Int :=
  (teamTier env config (teamPosition env config name)).1

/-- Whether the user has a membership of the team. -/
def isTeamMember (teamName : String) (u : UserImportData) : Bool :=
  u.Teams.any (fun t => t.Name == teamName)

/-- Whether the user has, in a membership of the team, a membership of the channel. -/
def isChannelMember (teamName channelName : String) (u : UserImportData) : Bool :=
  u.Teams.any (fun t => t.Name == teamName && t.Channels.any (fun c => c.Name == channelName))

/-- The users of the result that are members of the team. -/
def teamMembers (r : GenerateBulkloadFileResult) (teamName : String) : List UserImportData :=
  r.Users.filter (isTeamMember teamName)

/-- The users of the result that are members of the channel of the team. -/
def channelMembers (r : GenerateBulkloadFileResult) (teamName channelName : String) :
    List UserImportData :=
  r.Users.filter (isChannelMember teamName channelName)

/-- The number of channel memberships the users of the result hold within the team. -/
def totalChannelMemberships (r : GenerateBulkloadFileResult) (teamName : String) : Nat :=
  (((r.Users.flatMap (fun u => u.Teams)).filter (fun t => t.Name == teamName)).map
    (fun t => t.Channels.length)).sum

/-- The user percentage of the tier of the channel at position `channelSequenceNum` among the
`numChannels` channels of its team. -/
def channelUserPercent {S : Type} (env : Env S) (config : LoadtestEnviromentConfig ℚ)
    (numChannels : Nat) (channelSequenceNum : Nat) : ℚ :=
  tierOf channelSequenceNum
    (env.floorMul numChannels config.PercentHighVolumeChannels)
    (env.floorMul numChannels config.PercentMidVolumeChannels)
    config.PercentUsersHighVolumeChannel
    config.PercentUsersMidVolumeChannel
    config.PercentUsersLowVolumeChannel

/-- The three volume tiers. -/
inductive Tier where
  | high
  | mid
  | low
  deriving DecidableEq, Repr

/-- The invariant of the pipeline: nothing is lost, duplicated or reordered. -/
def PipeInv (records : List LineImportData) (st : PipeState) : Prop :=
  st.output ++ st.queue ++ st.pending = records ∧
  (st.closed = true → st.pending = []) ∧
  (st.done = true → st.queue = [] ∧ st.closed = true)

/-- The tier of the team at position `sequenceNum` of `teamPermutation` (lines 232-241 applied to
the names of the tiers). -/
def teamTierLabel {S : Type} (env : Env S) (config : LoadtestEnviromentConfig ℚ)
    (sequenceNum : Nat) : Tier :=
  tierOf sequenceNum
    (env.floorMul config.NumTeams config.PercentHighVolumeTeams)
    (env.floorMul config.NumTeams config.PercentMidVolumeTeams)
    Tier.high Tier.mid Tier.low

/-- The number of users to add and the selection weight of a team tier (lines 221-223 and
232-240). -/
def teamTierValues {S : Type} (env : Env S) (config : LoadtestEnviromentConfig ℚ) :
    Tier → Int × Int
  | .high => (env.floorMul config.NumUsers config.PercentUsersHighVolumeTeams,
      config.HighVolumeTeamSelectionWeight)
  | .mid => (env.floorMul config.NumUsers config.PercentUsersMidVolumeTeams,
      config.MidVolumeTeamSelectionWeight)
  | .low => (env.floorMul config.NumUsers config.PercentUsersLowVolumeTeams,
      config.LowVolumeTeamSelectionWeight)

/-- The selection weight of the tier of the channel at position `channelSequenceNum` among the
`numChannels` channels of its team (lines 258-259 and 268-277). -/
def channelSelectionWeight {S : Type} (env : Env S) (config : LoadtestEnviromentConfig ℚ)
    (numChannels : Nat) (channelSequenceNum : Nat) : Int :=
  tierOf channelSequenceNum
    (env.floorMul numChannels config.PercentHighVolumeChannels)
    (env.floorMul numChannels config.PercentMidVolumeChannels)
    config.HighVolumeChannelSelectionWeight
    config.MidVolumeChannelSelectionWeight
    config.LowVolumeChannelSelectionWeight

/-- Follows the words of the specification, not the source: the selection weight of the channel
with generation index `c` if the channels of a team were tiered by their position in a fresh
random permutation of the channels of the team, drawn in the state `s` of the random source. -/
def channelSelectionWeightByPermutation {S : Type} (env : Env S)
    (config : LoadtestEnviromentConfig ℚ) (s : S) (numChannels : Nat) (c : Nat) : Int :=
  channelSelectionWeight env config numChannels ((env.Perm s numChannels).1.indexOf c)

/-- A choice table over a slice of `n` elements as the generator builds it: one entry per
element, the entry at position `k` referring to the index `k`. -/
def ChoiceTableOK (choices : List Choice) (n : Nat) : Prop :=
  choices.length = n ∧ ∀ (k : Nat) (c : Choice), choices[k]? = some c → c.Item = .int k

/-- A post as a row of the table `Posts`: its 18 columns, in the order of the insert
statement. -/
structure PostRow where
  Id : String
  CreateAt : Int
  UpdateAt : Int
  EditAt : Int
  DeleteAt : Int
  IsPinned : Int
  UserId : String
  ChannelId : String
  RootId : String
  ParentId : String
  OriginalId : String
  Message : String
  Type_ : String
  Props : String
  Hashtags : String
  Filenames : String
  FileIds : String
  HasReactions : Int
  deriving DecidableEq, Repr

/-- The values of the columns of a post, in the order of `postColumns`. -/
def PostRow.values (r : PostRow) : List SqlValue :=
  [.str r.Id, .int r.CreateAt, .int r.UpdateAt, .int r.EditAt, .int r.DeleteAt,
   .int r.IsPinned, .str r.UserId, .str r.ChannelId, .str r.RootId, .str r.ParentId,
   .str r.OriginalId, .str r.Message, .str r.Type_, .str r.Props, .str r.Hashtags,
   .str r.Filenames, .str r.FileIds, .int r.HasReactions]

/-- The number of iterations of `for i := 0; i < n; i += 100`: `ceil(n / 100)`, and `0` for
`n <= 0`. -/
def batchCount (n : Int) : Nat := ((n + 99) / 100).toNat

/-- What is known of the post at position `j` of a batch, when `roots` is `rootPosts` at the end
of the batch. -/
def BatchRowOK (config : LoadtestEnviromentConfig ℚ) (roots : List String) (j : Nat)
    (row : PostRow) : Prop :=
  row.RootId = row.ParentId ∧ row.CreateAt = row.UpdateAt ∧
  (j = 0 → row.RootId = "" ∧ roots.getLast? = some row.Id) ∧
  (row.RootId = "" ∨ row.RootId ∈ roots) ∧
  (config.ReplyChance ≤ 0 → row.RootId = "")

/-- The value that a post has in the column of the given name. -/
def PostRow.column (r : PostRow) (name : String) : Option SqlValue :=
  if name = "Id" then some (.str r.Id)
  else if name = "CreateAt" then some (.int r.CreateAt)
  else if name = "UpdateAt" then some (.int r.UpdateAt)
  else if name = "EditAt" then some (.int r.EditAt)
  else if name = "DeleteAt" then some (.int r.DeleteAt)
  else if name = "IsPinned" then some (.int r.IsPinned)
  else if name = "UserId" then some (.str r.UserId)
  else if name = "ChannelId" then some (.str r.ChannelId)
  else if name = "RootId" then some (.str r.RootId)
  else if name = "ParentId" then some (.str r.ParentId)
  else if name = "OriginalId" then some (.str r.OriginalId)
  else if name = "Message" then some (.str r.Message)
  else if name = "Type" then some (.str r.Type_)
  else if name = "Props" then some (.str r.Props)
  else if name = "Hashtags" then some (.str r.Hashtags)
  else if name = "Filenames" then some (.str r.Filenames)
  else if name = "FileIds" then some (.str r.FileIds)
  else if name = "HasReactions" then some (.int r.HasReactions)
  else none

/-- The post that lines 455-470 fabricate from the values drawn. -/
def mkPostRow (id : String) (now : Int) (userId channelId parentRoot message : String) :
    PostRow :=
  { Id := id, CreateAt := now, UpdateAt := now, EditAt := 0, DeleteAt := 0, IsPinned := 0,
    UserId := userId, ChannelId := channelId, RootId := parentRoot, ParentId := parentRoot,
    OriginalId := "", Message := message, Type_ := "", Props := "\x7b\x7d", Hashtags := "",
    Filenames := "[]", FileIds := "[]", HasReactions := 0 }

/-- What is known of the call of `statement.Exec` of the batch `b` of a channel, when `roots` is
`rootPosts` at the end of the loop of the channel: the call passes the values of 100 posts. -/
def BatchOK (config : LoadtestEnviromentConfig ℚ) (execError : Nat → Bool) (roots : List String)
    (b : Nat) (call : ExecCall) : Prop :=
  call.failed = execError (100 * b) ∧
  ∃ rows : List PostRow, rows.length = 100 ∧ call.vals = rows.flatMap PostRow.values ∧
    ∀ j row, rows[j]? = some row → BatchRowOK config (roots.take (b + 1)) j row

/-! ## Concrete environments and configurations -/

/-- The `float64` value of a decimal literal such as `0.2`: the `float64` nearest to it. -/
def float64Literal (q : ℚ) : ℚ := roundFloat64 q

/-- An environment (amd64) whose random source rotates `0, ..., n-1` by the number of draws
made. -/
def rotatingEnv : Env Nat :=
  { outOfRangeInt := fun _ _ => -2 ^ 63
    outOfRangeInt_range := fun _ _ => ⟨le_refl _, (by decide : (-2 : Int) ^ 63 < 2 ^ 63)⟩
    seed29 := 0
    Perm := fun s n => ((List.range n).rotate s, s + 1)
    Perm_perm := fun s n => List.rotate_perm (List.range n) s }

/-- An environment (amd64) whose random source always draws `n-1, ..., 0`. -/
def reversingEnv : Env Unit :=
  { outOfRangeInt := fun _ _ => -2 ^ 63
    outOfRangeInt_range := fun _ _ => ⟨le_refl _, (by decide : (-2 : Int) ^ 63 < 2 ^ 63)⟩
    seed29 := ()
    Perm := fun s n => ((List.range n).reverse, s)
    Perm_perm := fun _ n => List.reverse_perm (List.range n) }

/-- The schedule that lets the two goroutines take `n` turns each, alternately. -/
def alternating : Nat → List Actor
  | 0 => []
  | n + 1 => .producer :: .consumer :: alternating n

/-- A configuration with the given counts, the same percentages and weights on the team and the
channel axis, and no posts. -/
def mkConfig (numTeams numChannelsPerTeam numUsers : Int)
    (pctHigh pctMid pctLow usersHigh usersMid usersLow : ℚ) :
    LoadtestEnviromentConfig ℚ :=
  { NumTeams := numTeams
    NumChannelsPerTeam := numChannelsPerTeam
    NumUsers := numUsers
    PercentHighVolumeChannels := pctHigh
    PercentMidVolumeChannels := pctMid
    PercentLowVolumeChannels := pctLow
    PercentUsersHighVolumeChannel := usersHigh
    PercentUsersMidVolumeChannel := usersMid
    PercentUsersLowVolumeChannel := usersLow
    PercentHighVolumeTeams := pctHigh
    PercentMidVolumeTeams := pctMid
    PercentLowVolumeTeams := pctLow
    PercentUsersHighVolumeTeams := usersHigh
    PercentUsersMidVolumeTeams := usersMid
    PercentUsersLowVolumeTeams := usersLow
    HighVolumeTeamSelectionWeight := 3
    MidVolumeTeamSelectionWeight := 2
    LowVolumeTeamSelectionWeight := 1
    HighVolumeChannelSelectionWeight := 3
    MidVolumeChannelSelectionWeight := 2
    LowVolumeChannelSelectionWeight := 1
    NumPosts := 0
    PostTimeRange := 1
    ReplyChance := 0 }

/-- The example configuration of the specification: 2 teams, 3 channels per team, 10 users, the
tiers split 0.2/0.3/0.5. -/
def exampleConfig : LoadtestEnviromentConfig ℚ :=
  mkConfig 2 3 10 (float64Literal (1 / 5)) (float64Literal (3 / 10)) (1 / 2)
    (1 / 2) (float64Literal (3 / 10)) (float64Literal (1 / 5))

/-- One team with one channel and two users, all of them members of the team; the user
percentage of high volume channels is `-0.5`. -/
def negativeChannelPercentConfig : LoadtestEnviromentConfig ℚ :=
  { mkConfig 1 1 2 0 0 0 1 1 1 with PercentUsersHighVolumeChannel := -1 / 2 }

/-- One team with one channel and two users, all of them members of the team; the user
percentage of high volume channels is `1e30`. -/
def hugeChannelPercentConfig : LoadtestEnviromentConfig ℚ :=
  { mkConfig 1 1 2 0 0 0 1 1 1 with PercentUsersHighVolumeChannel := float64Literal (10 ^ 30) }

/-- One team with two channels and one user; every user percentage is `1`. -/
def twoChannelsConfig : LoadtestEnviromentConfig ℚ :=
  mkConfig 1 2 1 0 0 0 1 1 1

/-- Two teams without channels and two users; the percentage of mid volume teams is `-0.5`, the
user percentages of the tiers are `1`, `0.5` and `0`. -/
def negativeMidPercentConfig : LoadtestEnviromentConfig ℚ :=
  mkConfig 2 0 2 0 (-1 / 2) 0 1 (1 / 2) 0

/-- Two teams without channels and two users; the percentages of high and of mid volume teams
are `4e18`, so that both counts are `8e18` and their sum overflows; the user percentages of the
tiers are `1`, `0.5` and `0`. -/
def overflowingPercentConfig : LoadtestEnviromentConfig ℚ :=
  mkConfig 2 0 2 (4 * 10 ^ 18) (4 * 10 ^ 18) 0 1 (1 / 2) 0

/-- One team without channels and two users; the user percentage of high volume teams is
`1.5`. -/
def percentAboveOneConfig : LoadtestEnviromentConfig ℚ :=
  mkConfig 1 0 2 0 0 0 (3 / 2) 0 0

/-- One team without channels and two users; the user percentage of high volume teams is
`-0.5`. -/
def negativeUserPercentConfig : LoadtestEnviromentConfig ℚ :=
  mkConfig 1 0 2 0 0 0 (-1 / 2) 0 0

/-- A user with one team membership that holds no channel membership. -/
def userWithoutChannels : UserImportData :=
  addTeam "loadtestteam0" 3 (newUser 0)

/-- A stand-in for `randutil.WeightedChoice` that fails on the empty table and returns the first
entry of any other table. -/
def firstChoice (_call : Nat) (table : List Choice) : Except String Choice :=
  match table with
  | [] => .error "empty table"
  | c :: _ => .ok c

/-- The configuration of the post fabrication example of the specification: 1000 posts, 2 teams,
3 channels per team. -/
def thousandPostsConfig : LoadtestEnviromentConfig ℚ :=
  { exampleConfig with NumPosts := 1000 }

/-- One team with one channel and `2^53 + 1` posts. -/
def hugePostsConfig : LoadtestEnviromentConfig ℚ :=
  { mkConfig 1 1 1 0 0 0 1 1 1 with NumPosts := 9007199254740993 }

/-- A configuration for `LoadPosts`: the counts, the time range and the reply chance are given;
the percentages, which `LoadPosts` does not read, are zero. -/
def postsConfig (numTeams numChannelsPerTeam numPosts postTimeRange : Int) (replyChance : ℚ) :
    LoadtestEnviromentConfig ℚ :=
  { NumTeams := numTeams
    NumChannelsPerTeam := numChannelsPerTeam
    NumUsers := 10
    PercentHighVolumeChannels := 0
    PercentMidVolumeChannels := 0
    PercentLowVolumeChannels := 0
    PercentUsersHighVolumeChannel := 0
    PercentUsersMidVolumeChannel := 0
    PercentUsersLowVolumeChannel := 0
    PercentHighVolumeTeams := 0
    PercentMidVolumeTeams := 0
    PercentLowVolumeTeams := 0
    PercentUsersHighVolumeTeams := 0
    PercentUsersMidVolumeTeams := 0
    PercentUsersLowVolumeTeams := 0
    HighVolumeTeamSelectionWeight := 3
    MidVolumeTeamSelectionWeight := 2
    LowVolumeTeamSelectionWeight := 1
    HighVolumeChannelSelectionWeight := 3
    MidVolumeChannelSelectionWeight := 2
    LowVolumeChannelSelectionWeight := 1
    NumPosts := numPosts
    PostTimeRange := postTimeRange
    ReplyChance := replyChance }

/-- A random source whose `Float64` is always `0`, whose `Intn` is always `0` and whose ids are
`post<i+j>`. -/
def zeroDraws : PostDraws :=
  { SentencesN := fun _ _ => "Lorem ipsum."
    Now := fun _ _ => 1500000000
    Int63n := fun _ j => j
    NewId := fun i j => "post" ++ Itoa (i + j)
    Float64 := fun _ _ => 0
    Intn := fun _ _ _ => 0
    Float64_nonneg := fun _ _ => le_refl 0
    Float64_lt_one := fun _ _ => zero_lt_one
    Intn_lt := fun _ _ _ h => h }

/-- Three users of a team. -/
def threeUsers : List ModelUser :=
  [{ Id := "uid0", Username := "user0" }, { Id := "uid1", Username := "user1" },
   { Id := "uid2", Username := "user2" }]

/-- Two channels of a team. -/
def twoChannels : List ModelChannel := [{ Id := "cid0" }, { Id := "cid1" }]

/-- Two teams of the load test, as the server lists them. -/
def loadtestTeams : List ModelTeam :=
  [{ Id := "team0", Name := "loadtestteam0" }, { Id := "team1", Name := "loadtestteam1" }]

/-- Two teams with two channels each and 400 posts: 100 posts per channel. -/
def loadPostsConfig : LoadtestEnviromentConfig ℚ := postsConfig 2 2 400 1000 0

/-- A world without errors: two teams, each with the channels `twoChannels` and the users
`threeUsers` on page 0. -/
def healthyWorld : World :=
  { openError := false
    pingError := false
    loginError := false
    GetAllTeams := some loadtestTeams
    prepareError := false
    GetPublicChannelsForTeam := fun _ page => if page = 0 then some twoChannels else some []
    GetUsersInTeam := fun _ page => if page = 0 then some threeUsers else some []
    execError := fun _ _ _ => false
    draws := fun _ _ => zeroDraws
    implementationDependent := 0 }

/-- The world `healthyWorld`, but the request for the channels of `team0` fails. -/
def channelFetchFailsWorld : World :=
  { healthyWorld with
    GetPublicChannelsForTeam := fun teamId page =>
      if teamId = "team0" then none else healthyWorld.GetPublicChannelsForTeam teamId page }

/-- The world `healthyWorld`, but the request for the users of `team0` fails. -/
def userFetchFailsWorld : World :=
  { healthyWorld with
    GetUsersInTeam := fun teamId page =>
      if teamId = "team0" then none else healthyWorld.GetUsersInTeam teamId page }

/-- The world `channelFetchFailsWorld` with `team1` as its only team. -/
def secondTeamWorld : World :=
  { channelFetchFailsWorld with
    GetAllTeams := some [{ Id := "team1", Name := "loadtestteam1" }] }

/-- Three teams of the load test; the request for the channels of `team1`, the second of
them, fails, every other request is answered as in `healthyWorld`. -/
def secondTeamFailsWorld : World :=
  { healthyWorld with
    GetAllTeams := some
      [{ Id := "team0", Name := "loadtestteam0" }, { Id := "team1", Name := "loadtestteam1" },
       { Id := "team2", Name := "loadtestteam2" }]
    GetPublicChannelsForTeam := fun teamId page =>
      if teamId = "team1" then none else healthyWorld.GetPublicChannelsForTeam teamId page }

/-- The world `healthyWorld`, but `db.Prepare` fails. -/
def prepareFailsWorld : World := { healthyWorld with prepareError := true }

/-- The world `healthyWorld`, but the login of the admin fails. -/
def loginFailsWorld : World := { healthyWorld with loginError := true }

/-- The world `healthyWorld`, but every team has exactly 200 users: page 0 is full and page 1
is empty. -/
def fullPageWorld : World :=
  { healthyWorld with
    GetUsersInTeam := fun _ page =>
      if page = 0 then some (List.replicate 200 { Id := "uid0", Username := "user0" })
      else some [] }

/-- The world `healthyWorld`, but the teams have no users: page 0 is empty. -/
def noUsersWorld : World :=
  { healthyWorld with GetUsersInTeam := fun _ _ => some [] }

/-- Whether a request is a call of `statement.Exec`. -/
def Event.isExec : Event → Bool
  | .exec _ _ _ => true
  | _ => false

/-- Whether a request is about the team with the given id. -/
def Event.isAbout (teamId : String) : Event → Bool
  | .getPublicChannelsForTeam t _ => t = teamId
  | .getUsersInTeam t _ => t = teamId
  | .exec t _ _ => t = teamId
  | _ => false

/-- The world `healthyWorld`, but the database cannot be opened. -/
def openFailsWorld : World := { healthyWorld with openError := true }

/-- The world `healthyWorld`, but the database does not answer the ping. -/
def pingFailsWorld : World := { healthyWorld with pingError := true }

/-! ## Decimal numerals -/

theorem digitChar_toNat (k : Nat) (hk : k < 10) : (Nat.digitChar k).toNat - 48 = k := by
  interval_cases k <;> rfl

theorem foldl_toDigitsCore (fuel : Nat) : ∀ (n : Nat) (ds : List Char), n < fuel →
    (Nat.toDigitsCore 10 fuel n ds).foldl (fun a c => 10 * a + (c.toNat - 48)) 0
      = ds.foldl (fun a c => 10 * a + (c.toNat - 48)) n := by
  induction fuel with
  | zero => intro n ds h; omega
  | succ fuel ih =>
    intro n ds h
    have hd : (Nat.digitChar (n % 10)).toNat - 48 = n % 10 :=
      digitChar_toNat _ (Nat.mod_lt _ (by decide))
    simp only [Nat.toDigitsCore]
    split
    · rename_i h0
      have hn : n % 10 = n := by omega
      rw [hn] at hd
      simp only [List.foldl_cons, hn, hd, Nat.mul_zero, Nat.zero_add]
    · rename_i h0
      rw [ih (n / 10) _ (by omega)]
      simp only [List.foldl_cons, hd]
      congr 1
      omega

theorem decimalValue_toDigits (n : Nat) : decimalValue (Nat.toDigits 10 n) = n := by
  unfold decimalValue Nat.toDigits
  rw [foldl_toDigitsCore (n + 1) n [] (Nat.lt_succ_self n)]
  rfl

theorem Itoa_injective : Function.Injective Itoa := by
  intro a b h
  have h1 : (Itoa a).data = (Itoa b).data := congrArg String.data h
  have h2 : Nat.toDigits 10 a = Nat.toDigits 10 b := h1
  have h3 := congrArg decimalValue h2
  rwa [decimalValue_toDigits, decimalValue_toDigits] at h3

theorem append_left_cancel_str (p a b : String) (h : p ++ a = p ++ b) : a = b := by
  have h1 := congrArg String.data h
  simp only [String.data_append, List.append_cancel_left_eq] at h1
  exact String.ext h1

theorem append_right_cancel_str (a b q : String) (h : a ++ q = b ++ q) : a = b := by
  have h1 := congrArg String.data h
  simp only [String.data_append, List.append_cancel_right_eq] at h1
  exact String.ext h1

theorem foldl_append_singleton {α β : Type} (f : α → β) (l : List α) (init : List β) :
    l.foldl (fun acc i => acc ++ [f i]) init = init ++ l.map f := by
  induction l generalizing init with
  | nil => simp
  | cons a l ih => simp [ih]

theorem makesliceFails_eq_false (elemSize : Nat) (cap : Int) :
    makesliceFails elemSize cap = false ↔ 0 ≤ cap ∧ (elemSize : Int) * cap ≤ (maxAlloc : Int) := by
  unfold makesliceFails
  simp only [Bool.or_eq_false_iff, decide_eq_false_iff_not, not_lt, gt_iff_lt]

theorem makesliceFails_eq_true (elemSize : Nat) (cap : Int) :
    makesliceFails elemSize cap = true ↔ cap < 0 ∨ (maxAlloc : Int) < (elemSize : Int) * cap := by
  unfold makesliceFails
  simp only [Bool.or_eq_true, decide_eq_true_eq, gt_iff_lt]

theorem generateTeams_eq (numTeams : Int) (h : makesliceFails 72 numTeams = false) :
    generateTeams numTeams = .ok ((List.range numTeams.toNat).map newTeam) := by
  unfold generateTeams
  rw [h, foldl_append_singleton]
  simp

theorem generateUsers_eq (n : Nat) : generateUsers n = (List.range n).map newUser := by
  unfold generateUsers
  rw [foldl_append_singleton]
  simp


theorem updateAt_append_singleton {α : Type} (xs : List α) (x : α) (f : α → α) :
    updateAt (xs ++ [x]) xs.length f = xs ++ [f x] := by
  unfold updateAt
  simp

theorem channelsClosed_length (T N : Nat) : (channelsClosed T N).length = T * N := by
  unfold channelsClosed
  induction T with
  | zero => simp
  | succ T ih =>
    rw [List.range_succ, List.flatMap_append, List.length_append, ih]
    simp [Nat.succ_mul]

theorem generateChannels_inner (teamNum : Nat) (l : List Nat) :
    ∀ (chs : List ChannelImportData) (cbt : List (List Nat)) (cur : List Nat),
      cbt.length = teamNum →
      l.foldl
        (fun (st1 : List ChannelImportData × List (List Nat)) channelNum =>
          let channels := st1.1 ++ [newChannel teamNum channelNum]
          (channels, updateAt st1.2 teamNum (fun l => l ++ [channels.length - 1])))
        (chs, cbt ++ [cur])
      = (chs ++ l.map (newChannel teamNum),
         cbt ++ [cur ++ (List.range l.length).map (fun k => chs.length + k)]) := by
  induction l with
  | nil => intro chs cbt cur _; simp
  | cons c l ih =>
    intro chs cbt cur hlen
    simp only [List.foldl_cons]
    have hu : updateAt (cbt ++ [cur]) teamNum
        (fun l => l ++ [(chs ++ [newChannel teamNum c]).length - 1])
        = cbt ++ [cur ++ [chs.length]] := by
      rw [← hlen, updateAt_append_singleton]
      simp
    rw [hu, ih _ _ _ hlen]
    simp only [List.map_cons, List.append_assoc, List.singleton_append, List.length_cons,
      List.length_append, List.length_singleton, List.length_nil, Nat.zero_add]
    congr 3
    rw [List.range_succ_eq_map]
    simp only [List.map_cons, List.map_map, Nat.add_zero, List.cons.injEq, true_and]
    congr 2
    apply List.map_congr_left
    intro a _
    simp only [Function.comp_apply]
    omega

theorem generateChannels_eq (T N : Nat) :
    generateChannels T N = (channelsClosed T N, channelsByTeamClosed T N) := by
  unfold generateChannels channelsClosed channelsByTeamClosed
  induction T with
  | zero => simp
  | succ T ih =>
    rw [List.range_succ, List.foldl_append, ih]
    simp only [List.foldl_cons, List.foldl_nil]
    have hlen : ((List.range T).map
        (fun t => (List.range N).map (fun c => t * N + c))).length = T := by simp
    have h := generateChannels_inner T (List.range N)
      ((List.range T).flatMap (fun t => (List.range N).map (newChannel t)))
      ((List.range T).map (fun t => (List.range N).map (fun c => t * N + c))) [] hlen
    rw [h]
    have hl := channelsClosed_length T N
    unfold channelsClosed at hl
    simp [hl]


theorem index_eq_ok {α : Type} (xs : List α) (i : Nat) (x : α) :
    index xs i = .ok x ↔ xs[i]? = some x := by
  unfold index
  cases h : xs[i]? <;> simp

theorem forLoop_zero {σ : Type} (body : Nat → σ → Except Panic σ) (s : σ) :
    forLoop 0 body s = .ok s := rfl

theorem forLoop_succ {σ : Type} (n : Nat) (body : Nat → σ → Except Panic σ) (s : σ) :
    forLoop (n + 1) body s
      = match forLoop n body s with
        | .error e => .error e
        | .ok s1 => body n s1 := by
  unfold forLoop
  rw [List.range_succ, List.foldlM_append]
  cases h : List.foldlM (fun st i => body i st) s (List.range n) with
  | error e => rfl
  | ok s1 =>
    show (body n s1 >>= fun s2 => pure s2) = body n s1
    cases body n s1 <;> rfl

/-- Invariant rule for `forLoop`. -/
theorem forLoop_invariant {σ : Type} (Inv : Nat → σ → Prop) (n : Nat)
    (body : Nat → σ → Except Panic σ) (s s1 : σ)
    (h0 : Inv 0 s)
    (hstep : ∀ k st st1, k < n → Inv k st → body k st = .ok st1 → Inv (k + 1) st1)
    (hrun : forLoop n body s = .ok s1) : Inv n s1 := by
  induction n generalizing s1 with
  | zero =>
    rw [forLoop_zero] at hrun
    cases hrun
    exact h0
  | succ n ih =>
    rw [forLoop_succ] at hrun
    cases hmid : forLoop n body s with
    | error e => rw [hmid] at hrun; cases hrun
    | ok s2 =>
      rw [hmid] at hrun
      exact hstep n s2 s1 (Nat.lt_succ_self n)
        (ih s2 (fun k st st1 hk => hstep k st st1 (Nat.lt_succ_of_lt hk)) hmid) hrun

/-- Invariant rule for `forRangeFrom`. -/
theorem forRangeFrom_invariant {α σ : Type} (Inv : Nat → σ → Prop) (xs : List α) :
    ∀ (start : Nat) (body : Nat → α → σ → Except Panic σ) (s s1 : σ),
    Inv 0 s →
    (∀ k x st st1, xs[k]? = some x → Inv k st → body (start + k) x st = .ok st1 →
      Inv (k + 1) st1) →
    forRangeFrom start xs body s = .ok s1 → Inv xs.length s1 := by
  induction xs generalizing Inv with
  | nil =>
    intro start body s s1 h0 _ hrun
    unfold forRangeFrom at hrun
    cases hrun
    exact h0
  | cons x rest ih =>
    intro start body s s1 h0 hstep hrun
    unfold forRangeFrom at hrun
    cases hb : body start x s with
    | error e => rw [hb] at hrun; cases hrun
    | ok s2 =>
      rw [hb] at hrun
      have h1 : Inv 1 s2 := hstep 0 x s s2 (by simp) h0 (by simpa using hb)
      have := ih (fun k st => Inv (k + 1) st) (start + 1) body s2 s1 h1
        (fun k y st st1 hy hinv hbody =>
          hstep (k + 1) y st st1 (by simpa using hy) hinv
            (by rw [← hbody]; congr 1; omega))
        hrun
      simpa using this

/-- Invariant rule for `forRange`. -/
theorem forRange_invariant {α σ : Type} (Inv : Nat → σ → Prop) (xs : List α)
    (body : Nat → α → σ → Except Panic σ) (s s1 : σ)
    (h0 : Inv 0 s)
    (hstep : ∀ k x st st1, xs[k]? = some x → Inv k st → body k x st = .ok st1 →
      Inv (k + 1) st1)
    (hrun : forRange xs body s = .ok s1) : Inv xs.length s1 :=
  forRangeFrom_invariant Inv xs 0 body s s1 h0
    (fun k x st st1 hx hinv hb => hstep k x st st1 hx hinv (by simpa using hb)) hrun


theorem addChannel_ok (name : String) (w : Int) (u u1 : UserImportData)
    (h : addChannel name w u = .ok u1) : u1 = addChannelT name w u ∧ u.Teams ≠ [] := by
  unfold addChannel at h
  unfold addChannelT
  cases hl : u.Teams.getLast? with
  | none => rw [hl] at h; cases h
  | some t =>
    rw [hl] at h
    cases h
    refine ⟨rfl, ?_⟩
    intro hnil
    rw [hnil] at hl
    cases hl

theorem not_mem_take_of_nodup (q : List Nat) (k a : Nat) (hq : q.Nodup) (ha : q[k]? = some a) :
    a ∉ q.take k := by
  intro hmem
  obtain ⟨i, hi, hia⟩ := List.getElem_of_mem hmem
  have hi' : i < k ∧ i < q.length := by
    simpa [List.length_take] using hi
  rw [List.getElem_take] at hia
  obtain ⟨hk, hka⟩ := List.getElem?_eq_some_iff.mp ha
  have := (List.Nodup.getElem_inj_iff hq).mp (hia.trans hka.symm)
  omega

theorem take_succ_of_getElem? (q : List Nat) (k a : Nat) (ha : q[k]? = some a) :
    q.take (k + 1) = q.take k ++ [a] := by
  rw [List.take_succ, ha]
  rfl

theorem getElem?_set_map {α : Type} (us : List α) (i j : Nat) (u v : α)
    (hu : us[i]? = some u) :
    (us.set i v)[j]? = if j = i then some v else us[j]? := by
  have hi : i < us.length := (List.getElem?_eq_some_iff.mp hu).1
  by_cases hji : j = i
  · subst hji
    simp [hi]
  · rw [if_neg hji, List.getElem?_set_ne (Ne.symm hji)]

theorem addTeamMembers_ok (name : String) (w : Int) (p : List Nat) (n : Nat)
    (users us : List UserImportData) (uit : List Nat) (hp : p.Nodup)
    (h : addTeamMembers name w p n users = .ok (us, uit)) :
    n ≤ p.length ∧ uit = p.take n ∧ (∀ i ∈ uit, i < users.length) ∧
      us.length = users.length ∧
      ∀ j, us[j]? = (users[j]?).map (fun u => if j ∈ uit then addTeam name w u else u) := by
  unfold addTeamMembers at h
  have key := forLoop_invariant
    (fun k (st : List UserImportData × List Nat) =>
      k ≤ p.length ∧ st.2 = p.take k ∧ (∀ i ∈ st.2, i < users.length) ∧
      st.1.length = users.length ∧
      ∀ j, st.1[j]? = (users[j]?).map (fun u => if j ∈ st.2 then addTeam name w u else u))
    n _ (users, []) (us, uit) ?_ ?_ h
  · exact key
  · refine ⟨Nat.zero_le _, by simp, by simp, rfl, ?_⟩
    intro j
    cases users[j]? <;> simp
  · intro k st st1 _ hinv hbody
    obtain ⟨hk, htake, hlt, hlen, hpt⟩ := hinv
    cases hi : index p k with
    | error e => simp only [hi] at hbody; cases hbody
    | ok i =>
      simp only [hi] at hbody
      cases hu : index st.1 i with
      | error e => simp only [hu] at hbody; cases hbody
      | ok u =>
        simp only [hu] at hbody
        cases hbody
        rw [index_eq_ok] at hi hu
        have hik : k < p.length := (List.getElem?_eq_some_iff.mp hi).1
        have hiu : i < st.1.length := (List.getElem?_eq_some_iff.mp hu).1
        have hnot : i ∉ st.2 := by rw [htake]; exact not_mem_take_of_nodup p k i hp hi
        refine ⟨hik, ?_, ?_, ?_, ?_⟩
        · show st.2 ++ [i] = _
          rw [take_succ_of_getElem? p k i hi, htake]
        · intro x hx
          rcases List.mem_append.mp hx with hx | hx
          · exact hlt x hx
          · simp only [List.mem_singleton] at hx
            omega
        · simp [hlen]
        · intro j
          show (st.1.set i (addTeam name w u))[j]? = _
          rw [getElem?_set_map st.1 i j u _ hu]
          by_cases hji : j = i
          · subst hji
            have := hpt j
            rw [hu] at this
            rw [if_pos rfl]
            cases hx : users[j]? with
            | none => rw [hx] at this; cases this
            | some x =>
              rw [hx] at this
              simp only [Option.map_some', if_neg hnot, Option.some.injEq] at this
              simp [this]
          · rw [if_neg hji, hpt j]
            have : (j ∈ st.2 ++ [i]) ↔ j ∈ st.2 := by simp [hji]
            simp only [this]

theorem addChannelMembers_ok (name : String) (w : Int) (uit q : List Nat) (m : Nat)
    (users us : List UserImportData) (hq : q.Nodup) (huit : uit.Nodup)
    (h : addChannelMembers name w uit q m users = .ok us) :
    ∃ sel : List Nat, sel.length = m ∧ sel.Nodup ∧ (∀ x ∈ sel, x ∈ uit) ∧
      us.length = users.length ∧
      ∀ j, us[j]? = (users[j]?).map (fun u => if j ∈ sel then addChannelT name w u else u) := by
  unfold addChannelMembers at h
  have key := forLoop_invariant
    (fun k (st : List UserImportData) =>
      ∃ sel : List Nat, sel.length = k ∧ sel.Nodup ∧
        (∀ x ∈ sel, ∃ a ∈ q.take k, uit[a]? = some x) ∧
        st.length = users.length ∧
        ∀ j, st[j]? = (users[j]?).map (fun u => if j ∈ sel then addChannelT name w u else u))
    m _ users us ?_ ?_ h
  · obtain ⟨sel, h1, h2, h3, h4, h5⟩ := key
    refine ⟨sel, h1, h2, ?_, h4, h5⟩
    intro x hx
    obtain ⟨a, _, ha⟩ := h3 x hx
    obtain ⟨hlt, heq⟩ := List.getElem?_eq_some_iff.mp ha
    exact heq ▸ List.getElem_mem hlt
  · refine ⟨[], rfl, List.nodup_nil, by simp, rfl, ?_⟩
    intro j
    cases users[j]? <;> simp
  · intro k st st1 _ hinv hbody
    obtain ⟨sel, hlen, hnd, hsrc, hlenu, hpt⟩ := hinv
    cases ha : index q k with
    | error e => simp only [ha] at hbody; cases hbody
    | ok a =>
      simp only [ha] at hbody
      cases hn : index uit a with
      | error e => simp only [hn] at hbody; cases hbody
      | ok userNum =>
        simp only [hn] at hbody
        cases hu : index st userNum with
        | error e => simp only [hu] at hbody; cases hbody
        | ok u =>
          simp only [hu] at hbody
          cases hc : addChannel name w u with
          | error e => simp only [hc] at hbody; cases hbody
          | ok u1 =>
            simp only [hc] at hbody
            cases hbody
            rw [index_eq_ok] at ha hn hu
            obtain ⟨hu1, _⟩ := addChannel_ok name w u u1 hc
            have hnot : userNum ∉ sel := by
              intro hmem
              obtain ⟨a', ha', hua'⟩ := hsrc userNum hmem
              obtain ⟨h1, h1'⟩ := List.getElem?_eq_some_iff.mp hua'
              obtain ⟨h2, h2'⟩ := List.getElem?_eq_some_iff.mp hn
              have haa : a' = a := (List.Nodup.getElem_inj_iff huit).mp (h1'.trans h2'.symm)
              subst haa
              exact not_mem_take_of_nodup q k a' hq ha ha'
            refine ⟨sel ++ [userNum], by simp [hlen], ?_, ?_, by simp [hlenu], ?_⟩
            · exact List.Nodup.append hnd (List.nodup_singleton _)
                (by simpa using hnot)
            · intro x hx
              rw [take_succ_of_getElem? q k a ha]
              rcases List.mem_append.mp hx with hx | hx
              · obtain ⟨b, hb, hub⟩ := hsrc x hx
                exact ⟨b, List.mem_append_left _ hb, hub⟩
              · simp only [List.mem_singleton] at hx
                subst hx
                exact ⟨a, by simp, hn⟩
            · intro j
              rw [getElem?_set_map st userNum j u _ hu]
              by_cases hji : j = userNum
              · subst hji
                have := hpt j
                rw [hu] at this
                rw [if_pos rfl]
                cases hx : users[j]? with
                | none => rw [hx] at this; cases this
                | some x =>
                  rw [hx] at this
                  simp only [Option.map_some', if_neg hnot, Option.some.injEq] at this
                  simp [this, hu1]
              · rw [if_neg hji, hpt j]
                have : (j ∈ sel ++ [userNum]) ↔ j ∈ sel := by simp [hji]
                simp only [this]

theorem getElem?_channelsByTeamClosed (T N t : Nat) (ht : t < T) :
    (channelsByTeamClosed T N)[t]? = some ((List.range N).map (fun c => t * N + c)) := by
  unfold channelsByTeamClosed
  simp [List.getElem?_map, List.getElem?_range ht]

theorem length_flatMap_block {α : Type} (N : Nat) (f : Nat → Nat → α) (T : Nat) :
    ((List.range T).flatMap (fun t => (List.range N).map (f t))).length = T * N := by
  induction T with
  | zero => simp
  | succ T ih =>
    rw [List.range_succ, List.flatMap_append, List.length_append, ih]
    simp [Nat.succ_mul]

theorem getElem?_flatMap_block {α : Type} (N : Nat) (f : Nat → Nat → α) (T : Nat) :
    ∀ t k, t < T → k < N →
      ((List.range T).flatMap (fun t => (List.range N).map (f t)))[t * N + k]? = some (f t k) := by
  induction T with
  | zero => intro t k ht; omega
  | succ T ih =>
    intro t k ht hk
    have hlen := length_flatMap_block N f T
    rw [List.range_succ, List.flatMap_append]
    by_cases htT : t < T
    · have hlt : t * N + k < T * N := by
        calc t * N + k < t * N + N := Nat.add_lt_add_left hk _
          _ = (t + 1) * N := by rw [Nat.succ_mul]
          _ ≤ T * N := Nat.mul_le_mul_right N htT
      rw [List.getElem?_append_left (by rw [hlen]; exact hlt)]
      exact ih t k htT hk
    · have hteq : t = T := by omega
      subst hteq
      rw [List.getElem?_append_right (by rw [hlen]; omega), hlen]
      simp [hk]

theorem getElem?_channelsClosed (T N t k : Nat) (ht : t < T) (hk : k < N) :
    (channelsClosed T N)[t * N + k]? = some (newChannel t k) :=
  getElem?_flatMap_block N newChannel T t k ht hk

theorem applyChannels_append (chans : List ChannelEffect) (c : ChannelEffect) (j : Nat)
    (u : UserImportData) :
    applyChannels (chans ++ [c]) j u
      = if j ∈ c.sel then addChannelT c.name c.weight (applyChannels chans j u)
        else applyChannels chans j u := by
  unfold applyChannels
  rw [List.foldl_append]
  rfl

theorem applyChannels_of_not_mem (chans : List ChannelEffect) (j : Nat) (u : UserImportData)
    (h : ∀ c ∈ chans, j ∉ c.sel) : applyChannels chans j u = u := by
  unfold applyChannels
  induction chans generalizing u with
  | nil => rfl
  | cons c rest ih =>
    simp only [List.foldl_cons]
    rw [if_neg (h c (List.mem_cons_self _ _))]
    exact ih u (fun d hd => h d (List.mem_cons_of_mem _ hd))

theorem channelIteration_ok {S : Type} (env : Env S) (config : LoadtestEnviromentConfig ℚ)
    (channels : List ChannelImportData) (uit : List Nat) (numChannels : Nat)
    (numUsersToAdd : Int) (k channelNum : Nat) (users us : List UserImportData) (s s1 : S)
    (huit : uit.Nodup)
    (h : channelIteration env config channels uit
      (env.floorMul numChannels config.PercentHighVolumeChannels)
      (env.floorMul numChannels config.PercentMidVolumeChannels)
      (env.floorMul numUsersToAdd config.PercentUsersHighVolumeChannel)
      (env.floorMul numUsersToAdd config.PercentUsersMidVolumeChannel)
      (env.floorMul numUsersToAdd config.PercentUsersLowVolumeChannel)
      k channelNum (users, s) = .ok (us, s1)) :
    ∃ (ch : ChannelImportData) (sel : List Nat), channels[channelNum]? = some ch ∧
      sel.Nodup ∧ (∀ x ∈ sel, x ∈ uit) ∧
      sel.length = (capAt (channelTier env config numChannels numUsersToAdd k).1 uit.length).toNat ∧
      us.length = users.length ∧
      ∀ j, us[j]? = (users[j]?).map (fun u =>
        if j ∈ sel then
          addChannelT ch.Name (channelTier env config numChannels numUsersToAdd k).2 u
        else u) := by
  unfold channelIteration at h
  cases hch : index channels channelNum with
  | error e => simp only [hch] at h; cases h
  | ok ch =>
    simp only [hch] at h
    rw [index_eq_ok] at hch
    split at h
    · cases h
    · rename_i users1 hadd
      cases h
      have hq : (env.Perm s uit.length).1.Nodup :=
        (List.Perm.nodup_iff (env.Perm_perm s uit.length)).mpr (List.nodup_range _)
      obtain ⟨sel, h1, h2, h3, h4, h5⟩ :=
        addChannelMembers_ok _ _ uit _ _ users us hq huit hadd
      exact ⟨ch, sel, hch, h2, h3, h1, h4, h5⟩

theorem teamIteration_ok {S : Type} (env : Env S) (config : LoadtestEnviromentConfig ℚ)
    (sequenceNum teamNum : Nat) (users us : List UserImportData) (s s1 : S)
    (hT : teamNum < config.NumTeams.toNat)
    (hU : users.length = config.NumUsers.toNat)
    (h : teamIteration env config
      ((List.range config.NumTeams.toNat).map newTeam)
      (channelsClosed config.NumTeams.toNat config.NumChannelsPerTeam.toNat)
      (channelsByTeamClosed config.NumTeams.toNat config.NumChannelsPerTeam.toNat)
      sequenceNum teamNum (users, s) = .ok (us, s1)) :
    ∃ e : TeamEffect, TeamEffectOK env config sequenceNum teamNum e ∧
      us.length = users.length ∧ ∀ j, us[j]? = (users[j]?).map (applyTeam e j) := by
  unfold teamIteration at h
  have hteam : index ((List.range config.NumTeams.toNat).map newTeam) teamNum
      = .ok (newTeam teamNum) := by
    rw [index_eq_ok]
    simp [List.getElem?_map, List.getElem?_range hT]
  have hcbt : index (channelsByTeamClosed config.NumTeams.toNat config.NumChannelsPerTeam.toNat)
      teamNum = .ok ((List.range config.NumChannelsPerTeam.toNat).map
        (fun c => teamNum * config.NumChannelsPerTeam.toNat + c)) := by
    rw [index_eq_ok]
    exact getElem?_channelsByTeamClosed _ _ _ hT
  simp only [hteam, hcbt] at h
  split at h
  · cases h
  · rename_i hneg
    split at h
    · cases h
    · rename_i users1 uit hadd
      have hp : (env.Perm s users.length).1.Nodup :=
        (List.Perm.nodup_iff (env.Perm_perm s users.length)).mpr (List.nodup_range _)
      have hplen : (env.Perm s users.length).1.length = users.length := by
        rw [(env.Perm_perm s users.length).length_eq, List.length_range]
      obtain ⟨hn, huit, hlt, hlen1, hpt1⟩ := addTeamMembers_ok _ _ _ _ users users1 uit hp hadd
      have huitnd : uit.Nodup := by
        rw [huit]
        exact List.Nodup.sublist (List.take_sublist _ _) hp
      have huitlen : (uit.length : Int) = (teamTier env config sequenceNum).1 := by
        rw [huit, List.length_take, Nat.min_eq_left hn]
        exact Int.toNat_of_nonneg
          ((makesliceFails_eq_false _ _).mp (Bool.eq_false_iff.mpr hneg)).1
      simp only [List.length_map, List.length_range] at h
      have key := forRange_invariant
        (fun k (st : List UserImportData × S) =>
          ∃ chans : List ChannelEffect, chans.length = k ∧
            (∀ i c, chans[i]? = some c →
              ChannelEffectOK env config teamNum config.NumChannelsPerTeam.toNat
                (teamTier env config sequenceNum).1 uit i c) ∧
            st.1.length = users1.length ∧
            ∀ j, st.1[j]? = (users1[j]?).map (applyChannels chans j))
        _ _ (users1, (env.Perm s users.length).2) (us, s1) ?_ ?_ h
      · obtain ⟨chans, hclen, hcok, hlen2, hpt2⟩ := key
        simp only [List.length_map, List.length_range] at hclen
        refine ⟨⟨(newTeam teamNum).Name, (teamTier env config sequenceNum).2, uit, chans⟩,
          ⟨rfl, rfl, huitlen, huitnd, ?_, hclen, hcok⟩, by rw [hlen2, hlen1], ?_⟩
        · intro i hi
          rw [← hU]
          exact hlt i hi
        · intro j
          rw [hpt2 j, hpt1 j]
          cases users[j]? with
          | none => rfl
          | some u =>
            simp only [Option.map_some', applyTeam]
            by_cases hj : j ∈ uit
            · simp only [if_pos hj]
              rfl
            · simp only [if_neg hj]
              rw [applyChannels_of_not_mem]
              intro c hc hjc
              obtain ⟨i, hi, hic⟩ := List.getElem_of_mem hc
              have := hcok i c (by rw [List.getElem?_eq_getElem hi, hic])
              exact hj (this.2.2.2.1 j hjc)
      · exact ⟨[], rfl, by simp, rfl, fun j => by cases users1[j]? <;> rfl⟩
      · intro k channelNum st st1 hk hinv hbody
        obtain ⟨chans, hclen, hcok, hlen2, hpt2⟩ := hinv
        obtain ⟨us0, s0⟩ := st
        obtain ⟨us2, s2⟩ := st1
        have hkN : k < config.NumChannelsPerTeam.toNat ∧
            channelNum = teamNum * config.NumChannelsPerTeam.toNat + k := by
          rw [List.getElem?_map] at hk
          cases hr : (List.range config.NumChannelsPerTeam.toNat)[k]? with
          | none => rw [hr] at hk; cases hk
          | some v =>
            rw [hr] at hk
            obtain ⟨hlt', hv⟩ := List.getElem?_eq_some_iff.mp hr
            simp only [List.getElem_range] at hv
            simp only [Option.map_some', Option.some.injEq] at hk
            simp only [List.length_range] at hlt'
            exact ⟨hlt', by omega⟩
        obtain ⟨ch, sel, hch, hsnd, hsub, hslen, hlen3, hpt3⟩ :=
          channelIteration_ok env config _ uit config.NumChannelsPerTeam.toNat
            (teamTier env config sequenceNum).1 k channelNum us0 us2 s0 s2 huitnd hbody
        have hchEq : ch = newChannel teamNum k := by
          rw [hkN.2, getElem?_channelsClosed _ _ _ _ hT hkN.1] at hch
          exact (Option.some.inj hch).symm
        refine ⟨chans ++ [⟨ch.Name,
          (channelTier env config config.NumChannelsPerTeam.toNat
            (teamTier env config sequenceNum).1 k).2, sel⟩], by simp [hclen], ?_, ?_, ?_⟩
        · intro i c hic
          by_cases hi : i < chans.length
          · rw [List.getElem?_append_left hi] at hic
            exact hcok i c hic
          · have hik : i = k := by
              by_contra hne
              rw [List.getElem?_append_right (by omega)] at hic
              have : i - chans.length ≠ 0 := by omega
              cases hd : i - chans.length with
              | zero => omega
              | succ d => rw [hd] at hic; simp at hic
            subst hik
            rw [List.getElem?_append_right (by omega), hclen] at hic
            simp only [Nat.sub_self, List.getElem?_cons_zero, Option.some.injEq] at hic
            subst hic
            exact ⟨by rw [hchEq], rfl, hsnd, hsub, hslen⟩
        · show us2.length = users1.length
          rw [hlen3]
          exact hlen2
        · intro j
          show us2[j]? = _
          rw [hpt3 j]
          have := hpt2 j
          simp only at this
          rw [this]
          cases users1[j]? with
          | none => rfl
          | some u =>
            simp only [Option.map_some', applyChannels_append]

theorem applyTeams_append (effs : List TeamEffect) (e : TeamEffect) (j : Nat)
    (u : UserImportData) :
    applyTeams (effs ++ [e]) j u = applyTeam e j (applyTeams effs j u) := by
  unfold applyTeams
  rw [List.foldl_append]
  rfl

theorem getElem?_append_singleton_cases {α : Type} (xs : List α) (x y : α) (i : Nat)
    (h : (xs ++ [x])[i]? = some y) : xs[i]? = some y ∨ (i = xs.length ∧ y = x) := by
  by_cases hi : i < xs.length
  · rw [List.getElem?_append_left hi] at h
    exact Or.inl h
  · rw [List.getElem?_append_right (by omega)] at h
    cases hd : i - xs.length with
    | zero =>
      rw [hd] at h
      simp only [List.getElem?_cons_zero, Option.some.injEq] at h
      exact Or.inr ⟨by omega, h.symm⟩
    | succ d => rw [hd] at h; simp at h

/-- What a successful run of lines 187-296 has built. -/
theorem distribute_ok {S : Type} (env : Env S) (config : LoadtestEnviromentConfig ℚ)
    (users : List UserImportData) (teams : List TeamImportData)
    (channels : List ChannelImportData)
    (h : distribute env config = .ok (users, teams, channels)) :
    0 ≤ config.NumUsers ∧ 0 ≤ config.NumTeams ∧
    (0 < config.NumTeams → 0 ≤ config.NumChannelsPerTeam) ∧
    teams = (List.range config.NumTeams.toNat).map newTeam ∧
    channels = channelsClosed config.NumTeams.toNat config.NumChannelsPerTeam.toNat ∧
    users.length = config.NumUsers.toNat ∧
    ∃ effs : List TeamEffect, effs.length = config.NumTeams.toNat ∧
      (∀ p e, effs[p]? = some e → ∃ teamNum, (teamPermutation env config)[p]? = some teamNum ∧
        TeamEffectOK env config p teamNum e) ∧
      ∀ j, users[j]? = ((generateUsers config.NumUsers.toNat)[j]?).map (applyTeams effs j) := by
  unfold distribute at h
  split at h
  · cases h
  · rename_i hU
    split at h
    · cases h
    · rename_i hprod
      cases hgt : generateTeams config.NumTeams with
      | error e =>
        simp only [hgt] at h
        cases h
      | ok teams0 =>
        simp only [hgt] at h
        have hT72 : makesliceFails 72 config.NumTeams = false := by
          cases hm : makesliceFails 72 config.NumTeams with
          | false => rfl
          | true =>
            unfold generateTeams at hgt
            rw [hm] at hgt
            cases hgt
        have hT : 0 ≤ config.NumTeams := ((makesliceFails_eq_false _ _).mp hT72).1
        rw [generateTeams_eq _ hT72] at hgt
        cases hgt
        split at h
        · cases h
        split at h
        · cases h
        · rename_i hN
          rw [generateChannels_eq] at h
          simp only [List.length_map, List.length_range] at h
          split at h
          · cases h
          · rename_i st hrun
            cases h
            have hperm := env.Perm_perm env.seed29 config.NumTeams.toNat
            have key := forRange_invariant
              (fun k (st : List UserImportData × S) =>
                st.1.length = config.NumUsers.toNat ∧
                ∃ effs : List TeamEffect, effs.length = k ∧
                  (∀ p e, effs[p]? = some e →
                    ∃ teamNum, (teamPermutation env config)[p]? = some teamNum ∧
                      TeamEffectOK env config p teamNum e) ∧
                  ∀ j, st.1[j]?
                    = ((generateUsers config.NumUsers.toNat)[j]?).map (applyTeams effs j))
              _ _ _ st ?_ ?_ hrun
            · obtain ⟨hlen, effs, hel, hok, hpt⟩ := key
              rw [hperm.length_eq, List.length_range] at hel
              refine ⟨((makesliceFails_eq_false _ _).mp (Bool.eq_false_iff.mpr hU)).1, hT, ?_,
                rfl, rfl, hlen, effs, hel, hok, hpt⟩
              intro hpos
              by_contra hneg
              exact hN ⟨hpos, (makesliceFails_eq_true _ _).mpr (Or.inl (not_le.mp hneg))⟩
            · refine ⟨?_, [], rfl, by simp, ?_⟩
              · simp [generateUsers_eq]
              · intro j
                cases (generateUsers config.NumUsers.toNat)[j]? <;> rfl
            · intro k teamNum st0 st1 hk hinv hbody
              obtain ⟨hlen, effs, hel, hok, hpt⟩ := hinv
              obtain ⟨us0, s0⟩ := st0
              obtain ⟨us1, s1⟩ := st1
              have hmem : teamNum ∈ (env.Perm env.seed29 config.NumTeams.toNat).1 := by
                obtain ⟨hlt, heq⟩ := List.getElem?_eq_some_iff.mp hk
                exact heq ▸ List.getElem_mem hlt
              have hlt : teamNum < config.NumTeams.toNat := by
                simpa using (hperm.mem_iff).mp hmem
              obtain ⟨e, heok, hlen1, hpt1⟩ :=
                teamIteration_ok env config k teamNum us0 us1 s0 s1 hlt hlen hbody
              refine ⟨by rw [hlen1]; exact hlen, effs ++ [e], by simp [hel], ?_, ?_⟩
              · intro p e' hp
                rcases getElem?_append_singleton_cases effs e e' p hp with hp1 | ⟨hp1, hp2⟩
                · exact hok p e' hp1
                · subst hp2
                  rw [hp1, hel]
                  exact ⟨teamNum, hk, heok⟩
              · intro j
                show us1[j]? = _
                rw [hpt1 j]
                have := hpt j
                simp only at this
                rw [this]
                cases (generateUsers config.NumUsers.toNat)[j]? with
                | none => rfl
                | some u => simp only [Option.map_some', applyTeams_append]

theorem addChannelT_append (name : String) (w : Int) (u : UserImportData)
    (ts : List UserTeamImportData) (t : UserTeamImportData) (h : u.Teams = ts ++ [t]) :
    addChannelT name w u = { u with Teams := ts ++ [addChannelToTeam name w t] } := by
  unfold addChannelT
  rw [h]
  simp

theorem applyChannels_teams (chans : List ChannelEffect) (j : Nat) :
    ∀ (u : UserImportData) (ts : List UserTeamImportData) (t : UserTeamImportData),
      u.Teams = ts ++ [t] →
      applyChannels chans j u = { u with Teams := ts ++ [chanFold chans j t] } := by
  induction chans with
  | nil =>
    intro u ts t h
    have ht : chanFold [] j t = t := rfl
    rw [ht, ← h]
    rfl
  | cons c rest ih =>
    intro u ts t h
    unfold applyChannels chanFold
    simp only [List.foldl_cons]
    by_cases hj : j ∈ c.sel
    · simp only [if_pos hj]
      rw [addChannelT_append c.name c.weight u ts t h]
      exact ih _ ts _ rfl
    · simp only [if_neg hj]
      exact ih u ts t h

theorem applyTeam_mem (e : TeamEffect) (j : Nat) (u : UserImportData) (hj : j ∈ e.members) :
    applyTeam e j u =
      { u with
        Teams := u.Teams ++ [membership e j]
        TeamChoice := u.TeamChoice ++ [{ Item := .int u.Teams.length, Weight := e.weight }] } := by
  unfold applyTeam
  rw [if_pos hj, applyChannels_teams e.chans j (addTeam e.name e.weight u) u.Teams _ rfl]
  unfold addTeam membership
  simp

theorem applyTeam_not_mem (e : TeamEffect) (j : Nat) (u : UserImportData) (hj : j ∉ e.members) :
    applyTeam e j u = u := by
  unfold applyTeam
  rw [if_neg hj]

theorem teamsOf_append (effs : List TeamEffect) (e : TeamEffect) (j : Nat) :
    teamsOf (effs ++ [e]) j = teamsOf effs j ++ (if j ∈ e.members then [e] else []) := by
  unfold teamsOf
  rw [List.filter_append]
  by_cases hj : j ∈ e.members <;> simp [hj]

/-- The closed form of a user after all team iterations. -/
theorem applyTeams_shape (effs : List TeamEffect) (j : Nat) (u0 : UserImportData)
    (hT : u0.Teams = []) (hC : u0.TeamChoice = []) :
    (applyTeams effs j u0).Teams = (teamsOf effs j).map (fun e => membership e j) ∧
    (applyTeams effs j u0).TeamChoice.length = (teamsOf effs j).length ∧
    (∀ (k : Nat) (e : TeamEffect), (teamsOf effs j)[k]? = some e →
      (applyTeams effs j u0).TeamChoice[k]?
        = some ({ Item := .int k, Weight := e.weight } : Choice)) ∧
    (applyTeams effs j u0).Username = u0.Username ∧
    (applyTeams effs j u0).Email = u0.Email := by
  induction effs using List.reverseRecOn with
  | nil => simp [applyTeams, teamsOf, hT, hC]
  | append_singleton effs e ih =>
    obtain ⟨ih1, ih2, ih3, ih4, ih5⟩ := ih
    rw [applyTeams_append, teamsOf_append]
    by_cases hj : j ∈ e.members
    · rw [applyTeam_mem e j _ hj, if_pos hj]
      refine ⟨by simp [ih1], by simp [ih2], ?_, ih4, ih5⟩
      intro k e' hk
      rcases getElem?_append_singleton_cases _ _ _ _ hk with hk1 | ⟨hk1, hk2⟩
      · have hlt : k < (applyTeams effs j u0).TeamChoice.length := by
          rw [ih2]
          exact (List.getElem?_eq_some_iff.mp hk1).1
        show ((applyTeams effs j u0).TeamChoice ++ _)[k]? = _
        rw [List.getElem?_append_left hlt]
        exact ih3 k e' hk1
      · subst hk2
        show ((applyTeams effs j u0).TeamChoice ++ _)[k]? = _
        rw [List.getElem?_append_right (by rw [ih2, hk1])]
        rw [ih2, hk1, ih1]
        simp
    · rw [applyTeam_not_mem e j _ hj, if_neg hj, List.append_nil]
      exact ⟨ih1, ih2, ih3, ih4, ih5⟩

theorem channelsOf_append (chans : List ChannelEffect) (c : ChannelEffect) (j : Nat) :
    channelsOf (chans ++ [c]) j = channelsOf chans j ++ (if j ∈ c.sel then [c] else []) := by
  unfold channelsOf
  rw [List.filter_append]
  by_cases hj : j ∈ c.sel <;> simp [hj]

theorem chanFold_append (chans : List ChannelEffect) (c : ChannelEffect) (j : Nat)
    (t : UserTeamImportData) :
    chanFold (chans ++ [c]) j t
      = if j ∈ c.sel then addChannelToTeam c.name c.weight (chanFold chans j t)
        else chanFold chans j t := by
  unfold chanFold
  rw [List.foldl_append]
  rfl

/-- The closed form of a team membership after the channel iterations of its team. -/
theorem chanFold_shape (chans : List ChannelEffect) (j : Nat) (t : UserTeamImportData)
    (hC : t.Channels = []) (hCC : t.ChannelChoice = []) :
    (chanFold chans j t).Name = t.Name ∧ (chanFold chans j t).Roles = t.Roles ∧
    (chanFold chans j t).Channels
      = (channelsOf chans j).map
          (fun c => ({ Name := c.name, Roles := "channel_user" } : UserChannelImportData)) ∧
    (chanFold chans j t).ChannelChoice.length = (channelsOf chans j).length ∧
    (∀ (k : Nat) (c : ChannelEffect), (channelsOf chans j)[k]? = some c →
      (chanFold chans j t).ChannelChoice[k]?
        = some ({ Item := .int k, Weight := c.weight } : Choice)) := by
  induction chans using List.reverseRecOn with
  | nil => simp [chanFold, channelsOf, hC, hCC]
  | append_singleton chans c ih =>
    obtain ⟨ih1, ih2, ih3, ih4, ih5⟩ := ih
    rw [chanFold_append, channelsOf_append]
    by_cases hj : j ∈ c.sel
    · rw [if_pos hj, if_pos hj]
      unfold addChannelToTeam
      refine ⟨ih1, ih2, by simp [ih3], by simp [ih4], ?_⟩
      intro k c' hk
      rcases getElem?_append_singleton_cases _ _ _ _ hk with hk1 | ⟨hk1, hk2⟩
      · have hlt : k < (chanFold chans j t).ChannelChoice.length := by
          rw [ih4]
          exact (List.getElem?_eq_some_iff.mp hk1).1
        show ((chanFold chans j t).ChannelChoice ++ _)[k]? = _
        rw [List.getElem?_append_left hlt]
        exact ih5 k c' hk1
      · subst hk2
        show ((chanFold chans j t).ChannelChoice ++ _)[k]? = _
        rw [List.getElem?_append_right (by rw [ih4, hk1])]
        rw [ih4, hk1, ih3]
        simp
    · rw [if_neg hj, if_neg hj, List.append_nil]
      exact ⟨ih1, ih2, ih3, ih4, ih5⟩

/-! ## Names -/

theorem newTeam_name_injective (a b : Nat) (h : (newTeam a).Name = (newTeam b).Name) : a = b :=
  Itoa_injective (append_left_cancel_str "loadtestteam" _ _ h)

theorem newChannel_name_injective (t t1 a b : Nat)
    (h : (newChannel t a).Name = (newChannel t1 b).Name) : a = b :=
  Itoa_injective (append_left_cancel_str "loadtestchannel" _ _ h)

theorem newChannel_team_injective (a a1 c c1 : Nat)
    (h : (newChannel a c).Team = (newChannel a1 c1).Team) : a = a1 :=
  Itoa_injective (append_left_cancel_str "loadtestteam" _ _ h)

theorem newUser_username_injective (a b : Nat)
    (h : (newUser a).Username = (newUser b).Username) : a = b :=
  Itoa_injective (append_left_cancel_str "user" _ _ h)

theorem newUser_email_injective (a b : Nat) (h : (newUser a).Email = (newUser b).Email) :
    a = b := by
  have h1 : "success+user" ++ Itoa a ++ "@simulator.amazonses.com"
      = "success+user" ++ Itoa b ++ "@simulator.amazonses.com" := h
  exact Itoa_injective
    (append_left_cancel_str "success+user" _ _ (append_right_cancel_str _ _ _ h1))

/-! ## The encoder pipeline -/

theorem pipeStep_inv (records : List LineImportData) (a : Actor) (st : PipeState)
    (h : PipeInv records st) : PipeInv records (pipeStep a st) := by
  obtain ⟨pending, queue, closed, output, done⟩ := st
  unfold PipeInv at h ⊢
  simp only at h
  obtain ⟨h1, h2, h3⟩ := h
  cases a with
  | producer =>
    cases pending with
    | nil =>
      simp only [pipeStep]
      exact ⟨h1, fun _ => trivial, fun hd => ⟨(h3 hd).1, trivial⟩⟩
    | cons x rest =>
      simp only [pipeStep]
      split
      · refine ⟨by simpa using h1, ?_, ?_⟩
        · intro hc
          cases h2 hc
        · intro hd
          cases h2 (h3 hd).2
      · exact ⟨h1, h2, h3⟩
  | consumer =>
    cases queue with
    | nil =>
      simp only [pipeStep]
      split
      · rename_i hc
        exact ⟨h1, h2, fun _ => ⟨rfl, hc⟩⟩
      · exact ⟨h1, h2, h3⟩
    | cons x rest =>
      simp only [pipeStep]
      refine ⟨by simpa using h1, h2, ?_⟩
      intro hd
      cases (h3 hd).1

theorem pipeRun_inv (records : List LineImportData) (sched : List Actor) :
    ∀ st, PipeInv records st → PipeInv records (pipeRun sched st) := by
  induction sched with
  | nil => intro st h; exact h
  | cons a rest ih =>
    intro st h
    exact ih _ (pipeStep_inv records a st h)

/-- Whatever the schedule, once `doneChan` is closed the output is the sequence of the records
sent, in the order in which they were sent. -/
theorem pipeRun_done (records : List LineImportData) (sched : List Actor)
    (h : (pipeRun sched (pipeInit records)).done = true) :
    (pipeRun sched (pipeInit records)).output = records := by
  have hinv := pipeRun_inv records sched (pipeInit records)
    ⟨by simp [pipeInit], by simp [pipeInit], by simp [pipeInit]⟩
  obtain ⟨h1, h2, h3⟩ := hinv
  obtain ⟨hq, hc⟩ := h3 h
  rw [hq, h2 hc] at h1
  simpa using h1

/-! ## The result of `GenerateBulkloadFile` -/

theorem GenerateBulkloadFile_ok {S : Type} (env : Env S) (sched : List Actor)
    (config : LoadtestEnviromentConfig ℚ) (r : GenerateBulkloadFileResult)
    (h : GenerateBulkloadFile env sched config = .ok r) :
    distribute env config = .ok (r.Users, r.Teams, r.Channels) ∧
    r.File = lineObjects r.Users r.Teams r.Channels := by
  unfold GenerateBulkloadFile at h
  split at h
  · cases h
  · rename_i users teams channels hd
    by_cases hdone : (pipeRun sched (pipeInit (lineObjects users teams channels))).done = true
    · simp only [hdone, if_true] at h
      cases h
      exact ⟨hd, pipeRun_done _ sched hdone⟩
    · simp only [hdone] at h
      cases h

theorem getElem?_generateUsers (U j : Nat) (u : UserImportData)
    (h : (generateUsers U)[j]? = some u) : j < U ∧ u = newUser j := by
  rw [generateUsers_eq, List.getElem?_map] at h
  cases hr : (List.range U)[j]? with
  | none => rw [hr] at h; cases h
  | some v =>
    rw [hr] at h
    obtain ⟨hlt, hv⟩ := List.getElem?_eq_some_iff.mp hr
    simp only [List.getElem_range] at hv
    simp only [List.length_range] at hlt
    simp only [Option.map_some', Option.some.injEq] at h
    exact ⟨hlt, by rw [← h, hv]⟩

/-- The shape of the users of a successful run. -/
theorem distribute_users {S : Type} (env : Env S) (config : LoadtestEnviromentConfig ℚ)
    (users : List UserImportData) (teams : List TeamImportData)
    (channels : List ChannelImportData)
    (h : distribute env config = .ok (users, teams, channels)) :
    ∃ effs : List TeamEffect, effs.length = config.NumTeams.toNat ∧
      (∀ p e, effs[p]? = some e → ∃ teamNum, (teamPermutation env config)[p]? = some teamNum ∧
        TeamEffectOK env config p teamNum e) ∧
      users.length = config.NumUsers.toNat ∧
      ∀ j u, users[j]? = some u →
        u.Username = (newUser j).Username ∧ u.Email = (newUser j).Email ∧
        u.Teams = (teamsOf effs j).map (fun e => membership e j) ∧
        u.TeamChoice.length = (teamsOf effs j).length ∧
        ∀ (k : Nat) (e : TeamEffect), (teamsOf effs j)[k]? = some e →
          u.TeamChoice[k]? = some ({ Item := .int k, Weight := e.weight } : Choice) := by
  obtain ⟨_, _, _, _, _, hlen, effs, hel, hok, hpt⟩ := distribute_ok env config _ _ _ h
  refine ⟨effs, hel, hok, hlen, ?_⟩
  intro j u hu
  rw [hpt j] at hu
  cases hg : (generateUsers config.NumUsers.toNat)[j]? with
  | none => rw [hg] at hu; cases hu
  | some u0 =>
    rw [hg] at hu
    simp only [Option.map_some', Option.some.injEq] at hu
    obtain ⟨_, hu0⟩ := getElem?_generateUsers _ _ _ hg
    subst hu0
    subst hu
    obtain ⟨h1, h2, h3, h4, h5⟩ := applyTeams_shape effs j (newUser j) rfl rfl
    exact ⟨h4, h5, h1, h2, h3⟩

theorem teamPermutation_nodup {S : Type} (env : Env S)
    (config : LoadtestEnviromentConfig ℚ) : (teamPermutation env config).Nodup :=
  (List.Perm.nodup_iff (env.Perm_perm env.seed29 config.NumTeams.toNat)).mpr
    (List.nodup_range _)

theorem teamPermutation_length {S : Type} (env : Env S)
    (config : LoadtestEnviromentConfig ℚ) :
    (teamPermutation env config).length = config.NumTeams.toNat := by
  unfold teamPermutation
  rw [(env.Perm_perm env.seed29 config.NumTeams.toNat).length_eq, List.length_range]

theorem teamPermutation_lt {S : Type} (env : Env S)
    (config : LoadtestEnviromentConfig ℚ) (p teamNum : Nat)
    (h : (teamPermutation env config)[p]? = some teamNum) : teamNum < config.NumTeams.toNat := by
  obtain ⟨hlt, heq⟩ := List.getElem?_eq_some_iff.mp h
  have hmem : teamNum ∈ (env.Perm env.seed29 config.NumTeams.toNat).1 :=
    heq ▸ List.getElem_mem hlt
  simpa using ((env.Perm_perm env.seed29 config.NumTeams.toNat).mem_iff).mp hmem

/-- The team at position `p` of the permutation is found at position `p` by its name. -/
theorem teamPosition_eq {S : Type} (env : Env S) (config : LoadtestEnviromentConfig ℚ)
    (p teamNum : Nat) (h : (teamPermutation env config)[p]? = some teamNum) :
    teamPosition env config (newTeam teamNum).Name = p := by
  obtain ⟨hlt, heq⟩ := List.getElem?_eq_some_iff.mp h
  unfold teamPosition
  rw [List.findIdx_eq hlt]
  refine ⟨by simp [heq], ?_⟩
  intro q hq
  have hne : (teamPermutation env config)[q] ≠ (teamPermutation env config)[p] := by
    intro hqp
    have := (List.Nodup.getElem_inj_iff (teamPermutation_nodup env config)).mp hqp
    omega
  rw [heq] at hne
  simp only [beq_eq_false_iff_ne, ne_eq]
  intro hn
  exact hne (newTeam_name_injective _ _ hn)

set_option maxRecDepth 8000

/-! ## C1: the order of the records -/

/-- C1. For every configuration with non-negative `NumTeams`, `NumChannelsPerTeam` and
`NumUsers` on which `GenerateBulkloadFile` completes, whatever the schedule of the two
goroutines, the records written are: one record of type "version", then the `NumTeams` teams in
generation order, then the `NumChannelsPerTeam * NumTeams` channels in generation order, then
the `NumUsers` users in generation order, every record with `Version` 1. -/
theorem C1_record_order {S : Type} (env : Env S) (sched : List Actor)
    (config : LoadtestEnviromentConfig ℚ) (r : GenerateBulkloadFileResult)
    (hT : 0 ≤ config.NumTeams) (hN : 0 ≤ config.NumChannelsPerTeam) (hU : 0 ≤ config.NumUsers)
    (h : GenerateBulkloadFile env sched config = .ok r) :
    r.File =
      [{ Type_ := "version", Team := none, Channel := none, User := none, Post := none,
         Version := 1 }]
      ++ r.Teams.map (fun t =>
          { Type_ := "team", Team := some t, Channel := none, User := none, Post := none,
            Version := 1 })
      ++ r.Channels.map (fun c =>
          { Type_ := "channel", Team := none, Channel := some c, User := none, Post := none,
            Version := 1 })
      ++ r.Users.map (fun u =>
          { Type_ := "user", Team := none, Channel := none, User := some u, Post := none,
            Version := 1 }) ∧
    r.Teams = (List.range config.NumTeams.toNat).map newTeam ∧
    r.Channels = (List.range config.NumTeams.toNat).flatMap
      (fun teamNum => (List.range config.NumChannelsPerTeam.toNat).map (newChannel teamNum)) ∧
    r.Users.map (fun u => u.Username)
      = (List.range config.NumUsers.toNat).map (fun userNum => "user" ++ Itoa userNum) ∧
    r.File.map (fun l => l.Type_) =
      ["version"] ++ List.replicate config.NumTeams.toNat "team"
        ++ List.replicate (config.NumChannelsPerTeam.toNat * config.NumTeams.toNat) "channel"
        ++ List.replicate config.NumUsers.toNat "user" ∧
    (r.Teams.length : Int) = config.NumTeams ∧
    (r.Channels.length : Int) = config.NumChannelsPerTeam * config.NumTeams ∧
    (r.Users.length : Int) = config.NumUsers ∧
    ∀ l ∈ r.File, l.Version = 1 := by
  obtain ⟨hd, hfile⟩ := GenerateBulkloadFile_ok env sched config r h
  obtain ⟨_, _, _, hteams, hchannels, hlen, _⟩ := distribute_ok env config _ _ _ hd
  obtain ⟨effs, _, _, _, hus⟩ := distribute_users env config _ _ _ hd
  have hnames : r.Users.map (fun u => u.Username)
      = (List.range config.NumUsers.toNat).map (fun userNum => "user" ++ Itoa userNum) := by
    apply List.ext_getElem?
    intro j
    rw [List.getElem?_map, List.getElem?_map]
    cases hu : r.Users[j]? with
    | none =>
      have hj : config.NumUsers.toNat ≤ j := by
        rw [← hlen]
        exact List.getElem?_eq_none_iff.mp hu
      rw [List.getElem?_eq_none_iff.mpr (by simpa using hj)]
      rfl
    | some u =>
      have hj : j < config.NumUsers.toNat := by
        rw [← hlen]
        exact (List.getElem?_eq_some_iff.mp hu).1
      rw [List.getElem?_range hj]
      simp only [Option.map_some', Option.some.injEq]
      exact (hus j u hu).1
  have hclen : r.Channels.length = config.NumChannelsPerTeam.toNat * config.NumTeams.toNat := by
    rw [hchannels, channelsClosed_length, Nat.mul_comm]
  have htlen : r.Teams.length = config.NumTeams.toNat := by
    rw [hteams]
    simp
  refine ⟨hfile, hteams, hchannels, hnames, ?_, ?_, ?_, ?_, ?_⟩
  · rw [hfile]
    unfold lineObjects
    simp only [List.map_append, List.map_map, List.map_cons, List.map_nil]
    congr 1
    · congr 1
      · congr 1
        rw [← htlen]
        exact List.eq_replicate_iff.mpr ⟨by simp, by simp⟩
      · rw [← hclen]
        exact List.eq_replicate_iff.mpr ⟨by simp, by simp⟩
    · rw [← hlen]
      exact List.eq_replicate_iff.mpr ⟨by simp, by simp⟩
  · rw [htlen]
    exact Int.toNat_of_nonneg hT
  · rw [hclen]
    push_cast
    rw [Int.toNat_of_nonneg hT, Int.toNat_of_nonneg hN]
  · rw [hlen]
    exact Int.toNat_of_nonneg hU
  · intro l hl
    rw [hfile] at hl
    unfold lineObjects at hl
    simp only [List.mem_append, List.mem_singleton, List.mem_map] at hl
    rcases hl with ((hl | ⟨_, _, hl⟩) | ⟨_, _, hl⟩) | ⟨_, _, hl⟩
    · rw [hl]
    · rw [← hl]
    · rw [← hl]
    · rw [← hl]

/-- The witness of C1: the example configuration completes under the alternating schedule. -/
theorem C1_record_order_witness :
    ∃ r, GenerateBulkloadFile rotatingEnv (alternating 30) exampleConfig = .ok r ∧
      r.File.map (fun l => l.Type_) =
        ["version"] ++ List.replicate 2 "team" ++ List.replicate 6 "channel"
          ++ List.replicate 10 "user" := by
  with_unfolding_all exact ⟨_, rfl,
    (C1_record_order rotatingEnv (alternating 30) exampleConfig _
      (by decide) (by decide) (by decide) rfl).2.2.2.2.1⟩

set_option maxRecDepth 8000

/-! ## Facts about the effects of a successful run -/

theorem membership_name (e : TeamEffect) (j : Nat) : (membership e j).Name = e.name :=
  (chanFold_shape e.chans j _ rfl rfl).1

theorem mem_effs_of_mem_teamsOf (effs : List TeamEffect) (j : Nat) (e : TeamEffect)
    (h : e ∈ teamsOf effs j) : e ∈ effs ∧ j ∈ e.members := by
  unfold teamsOf at h
  rw [List.mem_filter] at h
  exact ⟨h.1, by simpa using h.2⟩

/-- Every effect of a run belongs to a team of the permutation; its name determines its
position, hence its tier. -/
theorem effect_facts {S : Type} (env : Env S) (config : LoadtestEnviromentConfig ℚ)
    (effs : List TeamEffect)
    (hok : ∀ p e, effs[p]? = some e → ∃ teamNum,
      (teamPermutation env config)[p]? = some teamNum ∧ TeamEffectOK env config p teamNum e)
    (e : TeamEffect) (he : e ∈ effs) :
    ∃ p teamNum, effs[p]? = some e ∧ (teamPermutation env config)[p]? = some teamNum ∧
      teamNum < config.NumTeams.toNat ∧ TeamEffectOK env config p teamNum e ∧
      e.name = (newTeam teamNum).Name ∧ teamPosition env config e.name = p := by
  obtain ⟨p, hp, hpe⟩ := List.getElem_of_mem he
  have hp' : effs[p]? = some e := by rw [List.getElem?_eq_getElem hp, hpe]
  obtain ⟨teamNum, hperm, hOK⟩ := hok p e hp'
  refine ⟨p, teamNum, hp', hperm, teamPermutation_lt env config p teamNum hperm, hOK, hOK.1, ?_⟩
  rw [hOK.1]
  exact teamPosition_eq env config p teamNum hperm

theorem effs_names {S : Type} (env : Env S) (config : LoadtestEnviromentConfig ℚ)
    (effs : List TeamEffect) (hlen : effs.length = config.NumTeams.toNat)
    (hok : ∀ p e, effs[p]? = some e → ∃ teamNum,
      (teamPermutation env config)[p]? = some teamNum ∧ TeamEffectOK env config p teamNum e) :
    effs.map (fun e => e.name)
      = (teamPermutation env config).map (fun teamNum => (newTeam teamNum).Name) := by
  apply List.ext_getElem?
  intro p
  rw [List.getElem?_map, List.getElem?_map]
  cases he : effs[p]? with
  | none =>
    have : (teamPermutation env config).length ≤ p := by
      rw [teamPermutation_length, ← hlen]
      exact List.getElem?_eq_none_iff.mp he
    rw [List.getElem?_eq_none_iff.mpr this]
    rfl
  | some e =>
    obtain ⟨teamNum, hperm, hOK⟩ := hok p e he
    rw [hperm]
    simp only [Option.map_some', hOK.1]

theorem effs_names_nodup {S : Type} (env : Env S) (config : LoadtestEnviromentConfig ℚ)
    (effs : List TeamEffect) (hlen : effs.length = config.NumTeams.toNat)
    (hok : ∀ p e, effs[p]? = some e → ∃ teamNum,
      (teamPermutation env config)[p]? = some teamNum ∧ TeamEffectOK env config p teamNum e) :
    (effs.map (fun e => e.name)).Nodup := by
  rw [effs_names env config effs hlen hok]
  exact List.Nodup.map (fun a b hab => newTeam_name_injective a b hab)
    (teamPermutation_nodup env config)

theorem map_weight_eq {α : Type} (choices : List Choice) (xs : List α) (w : α → Int)
    (hlen : choices.length = xs.length)
    (hpt : ∀ (k : Nat) (x : α), xs[k]? = some x →
      choices[k]? = some ({ Item := .int k, Weight := w x } : Choice)) :
    choices.map (fun c => c.Weight) = xs.map w := by
  apply List.ext_getElem?
  intro k
  rw [List.getElem?_map, List.getElem?_map]
  cases hx : xs[k]? with
  | none =>
    have : choices.length ≤ k := by
      rw [hlen]
      exact List.getElem?_eq_none_iff.mp hx
    rw [List.getElem?_eq_none_iff.mpr this]
    rfl
  | some x =>
    rw [hpt k x hx]
    rfl

/-! ## C2: the team-choice table -/

/-- C2. For every user in the result of `GenerateBulkloadFile`, the team-choice table has the
length of the user's `Teams` list, its entry `k` has `Item = k` and, as weight, the tier
selection weight of the team named by `Teams[k]`; every referenced team index is an index into
`Teams`, and the sum of the weights of the table is the sum of the tier weights of the teams
assigned to the user. -/
theorem C2_team_choice_table {S : Type} (env : Env S) (sched : List Actor)
    (config : LoadtestEnviromentConfig ℚ) (r : GenerateBulkloadFileResult)
    (h : GenerateBulkloadFile env sched config = .ok r) :
    ∀ u ∈ r.Users,
      u.TeamChoice.length = u.Teams.length ∧
      (∀ (k : Nat) (t : UserTeamImportData), u.Teams[k]? = some t →
        u.TeamChoice[k]?
          = some ({ Item := .int k, Weight := teamSelectionWeight env config t.Name } : Choice)) ∧
      (∀ c ∈ u.TeamChoice, ∃ k : Nat, c.Item = .int k ∧ k < u.Teams.length) ∧
      (u.TeamChoice.map (fun c => c.Weight)).sum
        = (u.Teams.map (fun t => teamSelectionWeight env config t.Name)).sum := by
  obtain ⟨hd, _⟩ := GenerateBulkloadFile_ok env sched config r h
  obtain ⟨effs, hel, hok, hlen, hus⟩ := distribute_users env config _ _ _ hd
  intro u hu
  obtain ⟨j, hj, hju⟩ := List.getElem_of_mem hu
  have hj' : r.Users[j]? = some u := by rw [List.getElem?_eq_getElem hj, hju]
  obtain ⟨_, _, hteams, hclen, hcpt⟩ := hus j u hj'
  have hlen2 : u.TeamChoice.length = u.Teams.length := by
    rw [hclen, hteams, List.length_map]
  have hpt : ∀ (k : Nat) (t : UserTeamImportData), u.Teams[k]? = some t →
      u.TeamChoice[k]?
        = some ({ Item := .int k, Weight := teamSelectionWeight env config t.Name } : Choice) := by
    intro k t hk
    rw [hteams, List.getElem?_map] at hk
    cases he : (teamsOf effs j)[k]? with
    | none => rw [he] at hk; cases hk
    | some e =>
      rw [he] at hk
      simp only [Option.map_some', Option.some.injEq] at hk
      have hmem : e ∈ teamsOf effs j := by
        obtain ⟨hlt, heq⟩ := List.getElem?_eq_some_iff.mp he
        exact heq ▸ List.getElem_mem hlt
      obtain ⟨p, teamNum, _, _, _, hOK, _, hpos⟩ :=
        effect_facts env config effs hok e (mem_effs_of_mem_teamsOf effs j e hmem).1
      rw [hcpt k e he, ← hk, membership_name]
      unfold teamSelectionWeight
      rw [hpos, hOK.2.1]
  refine ⟨hlen2, hpt, ?_, ?_⟩
  · intro c hc
    obtain ⟨k, hk, hkc⟩ := List.getElem_of_mem hc
    have hkt : k < u.Teams.length := by rw [← hlen2]; exact hk
    have := hpt k u.Teams[k] (List.getElem?_eq_getElem hkt)
    rw [List.getElem?_eq_getElem hk, hkc] at this
    refine ⟨k, ?_, hkt⟩
    rw [Option.some.inj this]
  · rw [map_weight_eq u.TeamChoice u.Teams _ hlen2 hpt]

/-- The witness of C2: the example configuration. -/
theorem C2_team_choice_table_witness :
    ∃ r, GenerateBulkloadFile rotatingEnv (alternating 30) exampleConfig = .ok r ∧
      ∀ u ∈ r.Users, u.TeamChoice.length = u.Teams.length := by
  with_unfolding_all exact ⟨_, rfl, fun u hu =>
    (C2_team_choice_table rotatingEnv (alternating 30) exampleConfig _ rfl u hu).1⟩

/-! ## C7: the teams of a user -/

/-- C7. For every configuration on which `GenerateBulkloadFile` completes, every user's `Teams`
list has at most `NumTeams` entries, names only generated teams and names each team at most
once; for the example configuration (2 teams, 3 channels per team, 10 users) the list has at
most 2 entries. -/
theorem C7_user_teams {S : Type} (env : Env S) (sched : List Actor)
    (config : LoadtestEnviromentConfig ℚ) (r : GenerateBulkloadFileResult)
    (h : GenerateBulkloadFile env sched config = .ok r) :
    (∀ u ∈ r.Users,
      0 ≤ u.Teams.length ∧ (u.Teams.length : Int) ≤ config.NumTeams ∧
      (u.Teams.map (fun t => t.Name)).Nodup ∧
      ∀ t ∈ u.Teams, ∃ teamNum : Nat, (teamNum : Int) < config.NumTeams ∧
        t.Name = "loadtestteam" ++ Itoa teamNum) ∧
    (config.NumTeams = 2 → config.NumChannelsPerTeam = 3 → config.NumUsers = 10 →
      ∀ u ∈ r.Users, u.Teams.length ≤ 2) := by
  obtain ⟨hd, _⟩ := GenerateBulkloadFile_ok env sched config r h
  obtain ⟨_, hT, _⟩ := distribute_ok env config _ _ _ hd
  obtain ⟨effs, hel, hok, hlen, hus⟩ := distribute_users env config _ _ _ hd
  have main : ∀ u ∈ r.Users,
      0 ≤ u.Teams.length ∧ (u.Teams.length : Int) ≤ config.NumTeams ∧
      (u.Teams.map (fun t => t.Name)).Nodup ∧
      ∀ t ∈ u.Teams, ∃ teamNum : Nat, (teamNum : Int) < config.NumTeams ∧
        t.Name = "loadtestteam" ++ Itoa teamNum := by
    intro u hu
    obtain ⟨j, hj, hju⟩ := List.getElem_of_mem hu
    have hj' : r.Users[j]? = some u := by rw [List.getElem?_eq_getElem hj, hju]
    obtain ⟨_, _, hteams, _, _⟩ := hus j u hj'
    have hsub : (teamsOf effs j).Sublist effs := List.filter_sublist effs
    have hnames : u.Teams.map (fun t => t.Name) = (teamsOf effs j).map (fun e => e.name) := by
      rw [hteams, List.map_map]
      apply List.map_congr_left
      intro e _
      exact membership_name e j
    refine ⟨Nat.zero_le _, ?_, ?_, ?_⟩
    · have h1 : u.Teams.length ≤ effs.length := by
        rw [hteams, List.length_map]
        exact hsub.length_le
      rw [hel] at h1
      omega
    · rw [hnames]
      exact List.Nodup.sublist (hsub.map _) (effs_names_nodup env config effs hel hok)
    · intro t ht
      rw [hteams, List.mem_map] at ht
      obtain ⟨e, he, het⟩ := ht
      obtain ⟨p, teamNum, _, _, hlt, _, hname, _⟩ :=
        effect_facts env config effs hok e (mem_effs_of_mem_teamsOf effs j e he).1
      refine ⟨teamNum, by omega, ?_⟩
      rw [← het, membership_name, hname]
      rfl
  refine ⟨main, ?_⟩
  intro h2 _ _ u hu
  have := (main u hu).2.1
  omega

/-- The witness of C7: the example configuration of the specification. -/
theorem C7_user_teams_witness :
    ∃ r, GenerateBulkloadFile rotatingEnv (alternating 30) exampleConfig = .ok r ∧
      ∀ u ∈ r.Users, u.Teams.length ≤ 2 := by
  with_unfolding_all exact ⟨_, rfl,
    (C7_user_teams rotatingEnv (alternating 30) exampleConfig _ rfl).2 rfl rfl rfl⟩

set_option maxRecDepth 8000

/-! ## C9: generated names -/

theorem getElem?_channelsClosed_inv (T N a : Nat) (ca : ChannelImportData)
    (h : (channelsClosed T N)[a]? = some ca) :
    ∃ t c, t < T ∧ c < N ∧ a = t * N + c ∧ ca = newChannel t c := by
  have ha : a < T * N := by
    rw [← channelsClosed_length]
    exact (List.getElem?_eq_some_iff.mp h).1
  have hN : 0 < N := by
    rcases Nat.eq_zero_or_pos N with h0 | h0
    · rw [h0] at ha
      simp at ha
    · exact h0
  have ht : a / N < T := Nat.div_lt_of_lt_mul (by rw [Nat.mul_comm]; exact ha)
  have hc : a % N < N := Nat.mod_lt _ hN
  have hsplit : a = a / N * N + a % N := by
    rw [Nat.mul_comm]
    exact (Nat.div_add_mod a N).symm
  refine ⟨a / N, a % N, ht, hc, hsplit, ?_⟩
  have := getElem?_channelsClosed T N (a / N) (a % N) ht hc
  rw [← hsplit, h] at this
  exact Option.some.inj this

/-- C9. Generated names never collide: `generateTeams` gives the team at index `i` the name
"loadtestteam" followed by the numeral of `i`, different for different indices; in the result
of `GenerateBulkloadFile` two distinct channels differ in their `(Team, Name)` pair, two distinct
users differ in their user name and in their e-mail address, and the channel generated for team
`t`, channel `c` names the generated name of team `t`. -/
theorem C9_names_do_not_collide {S : Type} (env : Env S) (sched : List Actor)
    (config : LoadtestEnviromentConfig ℚ) (r : GenerateBulkloadFileResult)
    (h : GenerateBulkloadFile env sched config = .ok r) :
    (∀ (numTeams : Int) (teams : List TeamImportData), generateTeams numTeams = .ok teams →
      ∀ (i j : Nat) (ti tj : TeamImportData), teams[i]? = some ti → teams[j]? = some tj →
        ti.Name = "loadtestteam" ++ Itoa i ∧ (i ≠ j → ti.Name ≠ tj.Name)) ∧
    (∀ (a b : Nat) (ca cb : ChannelImportData), r.Channels[a]? = some ca →
      r.Channels[b]? = some cb → a ≠ b → (ca.Team, ca.Name) ≠ (cb.Team, cb.Name)) ∧
    (∀ (a b : Nat) (ua ub : UserImportData), r.Users[a]? = some ua → r.Users[b]? = some ub →
      a ≠ b → ua.Username ≠ ub.Username ∧ ua.Email ≠ ub.Email) ∧
    (∀ t c : Nat, (t : Int) < config.NumTeams → (c : Int) < config.NumChannelsPerTeam →
      ∃ (ch : ChannelImportData) (tm : TeamImportData),
        r.Channels[t * config.NumChannelsPerTeam.toNat + c]? = some ch ∧
        r.Teams[t]? = some tm ∧ ch.Team = tm.Name ∧
        tm.Name = "loadtestteam" ++ Itoa t ∧ ch.Name = "loadtestchannel" ++ Itoa c) := by
  obtain ⟨hd, _⟩ := GenerateBulkloadFile_ok env sched config r h
  obtain ⟨_, _, _, hteams, hchannels, _, _⟩ := distribute_ok env config _ _ _ hd
  obtain ⟨effs, _, _, _, hus⟩ := distribute_users env config _ _ _ hd
  refine ⟨?_, ?_, ?_, ?_⟩
  · intro numTeams teams hgen i j ti tj hi hj
    have hn : makesliceFails 72 numTeams = false := by
      cases hm : makesliceFails 72 numTeams with
      | false => rfl
      | true =>
        unfold generateTeams at hgen
        rw [hm] at hgen
        cases hgen
    rw [generateTeams_eq _ hn] at hgen
    cases hgen
    have key : ∀ (k : Nat) (t : TeamImportData),
        ((List.range numTeams.toNat).map newTeam)[k]? = some t → t = newTeam k := by
      intro k t hk
      rw [List.getElem?_map] at hk
      cases hr : (List.range numTeams.toNat)[k]? with
      | none => rw [hr] at hk; cases hk
      | some v =>
        rw [hr] at hk
        obtain ⟨_, hv⟩ := List.getElem?_eq_some_iff.mp hr
        simp only [List.getElem_range] at hv
        simp only [Option.map_some', Option.some.injEq] at hk
        rw [← hk, hv]
    rw [key i ti hi, key j tj hj]
    exact ⟨rfl, fun hne heq => hne (newTeam_name_injective i j heq)⟩
  · intro a b ca cb ha hb hne heq
    rw [hchannels] at ha hb
    obtain ⟨t, c, _, hc, hat, hca⟩ := getElem?_channelsClosed_inv _ _ a ca ha
    obtain ⟨t1, c1, _, hc1, hbt, hcb⟩ := getElem?_channelsClosed_inv _ _ b cb hb
    rw [hca, hcb] at heq
    have h1 : (newChannel t c).Team = (newChannel t1 c1).Team := congrArg Prod.fst heq
    have h2 : (newChannel t c).Name = (newChannel t1 c1).Name := congrArg Prod.snd heq
    have ht := newChannel_team_injective t t1 c c1 h1
    have hcc := newChannel_name_injective t t1 c c1 h2
    apply hne
    rw [hat, hbt, ht, hcc]
  · intro a b ua ub ha hb hne
    obtain ⟨hna, hea, _⟩ := hus a ua ha
    obtain ⟨hnb, heb, _⟩ := hus b ub hb
    constructor
    · intro heq
      rw [hna, hnb] at heq
      exact hne (newUser_username_injective a b heq)
    · intro heq
      rw [hea, heb] at heq
      exact hne (newUser_email_injective a b heq)
  · intro t c ht hc
    have ht' : t < config.NumTeams.toNat := by omega
    have hc' : c < config.NumChannelsPerTeam.toNat := by omega
    refine ⟨newChannel t c, newTeam t, ?_, ?_, rfl, rfl, rfl⟩
    · rw [hchannels]
      exact getElem?_channelsClosed _ _ t c ht' hc'
    · rw [hteams]
      simp [List.getElem?_map, List.getElem?_range ht']

/-- The witness of C9: the example configuration. -/
theorem C9_names_do_not_collide_witness :
    ∃ r, GenerateBulkloadFile rotatingEnv (alternating 30) exampleConfig = .ok r ∧
      ∀ (a b : Nat) (ua ub : UserImportData), r.Users[a]? = some ua → r.Users[b]? = some ub →
        a ≠ b → ua.Username ≠ ub.Username ∧ ua.Email ≠ ub.Email := by
  with_unfolding_all exact ⟨_, rfl,
    (C9_names_do_not_collide rotatingEnv (alternating 30) exampleConfig _ rfl).2.2.1⟩

/-! ## Counting users by index -/

/-- A filter that selects exactly the elements at the indices of a duplicate-free list `L`
selects `L.length` elements. -/
theorem length_filter_of_index_set {α : Type} (P : α → Bool) (xs : List α) :
    ∀ (L : List Nat), L.Nodup → (∀ i ∈ L, i < xs.length) →
      (∀ (j : Nat) (x : α), xs[j]? = some x → (P x = true ↔ j ∈ L)) →
      (xs.filter P).length = L.length := by
  induction xs using List.reverseRecOn with
  | nil =>
    intro L _ hlt _
    cases L with
    | nil => rfl
    | cons i rest =>
      have := hlt i (List.mem_cons_self _ _)
      simp at this
  | append_singleton xs x ih =>
    intro L hnd hlt hP
    have hx : (xs ++ [x])[xs.length]? = some x := by simp
    have hPx := hP xs.length x hx
    by_cases hmem : xs.length ∈ L
    · have hLe : (L.erase xs.length).Nodup := hnd.erase _
      have h1 := ih (L.erase xs.length) hLe
        (by
          intro i hi
          have hiL : i ∈ L := List.mem_of_mem_erase hi
          have hne : i ≠ xs.length := by
            intro heq
            rw [heq] at hi
            exact (List.Nodup.not_mem_erase hnd) hi
          have := hlt i hiL
          simp only [List.length_append, List.length_singleton] at this
          omega)
        (by
          intro j y hj
          have hjlt : j < xs.length := (List.getElem?_eq_some_iff.mp hj).1
          have hj' : (xs ++ [x])[j]? = some y := by
            rw [List.getElem?_append_left hjlt]
            exact hj
          rw [hP j y hj']
          constructor
          · intro hjL
            exact (List.mem_erase_of_ne (by omega)).mpr hjL
          · intro hjL
            exact List.mem_of_mem_erase hjL)
      rw [List.filter_append, List.length_append, h1]
      have hpx : P x = true := hPx.mpr hmem
      simp only [List.filter_cons, hpx, if_true, List.filter_nil, List.length_singleton]
      rw [List.length_erase_of_mem hmem]
      have : 0 < L.length := List.length_pos_of_mem hmem
      omega
    · have h1 := ih L hnd
        (by
          intro i hi
          have hne : i ≠ xs.length := by
            intro heq
            rw [heq] at hi
            exact hmem hi
          have := hlt i hi
          simp only [List.length_append, List.length_singleton] at this
          omega)
        (by
          intro j y hj
          have hjlt : j < xs.length := (List.getElem?_eq_some_iff.mp hj).1
          have hj' : (xs ++ [x])[j]? = some y := by
            rw [List.getElem?_append_left hjlt]
            exact hj
          exact hP j y hj')
      rw [List.filter_append, List.length_append, h1]
      have hpx : P x = false := by
        cases hp : P x with
        | false => rfl
        | true => exact absurd (hPx.mp hp) hmem
      simp [hpx]

/-! ## The tiers as functions of the percentage -/

theorem tierOf_apply {α β : Type} (f : α → β) (s : Nat) (H M : Int) (a b c : α) :
    f (tierOf s H M a b c) = tierOf s H M (f a) (f b) (f c) := by
  unfold tierOf
  simp only
  by_cases h1 : (s : Int) > wrapInt64 (H + M)
  · simp only [if_pos h1]
  · by_cases h2 : (s : Int) > H
    · simp only [if_neg h1, if_pos h2]
    · simp only [if_neg h1, if_neg h2]

theorem channelTier_fst {S : Type} (env : Env S) (config : LoadtestEnviromentConfig ℚ)
    (numChannels : Nat) (n : Int) (k : Nat) :
    (channelTier env config numChannels n k).1
      = env.floorMul n (channelUserPercent env config numChannels k) := by
  unfold channelTier channelUserPercent
  rw [tierOf_apply Prod.fst, tierOf_apply (env.floorMul n)]

theorem capAt_eq_min (x : Int) (len : Nat) : capAt x len = min x (len : Int) := by
  unfold capAt
  split <;> omega

/-! ## Team and channel members in terms of the effects -/

theorem eq_of_name_eq {α : Type} (f : α → String) (l : List α) (hnd : (l.map f).Nodup)
    (x y : α) (hx : x ∈ l) (hy : y ∈ l) (h : f x = f y) : x = y :=
  List.inj_on_of_nodup_map hnd hx hy h

theorem chans_names {S : Type} (env : Env S) (config : LoadtestEnviromentConfig ℚ)
    (p teamNum : Nat) (e : TeamEffect) (hOK : TeamEffectOK env config p teamNum e) :
    e.chans.map (fun c => c.name)
      = (List.range config.NumChannelsPerTeam.toNat).map (fun k => (newChannel teamNum k).Name) := by
  obtain ⟨_, _, _, _, _, hlen, hch⟩ := hOK
  apply List.ext_getElem?
  intro k
  rw [List.getElem?_map, List.getElem?_map]
  cases hc : e.chans[k]? with
  | none =>
    have : config.NumChannelsPerTeam.toNat ≤ k := by
      rw [← hlen]
      exact List.getElem?_eq_none_iff.mp hc
    rw [List.getElem?_eq_none_iff.mpr (by simpa using this)]
    rfl
  | some c =>
    have hk : k < config.NumChannelsPerTeam.toNat := by
      rw [← hlen]
      exact (List.getElem?_eq_some_iff.mp hc).1
    rw [List.getElem?_range hk]
    simp only [Option.map_some', (hch k c hc).1]

theorem chans_names_nodup {S : Type} (env : Env S) (config : LoadtestEnviromentConfig ℚ)
    (p teamNum : Nat) (e : TeamEffect) (hOK : TeamEffectOK env config p teamNum e) :
    (e.chans.map (fun c => c.name)).Nodup := by
  rw [chans_names env config p teamNum e hOK]
  exact List.Nodup.map (fun a b hab => newChannel_name_injective teamNum teamNum a b hab)
    (List.nodup_range _)

theorem membership_channels (e : TeamEffect) (j : Nat) :
    (membership e j).Channels = (channelsOf e.chans j).map
      (fun c => ({ Name := c.name, Roles := "channel_user" } : UserChannelImportData)) :=
  (chanFold_shape e.chans j _ rfl rfl).2.2.1

theorem mem_chans_of_mem_channelsOf (chans : List ChannelEffect) (j : Nat) (c : ChannelEffect)
    (h : c ∈ channelsOf chans j) : c ∈ chans ∧ j ∈ c.sel := by
  unfold channelsOf at h
  rw [List.mem_filter] at h
  exact ⟨h.1, by simpa using h.2⟩

/-- A user is a member of a team of the result exactly if the team iteration selected it. -/
theorem isTeamMember_iff (effs : List TeamEffect) (hnd : (effs.map (fun e => e.name)).Nodup)
    (e : TeamEffect) (he : e ∈ effs) (j : Nat) (u : UserImportData)
    (hteams : u.Teams = (teamsOf effs j).map (fun e => membership e j)) :
    isTeamMember e.name u = true ↔ j ∈ e.members := by
  unfold isTeamMember
  rw [List.any_eq_true, hteams]
  constructor
  · rintro ⟨t, ht, hname⟩
    rw [List.mem_map] at ht
    obtain ⟨e1, he1, hte⟩ := ht
    obtain ⟨he1', hj⟩ := mem_effs_of_mem_teamsOf effs j e1 he1
    have hn : e1.name = e.name := by
      rw [← membership_name e1 j, hte]
      simpa using hname
    rw [← eq_of_name_eq _ effs hnd e1 e he1' he hn]
    exact hj
  · intro hj
    refine ⟨membership e j, ?_, by simp [membership_name]⟩
    rw [List.mem_map]
    refine ⟨e, ?_, rfl⟩
    unfold teamsOf
    rw [List.mem_filter]
    exact ⟨he, by simpa using hj⟩

/-- A user is a member of a channel of a team of the result exactly if the channel iteration
selected it. -/
theorem isChannelMember_iff (effs : List TeamEffect)
    (hnd : (effs.map (fun e => e.name)).Nodup)
    (e : TeamEffect) (he : e ∈ effs) (hcnd : (e.chans.map (fun c => c.name)).Nodup)
    (c : ChannelEffect) (hc : c ∈ e.chans) (hsub : ∀ x ∈ c.sel, x ∈ e.members)
    (j : Nat) (u : UserImportData)
    (hteams : u.Teams = (teamsOf effs j).map (fun e => membership e j)) :
    isChannelMember e.name c.name u = true ↔ j ∈ c.sel := by
  unfold isChannelMember
  rw [List.any_eq_true, hteams]
  constructor
  · rintro ⟨t, ht, hboth⟩
    rw [Bool.and_eq_true, List.any_eq_true] at hboth
    obtain ⟨hname, ch, hch, hchname⟩ := hboth
    rw [List.mem_map] at ht
    obtain ⟨e1, he1, hte⟩ := ht
    obtain ⟨he1', _⟩ := mem_effs_of_mem_teamsOf effs j e1 he1
    have hn : e1.name = e.name := by
      rw [← membership_name e1 j, hte]
      simpa using hname
    have hee : e1 = e := eq_of_name_eq _ effs hnd e1 e he1' he hn
    subst hee
    rw [← hte, membership_channels, List.mem_map] at hch
    obtain ⟨c1, hc1, hc1ch⟩ := hch
    obtain ⟨hc1', hj⟩ := mem_chans_of_mem_channelsOf e1.chans j c1 hc1
    have hcn : c1.name = c.name := by
      have : ch.Name = c.name := by simpa using hchname
      rw [← this, ← hc1ch]
    rw [← eq_of_name_eq _ e1.chans hcnd c1 c hc1' hc hcn]
    exact hj
  · intro hj
    refine ⟨membership e j, ?_, ?_⟩
    · rw [List.mem_map]
      refine ⟨e, ?_, rfl⟩
      unfold teamsOf
      rw [List.mem_filter]
      exact ⟨he, by simpa using hsub j hj⟩
    · rw [Bool.and_eq_true, List.any_eq_true]
      refine ⟨by simp [membership_name], { Name := c.name, Roles := "channel_user" }, ?_, by simp⟩
      rw [membership_channels, List.mem_map]
      refine ⟨c, ?_, rfl⟩
      unfold channelsOf
      rw [List.mem_filter]
      exact ⟨hc, by simpa using hj⟩

/-- The effect of the iteration on a given team. -/
theorem effect_of_team {S : Type} (env : Env S) (config : LoadtestEnviromentConfig ℚ)
    (effs : List TeamEffect) (hlen : effs.length = config.NumTeams.toNat)
    (hok : ∀ p e, effs[p]? = some e → ∃ teamNum,
      (teamPermutation env config)[p]? = some teamNum ∧ TeamEffectOK env config p teamNum e)
    (teamNum : Nat) (ht : teamNum < config.NumTeams.toNat) :
    ∃ p e, e ∈ effs ∧ (teamPermutation env config)[p]? = some teamNum ∧
      TeamEffectOK env config p teamNum e ∧ teamPosition env config (newTeam teamNum).Name = p := by
  have hmem : teamNum ∈ teamPermutation env config := by
    unfold teamPermutation
    rw [(env.Perm_perm env.seed29 config.NumTeams.toNat).mem_iff]
    simpa using ht
  obtain ⟨p, hp, hpt⟩ := List.getElem_of_mem hmem
  have hp' : (teamPermutation env config)[p]? = some teamNum := by
    rw [List.getElem?_eq_getElem hp, hpt]
  have hpe : p < effs.length := by
    rw [hlen, ← teamPermutation_length env config]
    exact hp
  obtain ⟨teamNum1, h1, hOK⟩ := hok p effs[p] (List.getElem?_eq_getElem hpe)
  rw [hp'] at h1
  cases h1
  exact ⟨p, effs[p], List.getElem_mem hpe, hp', hOK, teamPosition_eq env config p teamNum hp'⟩

theorem users_nodup {S : Type} (env : Env S) (config : LoadtestEnviromentConfig ℚ)
    (users : List UserImportData) (teams : List TeamImportData)
    (channels : List ChannelImportData)
    (h : distribute env config = .ok (users, teams, channels)) : users.Nodup := by
  obtain ⟨effs, _, _, _, hus⟩ := distribute_users env config _ _ _ h
  rw [List.nodup_iff_injective_getElem]
  intro a b hab
  have ha : users[a.1]? = some users[a.1] := List.getElem?_eq_getElem a.2
  have hb : users[b.1]? = some users[b.1] := List.getElem?_eq_getElem b.2
  have h1 := (hus a.1 _ ha).1
  have h2 := (hus b.1 _ hb).1
  have hab' : users[a.1] = users[b.1] := hab
  rw [hab', h2] at h1
  exact Fin.ext (newUser_username_injective _ _ h1).symm

/-- The counts of the members of a team and of one of its channels. -/
theorem member_counts {S : Type} (env : Env S) (config : LoadtestEnviromentConfig ℚ)
    (r : GenerateBulkloadFileResult)
    (hd : distribute env config = .ok (r.Users, r.Teams, r.Channels))
    (teamNum c : Nat) (ht : teamNum < config.NumTeams.toNat)
    (hc : c < config.NumChannelsPerTeam.toNat) :
    ∃ (e : TeamEffect) (ce : ChannelEffect),
      e.name = (newTeam teamNum).Name ∧ ce.name = (newChannel teamNum c).Name ∧
      (teamMembers r e.name).length = e.members.length ∧
      (channelMembers r e.name ce.name).length = ce.sel.length ∧
      ((e.members.length : Int) = teamMemberTarget env config e.name) ∧
      ce.sel.length ≤ e.members.length ∧
      ce.sel.length = (min (env.floorMul e.members.length
          (channelUserPercent env config config.NumChannelsPerTeam.toNat c))
        (e.members.length : Int)).toNat ∧
      ce.weight = (channelTier env config config.NumChannelsPerTeam.toNat
        (e.members.length : Int) c).2 := by
  obtain ⟨effs, hel, hok, hlen, hus⟩ := distribute_users env config _ _ _ hd
  obtain ⟨p, e, he, hperm, hOK, hpos⟩ := effect_of_team env config effs hel hok teamNum ht
  have hOK' := hOK
  obtain ⟨hname, hw, hmlen, hmnd, hmlt, hclen, hch⟩ := hOK
  have hcl : c < e.chans.length := by rw [hclen]; exact hc
  have hce := hch c e.chans[c] (List.getElem?_eq_getElem hcl)
  obtain ⟨hcname, hcw, hsnd, hssub, hslen⟩ := hce
  have hnd := effs_names_nodup env config effs hel hok
  have hcnd := chans_names_nodup env config p teamNum e hOK'
  refine ⟨e, e.chans[c], hname, hcname, ?_, ?_, ?_, ?_, ?_, ?_⟩
  · unfold teamMembers
    apply length_filter_of_index_set _ _ _ hmnd
    · intro i hi
      rw [hlen]
      exact hmlt i hi
    · intro j u hj
      exact isTeamMember_iff effs hnd e he j u (hus j u hj).2.2.1
  · unfold channelMembers
    apply length_filter_of_index_set _ _ _ hsnd
    · intro i hi
      rw [hlen]
      exact hmlt i (hssub i hi)
    · intro j u hj
      exact isChannelMember_iff effs hnd e he hcnd _ (List.getElem_mem hcl) hssub j u
        (hus j u hj).2.2.1
  · unfold teamMemberTarget
    rw [hname, hpos, hmlen]
  · rw [hslen, capAt_eq_min]
    omega
  · rw [hslen, capAt_eq_min, channelTier_fst, ← hmlen]
  · rw [hcw, ← hmlen]

set_option maxRecDepth 8000

/-! ## C4: the members of a channel -/

theorem membership_channel_names_nodup {S : Type} (env : Env S)
    (config : LoadtestEnviromentConfig ℚ) (p teamNum : Nat) (e : TeamEffect)
    (hOK : TeamEffectOK env config p teamNum e) (j : Nat) :
    ((membership e j).Channels.map (fun c => c.Name)).Nodup ∧
    (membership e j).Channels.length ≤ config.NumChannelsPerTeam.toNat := by
  rw [membership_channels, List.map_map, List.length_map]
  have hsub : (channelsOf e.chans j).Sublist e.chans := List.filter_sublist e.chans
  constructor
  · exact List.Nodup.sublist (hsub.map _) (chans_names_nodup env config p teamNum e hOK)
  · rw [← hOK.2.2.2.2.2.1]
    exact hsub.length_le

set_option maxRecDepth 8000

/-! ## C5: channel memberships within a team -/

theorem sum_flatMap_filter_map {α β : Type} (f : α → List β) (p : β → Bool) (g : β → Nat)
    (xs : List α) :
    (((xs.flatMap f).filter p).map g).sum
      = (xs.map (fun x => (((f x).filter p).map g).sum)).sum := by
  induction xs with
  | nil => rfl
  | cons x rest ih =>
    simp only [List.flatMap_cons, List.filter_append, List.map_append, List.sum_append,
      List.map_cons, List.sum_cons, ih]

theorem sum_le_mul_filter_length {α : Type} (hf : α → Nat) (P : α → Bool) (N : Nat)
    (xs : List α) (hb : ∀ x ∈ xs, hf x ≤ if P x = true then N else 0) :
    (xs.map hf).sum ≤ N * (xs.filter P).length := by
  induction xs with
  | nil => simp
  | cons x rest ih =>
    have h1 := hb x (List.mem_cons_self _ _)
    have h2 := ih (fun y hy => hb y (List.mem_cons_of_mem _ hy))
    simp only [List.map_cons, List.sum_cons, List.filter_cons]
    by_cases hp : P x = true
    · simp only [hp, if_true, List.length_cons] at h1 ⊢
      rw [Nat.mul_succ]
      omega
    · simp only [hp] at h1 ⊢
      simp only [Bool.false_eq_true, if_false] at h1 ⊢
      omega

/-- Within a list of team memberships with distinct names, the memberships of one team hold at
most `N` channel memberships if every membership holds at most `N`. -/
theorem sum_channels_of_team (a : String) (N : Nat) (ts : List UserTeamImportData)
    (hnd : (ts.map (fun t => t.Name)).Nodup) (hN : ∀ t ∈ ts, t.Channels.length ≤ N) :
    ((ts.filter (fun t => t.Name == a)).map (fun t => t.Channels.length)).sum
      ≤ if ts.any (fun t => t.Name == a) = true then N else 0 := by
  induction ts with
  | nil => simp
  | cons t rest ih =>
    rw [List.map_cons, List.nodup_cons] at hnd
    have h2 := ih hnd.2 (fun y hy => hN y (List.mem_cons_of_mem _ hy))
    by_cases hta : t.Name = a
    · have hrest : rest.filter (fun t => t.Name == a) = [] := by
        rw [List.filter_eq_nil_iff]
        intro y hy hya
        apply hnd.1
        rw [List.mem_map]
        exact ⟨y, hy, by rw [hta]; simpa using hya⟩
      have h1 := hN t (List.mem_cons_self _ _)
      simp [List.filter_cons, hta, hrest, h1]
    · have hf : (t.Name == a) = false := by simpa using hta
      simp only [List.filter_cons, hf, List.any_cons, Bool.false_or]
      simpa using h2

/-- C5 (as amended). For every team produced by `GenerateBulkloadFile` and every channel of the
team, the number of memberships of that channel never exceeds the member count of the team,
whatever the tier percentages; the total number of channel memberships within the team is at
most `NumChannelsPerTeam` times the member count of the team. -/
theorem C5_channel_memberships_bounded {S : Type} (env : Env S) (sched : List Actor)
    (config : LoadtestEnviromentConfig ℚ) (r : GenerateBulkloadFileResult)
    (h : GenerateBulkloadFile env sched config = .ok r) :
    ∀ teamNum : Nat, (teamNum : Int) < config.NumTeams →
      (∀ c : Nat, (c : Int) < config.NumChannelsPerTeam →
        (channelMembers r ("loadtestteam" ++ Itoa teamNum)
            ("loadtestchannel" ++ Itoa c)).length
          ≤ (teamMembers r ("loadtestteam" ++ Itoa teamNum)).length) ∧
      totalChannelMemberships r ("loadtestteam" ++ Itoa teamNum)
        ≤ config.NumChannelsPerTeam.toNat
          * (teamMembers r ("loadtestteam" ++ Itoa teamNum)).length := by
  obtain ⟨hd, _⟩ := GenerateBulkloadFile_ok env sched config r h
  intro teamNum ht
  constructor
  · intro c hc
    obtain ⟨e, ce, hname, hcname, htm, hcm, _, hle, _, _⟩ :=
      member_counts env config r hd teamNum c (by omega) (by omega)
    have hn1 : "loadtestteam" ++ Itoa teamNum = e.name := hname.symm
    have hn2 : "loadtestchannel" ++ Itoa c = ce.name := hcname.symm
    rw [hn1, hn2, htm, hcm]
    exact hle
  · obtain ⟨effs, hel, hok, hlen, hus⟩ := distribute_users env config _ _ _ hd
    unfold totalChannelMemberships teamMembers
    rw [sum_flatMap_filter_map]
    apply sum_le_mul_filter_length
    intro u hu
    obtain ⟨j, hj, hju⟩ := List.getElem_of_mem hu
    have hj' : r.Users[j]? = some u := by rw [List.getElem?_eq_getElem hj, hju]
    have hteams := (hus j u hj').2.2.1
    have hsub : (teamsOf effs j).Sublist effs := List.filter_sublist effs
    unfold isTeamMember
    apply sum_channels_of_team
    · have hnames : u.Teams.map (fun t => t.Name) = (teamsOf effs j).map (fun e => e.name) := by
        rw [hteams, List.map_map]
        apply List.map_congr_left
        intro e _
        exact membership_name e j
      rw [hnames]
      exact List.Nodup.sublist (hsub.map _) (effs_names_nodup env config effs hel hok)
    · intro t htm
      rw [hteams, List.mem_map] at htm
      obtain ⟨e, he, het⟩ := htm
      obtain ⟨p, tn, _, _, _, hOK, _, _⟩ :=
        effect_facts env config effs hok e (mem_effs_of_mem_teamsOf effs j e he).1
      rw [← het]
      exact (membership_channel_names_nodup env config p tn e hOK j).2

/-- The witness of C5 (as amended): the configuration of the counterexample. -/
theorem C5_channel_memberships_bounded_witness :
    ∃ r, GenerateBulkloadFile rotatingEnv (alternating 10) twoChannelsConfig = .ok r ∧
      totalChannelMemberships r ("loadtestteam" ++ Itoa 0)
        ≤ 2 * (teamMembers r ("loadtestteam" ++ Itoa 0)).length := by
  with_unfolding_all exact ⟨_, rfl,
    (C5_channel_memberships_bounded rotatingEnv (alternating 10) twoChannelsConfig _ rfl 0
      (by decide)).2⟩

/-- The counterexample to C5 as stated: one team with two channels and one user, every user
percentage `1`; the team has 1 member, who is given both channels, so 2 channel memberships are
assigned within the team. -/
theorem C5_counterexample_total_exceeds :
    ∃ r, GenerateBulkloadFile rotatingEnv (alternating 10) twoChannelsConfig = .ok r ∧
      (teamMembers r ("loadtestteam" ++ Itoa 0)).length = 1 ∧
      totalChannelMemberships r ("loadtestteam" ++ Itoa 0) = 2 ∧
      ¬ totalChannelMemberships r ("loadtestteam" ++ Itoa 0)
          ≤ (teamMembers r ("loadtestteam" ++ Itoa 0)).length := by
  with_unfolding_all exact ⟨_, rfl, by decide, by decide, by decide⟩

set_option maxRecDepth 8000

/-! ## C6: the tiers of the teams -/

theorem teamTier_eq_values {S : Type} (env : Env S) (config : LoadtestEnviromentConfig ℚ)
    (p : Nat) : teamTier env config p = teamTierValues env config (teamTierLabel env config p) := by
  unfold teamTierLabel
  rw [tierOf_apply (teamTierValues env config)]
  rfl

theorem wrapInt64_eq_self (z : Int) (h0 : -2 ^ 63 ≤ z) (h1 : z < 2 ^ 63) : wrapInt64 z = z := by
  unfold wrapInt64
  omega

theorem wrapInt64_range (z : Int) : -2 ^ 63 ≤ wrapInt64 z ∧ wrapInt64 z < 2 ^ 63 := by
  unfold wrapInt64
  omega

/-- The rule of the two tests of lines 234 and 238; `W` is the `int` sum of the two counts. -/
theorem tierOf_high_iff (p : Nat) (H M : Int) :
    tierOf p H M Tier.high Tier.mid Tier.low = Tier.high
      ↔ (p : Int) ≤ H ∧ (p : Int) ≤ wrapInt64 (H + M) := by
  unfold tierOf
  simp only
  by_cases h1 : (p : Int) > wrapInt64 (H + M)
  · simp only [if_pos h1]
    constructor
    · intro h; cases h
    · intro h; omega
  · by_cases h2 : (p : Int) > H
    · simp only [if_neg h1, if_pos h2]
      constructor
      · intro h; cases h
      · intro h; omega
    · simp only [if_neg h1, if_neg h2]
      constructor
      · intro _; omega
      · intro _; trivial

theorem tierOf_mid_iff (p : Nat) (H M : Int) :
    tierOf p H M Tier.high Tier.mid Tier.low = Tier.mid
      ↔ H < (p : Int) ∧ (p : Int) ≤ wrapInt64 (H + M) := by
  unfold tierOf
  simp only
  by_cases h1 : (p : Int) > wrapInt64 (H + M)
  · simp only [if_pos h1]
    constructor
    · intro h; cases h
    · intro h; omega
  · by_cases h2 : (p : Int) > H
    · simp only [if_neg h1, if_pos h2]
      constructor
      · intro _; omega
      · intro _; trivial
    · simp only [if_neg h1, if_neg h2]
      constructor
      · intro h; cases h
      · intro h; omega

theorem tierOf_low_iff (p : Nat) (H M : Int) :
    tierOf p H M Tier.high Tier.mid Tier.low = Tier.low ↔ (p : Int) > wrapInt64 (H + M) := by
  unfold tierOf
  simp only
  by_cases h1 : (p : Int) > wrapInt64 (H + M)
  · simp only [if_pos h1]
    constructor
    · intro _; exact h1
    · intro _; trivial
  · by_cases h2 : (p : Int) > H
    · simp only [if_neg h1, if_pos h2]
      constructor
      · intro h; cases h
      · intro h; omega
    · simp only [if_neg h1, if_neg h2]
      constructor
      · intro h; cases h
      · intro h; omega

theorem count_positions_le (H : Int) (T : Nat) :
    (((List.range T).filter (fun p : Nat => decide ((p : Int) ≤ H))).length : Int)
      = max 0 (min (T : Int) (H + 1)) := by
  induction T with
  | zero =>
    simp only [List.range_zero, List.filter_nil, List.length_nil]
    omega
  | succ T ih =>
    rw [List.range_succ, List.filter_append, List.length_append]
    push_cast
    rw [ih]
    by_cases hT : (T : Int) ≤ H
    · simp only [List.filter_cons, hT, decide_True, if_true, List.filter_nil,
        List.length_singleton]
      omega
    · simp only [List.filter_cons, hT, decide_False, List.filter_nil, List.length_nil]
      simp only [Bool.false_eq_true, if_false, List.length_nil]
      omega

/-- The members of the team at a position of the permutation. -/
theorem team_member_count {S : Type} (env : Env S) (config : LoadtestEnviromentConfig ℚ)
    (r : GenerateBulkloadFileResult)
    (hd : distribute env config = .ok (r.Users, r.Teams, r.Channels))
    (p teamNum : Nat) (hp : (teamPermutation env config)[p]? = some teamNum) :
    ((teamMembers r (newTeam teamNum).Name).length : Int) = (teamTier env config p).1 ∧
    teamSelectionWeight env config (newTeam teamNum).Name = (teamTier env config p).2 := by
  obtain ⟨effs, hel, hok, hlen, hus⟩ := distribute_users env config _ _ _ hd
  have ht := teamPermutation_lt env config p teamNum hp
  obtain ⟨p1, e, he, hperm, hOK, hpos⟩ := effect_of_team env config effs hel hok teamNum ht
  have hpp : p1 = p := by
    rw [← hpos]
    exact teamPosition_eq env config p teamNum hp
  subst hpp
  obtain ⟨hname, hw, hmlen, hmnd, hmlt, _, _⟩ := hOK
  have hnd := effs_names_nodup env config effs hel hok
  constructor
  · rw [← hname, ← hmlen]
    congr 1
    unfold teamMembers
    apply length_filter_of_index_set _ _ _ hmnd
    · intro i hi
      rw [hlen]
      exact hmlt i hi
    · intro j u hj
      exact isTeamMember_iff effs hnd e he j u (hus j u hj).2.2.1
  · unfold teamSelectionWeight
    rw [hpos]

set_option maxRecDepth 8000

/-! ## C8: configurations on which the generator fails -/

/-- C8 (evaluation of the code at the failing input). With one team, two users and the user
percentage `3/2` for high volume teams, `numUsersToAdd = 3` exceeds the length 2 of
`userPermutation`, which line 250 indexes without a cap: `GenerateBulkloadFile` panics with an
index out of range, under every schedule. With the percentage `-1/2` the capacity of
`make([]int, 0, numUsersToAdd)` at line 244 is `-1` and the call panics. -/
theorem C8_panic_on_user_percentage_out_of_range (sched : List Actor) :
    rotatingEnv.floorMul percentAboveOneConfig.NumUsers
      percentAboveOneConfig.PercentUsersHighVolumeTeams = 3 ∧
    GenerateBulkloadFile rotatingEnv sched percentAboveOneConfig
      = .error (.panic .indexOutOfRange) ∧
    GenerateBulkloadFile rotatingEnv sched negativeUserPercentConfig
      = .error (.panic .makesliceCapOutOfRange) := by
  have h1 : distribute rotatingEnv percentAboveOneConfig = .error .indexOutOfRange := by
    with_unfolding_all rfl
  have h2 : distribute rotatingEnv negativeUserPercentConfig
      = .error .makesliceCapOutOfRange := by
    with_unfolding_all rfl
  refine ⟨by with_unfolding_all decide, ?_, ?_⟩
  · unfold GenerateBulkloadFile
    rw [h1]
  · unfold GenerateBulkloadFile
    rw [h2]

/-! ## C10: the tiers of the channels -/

theorem channelTier_snd {S : Type} (env : Env S) (config : LoadtestEnviromentConfig ℚ)
    (numChannels : Nat) (n : Int) (k : Nat) :
    (channelTier env config numChannels n k).2
      = channelSelectionWeight env config numChannels k := by
  unfold channelTier channelSelectionWeight
  rw [tierOf_apply Prod.snd]

theorem membership_channel_choice (e : TeamEffect) (j : Nat) (k : Nat) (c : ChannelEffect)
    (h : (channelsOf e.chans j)[k]? = some c) :
    (membership e j).ChannelChoice[k]? = some ({ Item := .int k, Weight := c.weight } : Choice) :=
  (chanFold_shape e.chans j _ rfl rfl).2.2.2.2 k c h

/-- The tiers of the channels as the code assigns them: every channel membership of the result
is of a generated channel "loadtestchannel" `c` and carries the selection weight of the tier at
position `c` of the generation order of the channels of the team, whatever the random source
draws (line 265 ranges over `channelsInTeam`, no permutation of the channels is drawn). -/
theorem channel_tier_by_generation_index {S : Type} (env : Env S) (sched : List Actor)
    (config : LoadtestEnviromentConfig ℚ) (r : GenerateBulkloadFileResult)
    (h : GenerateBulkloadFile env sched config = .ok r) :
    ∀ u ∈ r.Users, ∀ t ∈ u.Teams, ∀ (k : Nat) (ch : UserChannelImportData),
      t.Channels[k]? = some ch →
      ∃ c : Nat, (c : Int) < config.NumChannelsPerTeam ∧
        ch.Name = "loadtestchannel" ++ Itoa c ∧
        t.ChannelChoice[k]? = some
          ({ Item := .int k
             Weight := channelSelectionWeight env config config.NumChannelsPerTeam.toNat c } :
            Choice) := by
  obtain ⟨hd, _⟩ := GenerateBulkloadFile_ok env sched config r h
  obtain ⟨effs, hel, hok, hlen, hus⟩ := distribute_users env config _ _ _ hd
  intro u hu t ht k ch hk
  obtain ⟨j, hj, hju⟩ := List.getElem_of_mem hu
  have hj' : r.Users[j]? = some u := by rw [List.getElem?_eq_getElem hj, hju]
  rw [(hus j u hj').2.2.1, List.mem_map] at ht
  obtain ⟨e, he, het⟩ := ht
  obtain ⟨p, teamNum, _, _, _, hOK, _, _⟩ :=
    effect_facts env config effs hok e (mem_effs_of_mem_teamsOf effs j e he).1
  rw [← het, membership_channels, List.getElem?_map] at hk
  cases hc : (channelsOf e.chans j)[k]? with
  | none => rw [hc] at hk; cases hk
  | some c1 =>
    rw [hc] at hk
    simp only [Option.map_some', Option.some.injEq] at hk
    have hmem : c1 ∈ channelsOf e.chans j := by
      obtain ⟨hlt, heq⟩ := List.getElem?_eq_some_iff.mp hc
      exact heq ▸ List.getElem_mem hlt
    obtain ⟨hc1, _⟩ := mem_chans_of_mem_channelsOf e.chans j c1 hmem
    obtain ⟨i, hi, hic⟩ := List.getElem_of_mem hc1
    have hi' : e.chans[i]? = some c1 := by rw [List.getElem?_eq_getElem hi, hic]
    obtain ⟨hname, hw, _, _, _⟩ := hOK.2.2.2.2.2.2 i c1 hi'
    have hiN : i < config.NumChannelsPerTeam.toNat := by
      rw [← hOK.2.2.2.2.2.1]
      exact hi
    refine ⟨i, by omega, ?_, ?_⟩
    · rw [← hk]
      exact hname
    · rw [← het, membership_channel_choice e j k c1 hc, hw, channelTier_snd]

/-- C10 (evaluation of the code at the failing input). With a random source that always draws
the reversed order, one team, two channels and one user, the run returns; the permutation of
the two channels of the team that the claim speaks of would be `[1, 0]`, so that tiering by the
position in it gives channel 0 the low-tier weight 1 and channel 1 the high-tier weight 3. The
code gives the channel with generation index 0 the high-tier weight 3 and the channel with
index 1 the low-tier weight 1: the loop of line 265 ranges over `channelsInTeam` in generation
order, where the loop over the teams (lines 227-229) ranges over a permutation. -/
theorem C10_channels_tiered_in_generation_order :
    ∃ r, GenerateBulkloadFile reversingEnv (alternating 10) twoChannelsConfig = .ok r ∧
      (reversingEnv.Perm () 2).1 = [1, 0] ∧
      r.Users.map (fun u => u.Teams.map
          (fun t => (t.Channels.map (fun c => c.Name), t.ChannelChoice.map (fun c => c.Weight))))
        = [[(["loadtestchannel0", "loadtestchannel1"], [3, 1])]] ∧
      channelSelectionWeightByPermutation reversingEnv twoChannelsConfig () 2 0 = 1 ∧
      channelSelectionWeightByPermutation reversingEnv twoChannelsConfig () 2 1 = 3 ∧
      channelSelectionWeight reversingEnv twoChannelsConfig 2 0
        ≠ channelSelectionWeightByPermutation reversingEnv twoChannelsConfig () 2 0 := by
  with_unfolding_all exact ⟨_, rfl, by decide, by decide, by decide, by decide, by decide⟩

/-! ## C3: `PickTeamChannel` without membership -/

/-- C3. `PickTeamChannel` returns the no-membership outcome `nil, nil` without failing for every
user whose team-choice table is empty, and also whenever the team it chose has an empty
channel-choice table; in the first case `randutil.WeightedChoice` is not called at all, in the
second it is called once, on the non-empty team-choice table; and in no case at all is it called
on an empty table. -/
theorem C3_pick_without_membership (WeightedChoice : Nat → List Choice → Except String Choice)
    (s : UserImportData) :
    (s.TeamChoice = [] →
      (PickTeamChannel WeightedChoice s).outcome = .ok none ∧
      (PickTeamChannel WeightedChoice s).calls = []) ∧
    (∀ (item : Choice) (teamIndex : Int) (team : UserTeamImportData),
      s.TeamChoice ≠ [] → WeightedChoice 0 s.TeamChoice = .ok item →
      item.Item = .int teamIndex → 0 ≤ teamIndex → s.Teams[teamIndex.toNat]? = some team →
      team.ChannelChoice = [] →
      (PickTeamChannel WeightedChoice s).outcome = .ok none ∧
      (PickTeamChannel WeightedChoice s).calls = [s.TeamChoice]) ∧
    (∀ table ∈ (PickTeamChannel WeightedChoice s).calls, table ≠ []) := by
  refine ⟨?_, ?_, ?_⟩
  · intro h
    unfold PickTeamChannel
    rw [if_pos (by rw [h]; rfl)]
    exact ⟨rfl, rfl⟩
  · intro item teamIndex team hne hwc hitem hidx hteam hcc
    have hlen : ¬ s.TeamChoice.length = 0 := by
      intro h0
      exact hne (List.length_eq_zero.mp h0)
    have hi : index s.Teams teamIndex.toNat = .ok team := (index_eq_ok _ _ _).mpr hteam
    unfold PickTeamChannel
    rw [if_neg hlen]
    simp only [hwc, hitem]
    rw [if_neg (by omega)]
    simp only [hi]
    rw [if_pos (by rw [hcc]; rfl)]
    exact ⟨rfl, rfl⟩
  · have hnil : ∀ l : List Choice, ¬ l.length = 0 → l ≠ [] := by
      intro l hl h0
      rw [h0] at hl
      exact hl rfl
    intro table htable
    unfold PickTeamChannel at htable
    split at htable
    · cases htable
    · rename_i hlen
      have h1 := hnil _ hlen
      split at htable
      · simp only [List.mem_singleton] at htable
        rw [htable]; exact h1
      · split at htable
        · simp only [List.mem_singleton] at htable
          rw [htable]; exact h1
        · split at htable
          · simp only [List.mem_singleton] at htable
            rw [htable]; exact h1
          · split at htable
            · simp only [List.mem_singleton] at htable
              rw [htable]; exact h1
            · split at htable
              · simp only [List.mem_singleton] at htable
                rw [htable]; exact h1
              · rename_i team _ hlen2
                have h2 := hnil _ hlen2
                have hboth : ∀ t, t ∈ [s.TeamChoice, team.ChannelChoice] → t ≠ [] := by
                  intro t ht
                  simp only [List.mem_cons, List.mem_singleton, List.not_mem_nil, or_false] at ht
                  rcases ht with ht | ht
                  · rw [ht]; exact h1
                  · rw [ht]; exact h2
                split at htable
                · exact hboth _ htable
                · split at htable
                  · exact hboth _ htable
                  · split at htable
                    · exact hboth _ htable
                    · split at htable
                      · exact hboth _ htable
                      · exact hboth _ htable

/-- The witness of C3: a user of one team without channel membership, with a primitive that
returns the first entry of the table. -/
theorem C3_pick_without_membership_witness :
    (PickTeamChannel firstChoice (newUser 0)).outcome = .ok none ∧
    (PickTeamChannel firstChoice (newUser 0)).calls = [] ∧
    (PickTeamChannel firstChoice userWithoutChannels).outcome = .ok none ∧
    (PickTeamChannel firstChoice userWithoutChannels).calls
      = [userWithoutChannels.TeamChoice] :=
  ⟨((C3_pick_without_membership firstChoice (newUser 0)).1 rfl).1,
   ((C3_pick_without_membership firstChoice (newUser 0)).1 rfl).2,
   ((C3_pick_without_membership firstChoice userWithoutChannels).2.1
      { Item := .int 0, Weight := 3 } 0
      { Name := "loadtestteam0", Roles := "team_user", Channels := [], ChannelChoice := [] }
      (by decide) rfl rfl (by decide) rfl rfl).1,
   ((C3_pick_without_membership firstChoice userWithoutChannels).2.1
      { Item := .int 0, Weight := 3 } 0
      { Name := "loadtestteam0", Roles := "team_user", Channels := [], ChannelChoice := [] }
      (by decide) rfl rfl (by decide) rfl rfl).2⟩

/-! ## The pipeline completes -/

theorem pipeRun_alternating_closed (n : Nat) (output : List LineImportData) (d : Bool) :
    (pipeRun (alternating (n + 1))
      { pending := [], queue := [], closed := d, output := output, done := false }).done
      = true := by
  induction n generalizing d with
  | zero => rfl
  | succ n ih =>
    have hstep : pipeRun (alternating (n + 1 + 1))
        { pending := [], queue := [], closed := d, output := output, done := false }
        = pipeRun (alternating (n + 1))
          { pending := [], queue := [], closed := true, output := output, done := true } := rfl
    rw [hstep]
    have hdone : ∀ (m : Nat),
        (pipeRun (alternating m)
          { pending := [], queue := [], closed := true, output := output, done := true }).done
          = true := by
      intro m
      induction m with
      | zero => rfl
      | succ m ihm => exact ihm
    exact hdone (n + 1)

/-- Under the alternating schedule the pipeline is done after one round per record and one more
round. -/
theorem pipeRun_alternating_done (records : List LineImportData) :
    ∀ (n : Nat) (output : List LineImportData), records.length < n →
      (pipeRun (alternating n)
        { pending := records, queue := [], closed := false, output := output, done := false }).done
        = true := by
  induction records with
  | nil =>
    intro n output hn
    cases n with
    | zero => simp at hn
    | succ n => exact pipeRun_alternating_closed n output false
  | cons x rest ih =>
    intro n output hn
    cases n with
    | zero => simp at hn
    | succ n =>
      have hstep : pipeRun (alternating (n + 1))
          { pending := x :: rest, queue := [], closed := false, output := output, done := false }
          = pipeRun (alternating n)
            { pending := rest, queue := [], closed := false, output := output ++ [x],
              done := false } := rfl
      rw [hstep]
      exact ih n (output ++ [x]) (by simpa using hn)

/-- Whenever lines 187-296 do not panic, `GenerateBulkloadFile` returns under the alternating
schedule of sufficient length: the goroutines cannot block each other for ever. -/
theorem GenerateBulkloadFile_completes {S : Type} (env : Env S)
    (config : LoadtestEnviromentConfig ℚ) (users : List UserImportData)
    (teams : List TeamImportData) (channels : List ChannelImportData)
    (h : distribute env config = .ok (users, teams, channels)) (n : Nat)
    (hn : (lineObjects users teams channels).length < n) :
    GenerateBulkloadFile env (alternating n) config
      = .ok { File := lineObjects users teams channels, Users := users, Teams := teams,
              Channels := channels } := by
  have hdone := pipeRun_alternating_done (lineObjects users teams channels) n [] hn
  have hout := pipeRun_done (lineObjects users teams channels) (alternating n) hdone
  unfold GenerateBulkloadFile
  rw [h]
  simp only
  unfold pipeInit at hout ⊢
  rw [if_pos hdone, hout]

/-! ## Runs that do not panic -/

/-- Total-correctness rule for `forLoop`: a body that succeeds under the invariant makes the
loop succeed. -/
theorem forLoop_succeeds {σ : Type} (Inv : Nat → σ → Prop) (n : Nat)
    (body : Nat → σ → Except Panic σ) (s : σ) (h0 : Inv 0 s)
    (hstep : ∀ k st, k < n → Inv k st → ∃ st1, body k st = .ok st1 ∧ Inv (k + 1) st1) :
    ∃ s1, forLoop n body s = .ok s1 ∧ Inv n s1 := by
  induction n with
  | zero => exact ⟨s, rfl, h0⟩
  | succ n ih =>
    obtain ⟨s2, hrun, hinv⟩ := ih (fun k st hk => hstep k st (Nat.lt_succ_of_lt hk))
    obtain ⟨s3, hb, hinv3⟩ := hstep n s2 (Nat.lt_succ_self n) hinv
    refine ⟨s3, ?_, hinv3⟩
    rw [forLoop_succ, hrun]
    exact hb

/-- Total-correctness rule for `forRangeFrom`. -/
theorem forRangeFrom_succeeds {α σ : Type} (Inv : Nat → σ → Prop) (xs : List α) :
    ∀ (start : Nat) (body : Nat → α → σ → Except Panic σ) (s : σ), Inv 0 s →
    (∀ k x st, xs[k]? = some x → Inv k st →
      ∃ st1, body (start + k) x st = .ok st1 ∧ Inv (k + 1) st1) →
    ∃ s1, forRangeFrom start xs body s = .ok s1 ∧ Inv xs.length s1 := by
  induction xs generalizing Inv with
  | nil =>
    intro start body s h0 _
    exact ⟨s, rfl, h0⟩
  | cons x rest ih =>
    intro start body s h0 hstep
    obtain ⟨s2, hb, h1⟩ := hstep 0 x s (by simp) h0
    obtain ⟨s3, hrun, h3⟩ := ih (fun k st => Inv (k + 1) st) (start + 1) body s2 h1
      (fun k y st hy hinv => by
        obtain ⟨st1, hb1, hi1⟩ := hstep (k + 1) y st (by simpa using hy) hinv
        refine ⟨st1, ?_, hi1⟩
        rw [← hb1]
        congr 1
        omega)
    refine ⟨s3, ?_, by simpa using h3⟩
    unfold forRangeFrom
    simp only [Nat.add_zero] at hb
    rw [hb]
    exact hrun

/-- Total-correctness rule for `forRange`. -/
theorem forRange_succeeds {α σ : Type} (Inv : Nat → σ → Prop) (xs : List α)
    (body : Nat → α → σ → Except Panic σ) (s : σ) (h0 : Inv 0 s)
    (hstep : ∀ k x st, xs[k]? = some x → Inv k st →
      ∃ st1, body k x st = .ok st1 ∧ Inv (k + 1) st1) :
    ∃ s1, forRange xs body s = .ok s1 ∧ Inv xs.length s1 :=
  forRangeFrom_succeeds Inv xs 0 body s h0
    (fun k x st hx hinv => by
      obtain ⟨st1, hb, hi⟩ := hstep k x st hx hinv
      exact ⟨st1, by simpa using hb, hi⟩)

theorem addTeamMembers_succeeds (name : String) (w : Int) (p : List Nat) (n : Nat)
    (users : List UserImportData) (hn : n ≤ p.length) (hp : ∀ i ∈ p, i < users.length) :
    ∃ res, addTeamMembers name w p n users = .ok res := by
  unfold addTeamMembers
  obtain ⟨s1, hrun, _⟩ := forLoop_succeeds
    (fun _ (st : List UserImportData × List Nat) => st.1.length = users.length) n
    (fun userNum st =>
      match index p userNum with
      | .error e => .error e
      | .ok i =>
        match index st.1 i with
        | .error e => .error e
        | .ok u => .ok (st.1.set i (addTeam name w u), st.2 ++ [i]))
    (users, []) rfl
    (by
      intro k st hk hlen
      have hk' : k < p.length := by omega
      have hi : index p k = .ok p[k] := (index_eq_ok _ _ _).mpr (List.getElem?_eq_getElem hk')
      have hlt : p[k] < st.1.length := by
        rw [hlen]
        exact hp _ (List.getElem_mem hk')
      have hu : index st.1 p[k] = .ok st.1[p[k]] :=
        (index_eq_ok _ _ _).mpr (List.getElem?_eq_getElem hlt)
      refine ⟨(st.1.set p[k] (addTeam name w st.1[p[k]]), st.2 ++ [p[k]]), ?_, ?_⟩
      · simp only [hi, hu]
      · simp [hlen])
  exact ⟨s1, hrun⟩

theorem addChannelT_teams_ne_nil (name : String) (w : Int) (u : UserImportData)
    (h : u.Teams ≠ []) : (addChannelT name w u).Teams ≠ [] := by
  unfold addChannelT
  cases hl : u.Teams.getLast? with
  | none => exact h
  | some t =>
    simp only
    intro hnil
    have := congrArg List.length hnil
    simp only [List.length_set, List.length_nil] at this
    exact h (List.length_eq_zero.mp this)

theorem addChannel_succeeds (name : String) (w : Int) (u : UserImportData) (h : u.Teams ≠ []) :
    addChannel name w u = .ok (addChannelT name w u) := by
  unfold addChannel addChannelT
  cases hl : u.Teams.getLast? with
  | none =>
    rw [List.getLast?_eq_none_iff] at hl
    exact absurd hl h
  | some t => rfl

theorem addChannelMembers_succeeds (name : String) (w : Int) (uit q : List Nat) (m : Nat)
    (users : List UserImportData) (hm : m ≤ q.length) (hq : ∀ a ∈ q, a < uit.length)
    (huit : ∀ x ∈ uit, ∃ u, users[x]? = some u ∧ u.Teams ≠ []) :
    ∃ res, addChannelMembers name w uit q m users = .ok res := by
  unfold addChannelMembers
  obtain ⟨s1, hrun, _⟩ := forLoop_succeeds
    (fun _ (st : List UserImportData) => ∀ x ∈ uit, ∃ u, st[x]? = some u ∧ u.Teams ≠ []) m
    (fun userInTeamNum us =>
      match index q userInTeamNum with
      | .error e => .error e
      | .ok k =>
        match index uit k with
        | .error e => .error e
        | .ok userNum =>
          match index us userNum with
          | .error e => .error e
          | .ok u =>
            match addChannel name w u with
            | .error e => .error e
            | .ok u1 => .ok (us.set userNum u1))
    users huit
    (by
      intro k st hk hinv
      have hk' : k < q.length := by omega
      have ha : index q k = .ok q[k] := (index_eq_ok _ _ _).mpr (List.getElem?_eq_getElem hk')
      have hlt : q[k] < uit.length := hq _ (List.getElem_mem hk')
      have hn : index uit q[k] = .ok uit[q[k]] :=
        (index_eq_ok _ _ _).mpr (List.getElem?_eq_getElem hlt)
      obtain ⟨u, hu, hne⟩ := hinv _ (List.getElem_mem hlt)
      have hu' : index st uit[q[k]] = .ok u := (index_eq_ok _ _ _).mpr hu
      refine ⟨st.set uit[q[k]] (addChannelT name w u), ?_, ?_⟩
      · simp only [ha, hn, hu', addChannel_succeeds name w u hne]
      · intro x hx
        obtain ⟨v, hv, hvne⟩ := hinv x hx
        rw [getElem?_set_map st uit[q[k]] x u _ hu]
        by_cases hxe : x = uit[q[k]]
        · rw [if_pos hxe]
          exact ⟨_, rfl, addChannelT_teams_ne_nil name w u hne⟩
        · rw [if_neg hxe]
          exact ⟨v, hv, hvne⟩)
  exact ⟨s1, hrun⟩

theorem channelIteration_succeeds {S : Type} (env : Env S)
    (config : LoadtestEnviromentConfig ℚ) (channels : List ChannelImportData) (uit : List Nat)
    (numChannels : Nat) (numUsersToAdd : Int) (k channelNum : Nat)
    (users : List UserImportData) (s : S) (ch : ChannelImportData)
    (hch : channels[channelNum]? = some ch) (hnd : uit.Nodup)
    (huit : ∀ x ∈ uit, ∃ u, users[x]? = some u ∧ u.Teams ≠ []) :
    ∃ res, channelIteration env config channels uit
      (env.floorMul numChannels config.PercentHighVolumeChannels)
      (env.floorMul numChannels config.PercentMidVolumeChannels)
      (env.floorMul numUsersToAdd config.PercentUsersHighVolumeChannel)
      (env.floorMul numUsersToAdd config.PercentUsersMidVolumeChannel)
      (env.floorMul numUsersToAdd config.PercentUsersLowVolumeChannel)
      k channelNum (users, s) = .ok res ∧
      res.1.length = users.length ∧
      ∀ x ∈ uit, ∃ u, res.1[x]? = some u ∧ u.Teams ≠ [] := by
  have hperm := env.Perm_perm s uit.length
  have hqlen : (env.Perm s uit.length).1.length = uit.length := by
    rw [hperm.length_eq, List.length_range]
  have hq : ∀ a ∈ (env.Perm s uit.length).1, a < uit.length := by
    intro a ha
    simpa using (hperm.mem_iff).mp ha
  have hcap : (capAt (channelTier env config numChannels numUsersToAdd k).1 uit.length).toNat
      ≤ (env.Perm s uit.length).1.length := by
    rw [hqlen, capAt_eq_min]
    omega
  obtain ⟨us, hadd⟩ := addChannelMembers_succeeds ch.Name
    (channelTier env config numChannels numUsersToAdd k).2 uit (env.Perm s uit.length).1 _
    users hcap hq huit
  have hrun : channelIteration env config channels uit
      (env.floorMul numChannels config.PercentHighVolumeChannels)
      (env.floorMul numChannels config.PercentMidVolumeChannels)
      (env.floorMul numUsersToAdd config.PercentUsersHighVolumeChannel)
      (env.floorMul numUsersToAdd config.PercentUsersMidVolumeChannel)
      (env.floorMul numUsersToAdd config.PercentUsersLowVolumeChannel)
      k channelNum (users, s) = .ok (us, (env.Perm s uit.length).2) := by
    unfold channelIteration
    simp only [(index_eq_ok _ _ _).mpr hch]
    unfold channelTier capAt at hadd
    rw [hadd]
  refine ⟨(us, (env.Perm s uit.length).2), hrun, ?_⟩
  obtain ⟨ch1, sel, _, _, _, _, hlen, hpt⟩ :=
    channelIteration_ok env config channels uit numChannels numUsersToAdd k channelNum users us
      s _ hnd hrun
  refine ⟨hlen, ?_⟩
  intro x hx
  obtain ⟨u, hu, hne⟩ := huit x hx
  rw [hpt x, hu]
  by_cases hsel : x ∈ sel
  · simp only [Option.map_some', if_pos hsel]
    exact ⟨_, rfl, addChannelT_teams_ne_nil _ _ u hne⟩
  · simp only [Option.map_some', if_neg hsel]
    exact ⟨u, rfl, hne⟩

theorem addTeam_teams_ne_nil (name : String) (w : Int) (u : UserImportData) :
    (addTeam name w u).Teams ≠ [] := by
  unfold addTeam
  simp

theorem teamIteration_succeeds {S : Type} (env : Env S)
    (config : LoadtestEnviromentConfig ℚ) (sequenceNum teamNum : Nat)
    (users : List UserImportData) (s : S)
    (hT : teamNum < config.NumTeams.toNat)
    (hU : users.length = config.NumUsers.toNat)
    (hlo : 0 ≤ (teamTier env config sequenceNum).1)
    (hhi : (teamTier env config sequenceNum).1 ≤ config.NumUsers)
    (hmax : 8 * config.NumUsers ≤ (maxAlloc : Int)) :
    ∃ res, teamIteration env config
      ((List.range config.NumTeams.toNat).map newTeam)
      (channelsClosed config.NumTeams.toNat config.NumChannelsPerTeam.toNat)
      (channelsByTeamClosed config.NumTeams.toNat config.NumChannelsPerTeam.toNat)
      sequenceNum teamNum (users, s) = .ok res := by
  have hteam : index ((List.range config.NumTeams.toNat).map newTeam) teamNum
      = .ok (newTeam teamNum) := by
    rw [index_eq_ok]
    simp [List.getElem?_map, List.getElem?_range hT]
  have hcbt : index (channelsByTeamClosed config.NumTeams.toNat config.NumChannelsPerTeam.toNat)
      teamNum = .ok ((List.range config.NumChannelsPerTeam.toNat).map
        (fun c => teamNum * config.NumChannelsPerTeam.toNat + c)) := by
    rw [index_eq_ok]
    exact getElem?_channelsByTeamClosed _ _ _ hT
  have hperm := env.Perm_perm s users.length
  have hp : (env.Perm s users.length).1.Nodup :=
    (List.Perm.nodup_iff hperm).mpr (List.nodup_range _)
  have hplen : (env.Perm s users.length).1.length = users.length := by
    rw [hperm.length_eq, List.length_range]
  have hplt : ∀ i ∈ (env.Perm s users.length).1, i < users.length := by
    intro i hi
    simpa using (hperm.mem_iff).mp hi
  have hn : (teamTier env config sequenceNum).1.toNat ≤ (env.Perm s users.length).1.length := by
    rw [hplen, hU]
    omega
  obtain ⟨⟨users1, uit⟩, hadd⟩ := addTeamMembers_succeeds (newTeam teamNum).Name
    (teamTier env config sequenceNum).2 (env.Perm s users.length).1 _ users hn hplt
  obtain ⟨_, huit, hlt, hlen1, hpt1⟩ := addTeamMembers_ok _ _ _ _ users users1 uit hp hadd
  have huitnd : uit.Nodup := by
    rw [huit]
    exact List.Nodup.sublist (List.take_sublist _ _) hp
  have hne1 : ∀ x ∈ uit, ∃ u, users1[x]? = some u ∧ u.Teams ≠ [] := by
    intro x hx
    have hxl : x < users.length := hlt x hx
    rw [hpt1 x, List.getElem?_eq_getElem hxl]
    simp only [Option.map_some', if_pos hx]
    exact ⟨_, rfl, addTeam_teams_ne_nil _ _ _⟩
  obtain ⟨res, hrun, _⟩ := forRange_succeeds
    (fun _ (st : List UserImportData × S) =>
      ∀ x ∈ uit, ∃ u, st.1[x]? = some u ∧ u.Teams ≠ [])
    ((List.range config.NumChannelsPerTeam.toNat).map
      (fun c => teamNum * config.NumChannelsPerTeam.toNat + c))
    (channelIteration env config
      (channelsClosed config.NumTeams.toNat config.NumChannelsPerTeam.toNat) uit
      (env.floorMul config.NumChannelsPerTeam.toNat config.PercentHighVolumeChannels)
      (env.floorMul config.NumChannelsPerTeam.toNat config.PercentMidVolumeChannels)
      (env.floorMul (teamTier env config sequenceNum).1 config.PercentUsersHighVolumeChannel)
      (env.floorMul (teamTier env config sequenceNum).1 config.PercentUsersMidVolumeChannel)
      (env.floorMul (teamTier env config sequenceNum).1 config.PercentUsersLowVolumeChannel))
    (users1, (env.Perm s users.length).2) hne1
    (by
      intro k channelNum st hk hinv
      obtain ⟨us0, s0⟩ := st
      have hkN : k < config.NumChannelsPerTeam.toNat ∧
          channelNum = teamNum * config.NumChannelsPerTeam.toNat + k := by
        rw [List.getElem?_map] at hk
        cases hr : (List.range config.NumChannelsPerTeam.toNat)[k]? with
        | none => rw [hr] at hk; cases hk
        | some v =>
          rw [hr] at hk
          obtain ⟨hlt', hv⟩ := List.getElem?_eq_some_iff.mp hr
          simp only [List.getElem_range] at hv
          simp only [Option.map_some', Option.some.injEq] at hk
          simp only [List.length_range] at hlt'
          exact ⟨hlt', by omega⟩
      have hch : (channelsClosed config.NumTeams.toNat config.NumChannelsPerTeam.toNat)[channelNum]?
          = some (newChannel teamNum k) := by
        rw [hkN.2]
        exact getElem?_channelsClosed _ _ _ _ hT hkN.1
      obtain ⟨res, hrun, _, hinv1⟩ := channelIteration_succeeds env config _ uit
        config.NumChannelsPerTeam.toNat (teamTier env config sequenceNum).1 k channelNum us0 s0
        _ hch huitnd hinv
      exact ⟨res, hrun, hinv1⟩)
  refine ⟨res, ?_⟩
  unfold teamIteration
  simp only [hteam, hcbt]
  have hmk : makesliceFails 8 (teamTier env config sequenceNum).1 = false :=
    (makesliceFails_eq_false _ _).mpr ⟨hlo, by push_cast; omega⟩
  unfold teamTier at hmk
  rw [hmk]
  simp only [Bool.false_eq_true, if_false]
  unfold teamTier at hadd
  rw [hadd]
  simp only [List.length_map, List.length_range]
  exact hrun

/-- Lines 187-296 do not panic on a configuration with non-negative counts, within the
allocation limit, whose team tiers each add a number of users between 0 and `NumUsers`, whatever
the other percentages are. -/
theorem distribute_succeeds {S : Type} (env : Env S) (config : LoadtestEnviromentConfig ℚ)
    (hU : 0 ≤ config.NumUsers) (hT : 0 ≤ config.NumTeams) (hN : 0 ≤ config.NumChannelsPerTeam)
    (hUmax : 336 * config.NumUsers ≤ (maxAlloc : Int))
    (hTmax : 72 * config.NumTeams ≤ (maxAlloc : Int))
    (hNmax : 96 * (config.NumChannelsPerTeam * config.NumTeams) ≤ (maxAlloc : Int))
    (hcount : ∀ p : Nat, (p : Int) < config.NumTeams →
      0 ≤ (teamTier env config p).1 ∧ (teamTier env config p).1 ≤ config.NumUsers) :
    ∃ res, distribute env config = .ok res := by
  have hperm := env.Perm_perm env.seed29 config.NumTeams.toNat
  obtain ⟨st, hrun, _⟩ := forRange_succeeds
    (fun _ (st : List UserImportData × S) => st.1.length = config.NumUsers.toNat)
    (env.Perm env.seed29 config.NumTeams.toNat).1
    (teamIteration env config ((List.range config.NumTeams.toNat).map newTeam)
      (channelsClosed config.NumTeams.toNat config.NumChannelsPerTeam.toNat)
      (channelsByTeamClosed config.NumTeams.toNat config.NumChannelsPerTeam.toNat))
    (generateUsers config.NumUsers.toNat, (env.Perm env.seed29 config.NumTeams.toNat).2)
    (by simp [generateUsers_eq])
    (by
      intro k teamNum st hk hlen
      obtain ⟨us0, s0⟩ := st
      have hklt : k < (env.Perm env.seed29 config.NumTeams.toNat).1.length :=
        (List.getElem?_eq_some_iff.mp hk).1
      rw [hperm.length_eq, List.length_range] at hklt
      have hlt : teamNum < config.NumTeams.toNat :=
        teamPermutation_lt env config k teamNum hk
      obtain ⟨hlo, hhi⟩ := hcount k (by omega)
      obtain ⟨res, hres⟩ :=
        teamIteration_succeeds env config k teamNum us0 s0 hlt hlen hlo hhi (by omega)
      refine ⟨res, hres, ?_⟩
      obtain ⟨us1, s1⟩ := res
      obtain ⟨_, _, hlen1, _⟩ := teamIteration_ok env config k teamNum us0 us1 s0 s1 hlt hlen hres
      show us1.length = _
      rw [hlen1]
      exact hlen)
  refine ⟨(st.1, (List.range config.NumTeams.toNat).map newTeam,
    channelsClosed config.NumTeams.toNat config.NumChannelsPerTeam.toNat), ?_⟩
  have hprod := Int.mul_nonneg hN hT
  have hmaxv : (maxAlloc : Int) = 2 ^ 48 := by
    unfold maxAlloc
    norm_num
  have hwrap : wrapInt64 (config.NumChannelsPerTeam * config.NumTeams)
      = config.NumChannelsPerTeam * config.NumTeams :=
    wrapInt64_eq_self _ (by omega) (by omega)
  have h336 : makesliceFails 336 config.NumUsers = false :=
    (makesliceFails_eq_false _ _).mpr ⟨hU, by push_cast; omega⟩
  have h96 : makesliceFails 96 (wrapInt64 (config.NumChannelsPerTeam * config.NumTeams))
      = false := by
    rw [hwrap]
    exact (makesliceFails_eq_false _ _).mpr ⟨hprod, by push_cast; omega⟩
  have h72 : makesliceFails 72 config.NumTeams = false :=
    (makesliceFails_eq_false _ _).mpr ⟨hT, by push_cast; omega⟩
  have h24 : makesliceFails 24 (wrapInt64 (config.NumChannelsPerTeam * config.NumTeams))
      = false := by
    rw [hwrap]
    exact (makesliceFails_eq_false _ _).mpr ⟨hprod, by push_cast; omega⟩
  have h8 : ¬ (0 < config.NumTeams ∧ makesliceFails 8 config.NumChannelsPerTeam = true) := by
    intro hc
    obtain ⟨hpos, hf⟩ := hc
    rcases (makesliceFails_eq_true _ _).mp hf with hneg | hbig
    · omega
    · have hle : config.NumChannelsPerTeam ≤ config.NumChannelsPerTeam * config.NumTeams := by
        nlinarith
      push_cast at hbig
      omega
  unfold distribute
  rw [h336, h96, generateTeams_eq _ h72]
  simp only [Bool.false_eq_true, if_false]
  rw [h24]
  simp only [Bool.false_eq_true, if_false]
  rw [if_neg h8, generateChannels_eq]
  simp only [List.length_map, List.length_range]
  rw [hrun]

/-- On such a configuration `GenerateBulkloadFile` returns a result under the alternating
schedule of sufficient length. -/
theorem GenerateBulkloadFile_succeeds {S : Type} (env : Env S)
    (config : LoadtestEnviromentConfig ℚ)
    (hU : 0 ≤ config.NumUsers) (hT : 0 ≤ config.NumTeams) (hN : 0 ≤ config.NumChannelsPerTeam)
    (hUmax : 336 * config.NumUsers ≤ (maxAlloc : Int))
    (hTmax : 72 * config.NumTeams ≤ (maxAlloc : Int))
    (hNmax : 96 * (config.NumChannelsPerTeam * config.NumTeams) ≤ (maxAlloc : Int))
    (hcount : ∀ p : Nat, (p : Int) < config.NumTeams →
      0 ≤ (teamTier env config p).1 ∧ (teamTier env config p).1 ≤ config.NumUsers) :
    ∃ n r, GenerateBulkloadFile env (alternating n) config = .ok r := by
  obtain ⟨⟨users, teams, channels⟩, h⟩ :=
    distribute_succeeds env config hU hT hN hUmax hTmax hNmax hcount
  exact ⟨(lineObjects users teams channels).length + 1, _,
    GenerateBulkloadFile_completes env config users teams channels h _ (Nat.lt_succ_self _)⟩

set_option maxRecDepth 8000

/-! ## C11: determinism -/

/-- C11. `GenerateBulkloadFile` is deterministic: the random source is created from the fixed
seed 29 inside the function, so two runs on the same configuration, whatever the schedules of
their goroutines, return equal results: equal `Teams`, `Channels` and `Users` (with equal
team-choice and channel-choice tables for every user) and equal record sequences; and if one
run panics, the other panics in the same way. -/
theorem C11_deterministic {S : Type} (env : Env S) (sched1 sched2 : List Actor)
    (config : LoadtestEnviromentConfig ℚ) :
    (∀ r1 r2 : GenerateBulkloadFileResult,
      GenerateBulkloadFile env sched1 config = .ok r1 →
      GenerateBulkloadFile env sched2 config = .ok r2 →
      r1.Teams = r2.Teams ∧ r1.Channels = r2.Channels ∧ r1.Users = r2.Users ∧
      r1.Users.map (fun u => u.TeamChoice) = r2.Users.map (fun u => u.TeamChoice) ∧
      r1.Users.map (fun u => u.Teams.map (fun t => t.ChannelChoice))
        = r2.Users.map (fun u => u.Teams.map (fun t => t.ChannelChoice)) ∧
      r1.File = r2.File ∧ r1 = r2) ∧
    (∀ p : Panic, GenerateBulkloadFile env sched1 config = .error (.panic p) →
      GenerateBulkloadFile env sched2 config = .error (.panic p)) := by
  constructor
  · intro r1 r2 h1 h2
    obtain ⟨hd1, hf1⟩ := GenerateBulkloadFile_ok env sched1 config r1 h1
    obtain ⟨hd2, hf2⟩ := GenerateBulkloadFile_ok env sched2 config r2 h2
    rw [hd1] at hd2
    have hu : r1.Users = r2.Users := by
      have := congrArg (fun x => x.1) (Except.ok.inj hd2)
      exact this
    have ht : r1.Teams = r2.Teams := by
      have := congrArg (fun x => x.2.1) (Except.ok.inj hd2)
      exact this
    have hc : r1.Channels = r2.Channels := by
      have := congrArg (fun x => x.2.2) (Except.ok.inj hd2)
      exact this
    have hf : r1.File = r2.File := by rw [hf1, hf2, hu, ht, hc]
    refine ⟨ht, hc, hu, by rw [hu], by rw [hu], hf, ?_⟩
    cases r1
    cases r2
    simp only at hu ht hc hf
    rw [hu, ht, hc, hf]
  · intro p h
    unfold GenerateBulkloadFile at h ⊢
    cases hd : distribute env config with
    | error e =>
      rw [hd] at h
      simp only at h ⊢
      exact h
    | ok res =>
      rw [hd] at h
      obtain ⟨users, teams, channels⟩ := res
      simp only at h
      split at h <;> cases h

/-- The witness of C11: the example configuration under two different schedules. -/
theorem C11_deterministic_witness :
    ∃ r1 r2, GenerateBulkloadFile rotatingEnv (alternating 30) exampleConfig = .ok r1 ∧
      GenerateBulkloadFile rotatingEnv (alternating 40) exampleConfig = .ok r2 ∧ r1 = r2 := by
  with_unfolding_all exact ⟨_, _, rfl, rfl,
    ((C11_deterministic rotatingEnv (alternating 30) (alternating 40) exampleConfig).1 _ _
      rfl rfl).2.2.2.2.2.2⟩

/-! ## `PickTeamChannel` on users with well-formed choice tables -/

theorem membership_choiceTable (e : TeamEffect) (j : Nat) :
    ChoiceTableOK (membership e j).ChannelChoice (membership e j).Channels.length := by
  obtain ⟨_, _, h3, h4, h5⟩ := chanFold_shape e.chans j
    { Name := e.name, Roles := "team_user", Channels := [], ChannelChoice := [] } rfl rfl
  constructor
  · show (membership e j).ChannelChoice.length = (membership e j).Channels.length
    unfold membership
    rw [h4, h3, List.length_map]
  · intro k c hk
    have hlt : k < (channelsOf e.chans j).length := by
      have := (List.getElem?_eq_some_iff.mp hk).1
      unfold membership at this
      rw [h4] at this
      exact this
    have := h5 k _ (List.getElem?_eq_getElem hlt)
    unfold membership at hk
    rw [this] at hk
    rw [← Option.some.inj hk]

/-- On a user whose choice tables refer to the indices of `Teams` and `Channels`, and with a
primitive that returns an entry of the table it is given, `PickTeamChannel` indexes in range. -/
theorem pick_in_range (WeightedChoice : Nat → List Choice → Except String Choice)
    (hwc : ∀ (n : Nat) (table : List Choice) (c : Choice),
      WeightedChoice n table = .ok c → c ∈ table)
    (s : UserImportData) (hs : ChoiceTableOK s.TeamChoice s.Teams.length)
    (ht : ∀ t ∈ s.Teams, ChoiceTableOK t.ChannelChoice t.Channels.length) :
    (PickTeamChannel WeightedChoice s).outcome ≠ .error .indexOutOfRange ∧
    (PickTeamChannel WeightedChoice s).outcome ≠ .error .typeAssertion ∧
    ∀ (team : UserTeamImportData) (channel : UserChannelImportData),
      (PickTeamChannel WeightedChoice s).outcome = .ok (some (team, channel)) →
      team ∈ s.Teams ∧ channel ∈ team.Channels := by
  have key : ∀ (n : Nat) (table : List Choice) (len : Nat) (c : Choice),
      ChoiceTableOK table len → WeightedChoice n table = .ok c →
      ∃ k : Nat, c.Item = .int k ∧ k < len := by
    intro n table len c hok hc
    obtain ⟨k, hk, hkc⟩ := List.getElem_of_mem (hwc n table c hc)
    refine ⟨k, ?_, by rw [← hok.1]; exact hk⟩
    exact hok.2 k c (by rw [List.getElem?_eq_getElem hk, hkc])
  unfold PickTeamChannel
  split
  · exact ⟨by simp, by simp, by intro _ _ h; cases h⟩
  · cases hw : WeightedChoice 0 s.TeamChoice with
    | error e => exact ⟨by simp, by simp, by intro _ _ h; cases h⟩
    | ok item =>
      obtain ⟨k, hk, hklt⟩ := key 0 _ _ item hs hw
      simp only [hk]
      rw [if_neg (by omega)]
      have hidx : index s.Teams (Int.toNat (k : Int)) = .ok s.Teams[k] := by
        rw [index_eq_ok]
        simp [List.getElem?_eq_getElem hklt]
      simp only [hidx]
      have hmem : s.Teams[k] ∈ s.Teams := List.getElem_mem hklt
      split
      · exact ⟨by simp, by simp, by intro _ _ h; cases h⟩
      · cases hw2 : WeightedChoice 1 s.Teams[k].ChannelChoice with
        | error e => exact ⟨by simp, by simp, by intro _ _ h; cases h⟩
        | ok item2 =>
          obtain ⟨c, hc, hclt⟩ := key 1 _ _ item2 (ht _ hmem) hw2
          simp only [hc]
          rw [if_neg (by omega)]
          have hidx2 : index s.Teams[k].Channels (Int.toNat (c : Int))
              = .ok s.Teams[k].Channels[c] := by
            rw [index_eq_ok]
            simp [List.getElem?_eq_getElem hclt]
          simp only [hidx2]
          refine ⟨by simp, by simp, ?_⟩
          intro team channel h
          simp only [Except.ok.injEq, Option.some.injEq, Prod.mk.injEq] at h
          rw [← h.1, ← h.2]
          exact ⟨hmem, List.getElem_mem hclt⟩

/-! ## The binary exponent -/

theorem log_two_eq (x : ℚ) (e : ℤ) (hx : 0 < x) (h1 : (2 : ℚ) ^ e ≤ x)
    (h2 : x < (2 : ℚ) ^ (e + 1)) : Int.log 2 x = e := by
  apply le_antisymm
  · have : Int.log 2 x < e + 1 := by
      rw [← Int.lt_zpow_iff_log_lt (by norm_num) hx]
      simpa using h2
    omega
  · rw [← Int.zpow_le_iff_le_log (by norm_num) hx]
    simpa using h1

theorem log2Fuel_spec :
    ∀ (fuel n : Nat), n ≤ fuel → 0 < n →
      2 ^ log2Fuel fuel n ≤ n ∧ n < 2 ^ (log2Fuel fuel n + 1) := by
  intro fuel
  induction fuel with
  | zero =>
    intro n h1 h2
    omega
  | succ fuel ih =>
    intro n h1 h2
    unfold log2Fuel
    by_cases h : 2 ≤ n
    · rw [if_pos h]
      obtain ⟨ha, hb⟩ := ih (n / 2) (by omega) (by omega)
      rw [pow_succ] at hb ⊢
      rw [pow_succ]
      constructor <;> omega
    · rw [if_neg h]
      have : n = 1 := by omega
      subst this
      constructor <;> norm_num

theorem zpow_two_split (e : Int) :
    (2 : ℚ) ^ e = (2 : ℚ) ^ e.toNat / (2 : ℚ) ^ (-e).toNat := by
  have he : e = (e.toNat : Int) - ((-e).toNat : Int) := by omega
  conv_lhs => rw [he]
  rw [zpow_sub₀ (by norm_num : (2 : ℚ) ≠ 0), zpow_natCast, zpow_natCast]

theorem abs_eq_natAbs_div_den (x : ℚ) : |x| = (x.num.natAbs : ℚ) / (x.den : ℚ) := by
  have hden : (0 : ℚ) < (x.den : ℚ) := by exact_mod_cast x.den_pos
  conv_lhs => rw [← Rat.num_div_den x]
  rw [abs_div, abs_of_pos hden, Nat.cast_natAbs, Int.cast_abs]

theorem exponent_aux (a b la lb : Nat) (hnum : 0 < a) (hden : 0 < b)
    (ha1 : 2 ^ la ≤ a) (ha2 : a < 2 ^ (la + 1)) (hb1 : 2 ^ lb ≤ b) (hb2 : b < 2 ^ (lb + 1)) :
    (2 : ℚ) ^ (if b * 2 ^ ((la : Int) - (lb : Int)).toNat
          ≤ a * 2 ^ (-((la : Int) - (lb : Int))).toNat
        then (la : Int) - (lb : Int) else (la : Int) - (lb : Int) - 1) ≤ (a : ℚ) / (b : ℚ) ∧
    (a : ℚ) / (b : ℚ) < (2 : ℚ) ^ ((if b * 2 ^ ((la : Int) - (lb : Int)).toNat
          ≤ a * 2 ^ (-((la : Int) - (lb : Int))).toNat
        then (la : Int) - (lb : Int) else (la : Int) - (lb : Int) - 1) + 1) := by
  have haq : (0 : ℚ) < (a : ℚ) := by exact_mod_cast hnum
  have hbq : (0 : ℚ) < (b : ℚ) := by exact_mod_cast hden
  have ha1q : (2 : ℚ) ^ la ≤ (a : ℚ) := by exact_mod_cast ha1
  have ha2q : (a : ℚ) < (2 : ℚ) ^ (la + 1) := by exact_mod_cast ha2
  have hb1q : (2 : ℚ) ^ lb ≤ (b : ℚ) := by exact_mod_cast hb1
  have hb2q : (b : ℚ) < (2 : ℚ) ^ (lb + 1) := by exact_mod_cast hb2
  have hpa : (0 : ℚ) < (2 : ℚ) ^ la := by positivity
  have hpb : (0 : ℚ) < (2 : ℚ) ^ lb := by positivity
  have hup : (a : ℚ) / (b : ℚ) < (2 : ℚ) ^ (((la : Int) - (lb : Int)) + 1) := by
    have he : ((la : Int) - (lb : Int)) + 1 = ((la + 1 : Nat) : Int) - ((lb : Nat) : Int) := by
      push_cast
      ring
    rw [he, zpow_sub₀ (by norm_num : (2 : ℚ) ≠ 0), zpow_natCast, zpow_natCast,
      div_lt_div_iff₀ hbq hpb]
    calc (a : ℚ) * 2 ^ lb < 2 ^ (la + 1) * 2 ^ lb := by
          exact mul_lt_mul_of_pos_right ha2q hpb
      _ ≤ 2 ^ (la + 1) * (b : ℚ) := by
          exact mul_le_mul_of_nonneg_left hb1q (by positivity)
  have hlow : (2 : ℚ) ^ (((la : Int) - (lb : Int)) - 1) ≤ (a : ℚ) / (b : ℚ) := by
    have he : ((la : Int) - (lb : Int)) - 1 = ((la : Nat) : Int) - ((lb + 1 : Nat) : Int) := by
      push_cast
      ring
    rw [he, zpow_sub₀ (by norm_num : (2 : ℚ) ≠ 0), zpow_natCast, zpow_natCast,
      div_le_div_iff₀ (by positivity) hbq]
    calc (2 : ℚ) ^ la * (b : ℚ) ≤ (a : ℚ) * (b : ℚ) := by
          exact mul_le_mul_of_nonneg_right ha1q hbq.le
      _ ≤ (a : ℚ) * 2 ^ (lb + 1) := by
          exact mul_le_mul_of_nonneg_left hb2q.le haq.le
  have hcond : (b * 2 ^ ((la : Int) - (lb : Int)).toNat
        ≤ a * 2 ^ (-((la : Int) - (lb : Int))).toNat)
      ↔ (2 : ℚ) ^ ((la : Int) - (lb : Int)) ≤ (a : ℚ) / (b : ℚ) := by
    rw [zpow_two_split, div_le_div_iff₀ (by positivity) hbq]
    constructor
    · intro h
      have : ((b * 2 ^ ((la : Int) - (lb : Int)).toNat : Nat) : ℚ)
          ≤ ((a * 2 ^ (-((la : Int) - (lb : Int))).toNat : Nat) : ℚ) := by exact_mod_cast h
      push_cast at this
      linarith
    · intro h
      have : ((b * 2 ^ ((la : Int) - (lb : Int)).toNat : Nat) : ℚ)
          ≤ ((a * 2 ^ (-((la : Int) - (lb : Int))).toNat : Nat) : ℚ) := by
        push_cast
        linarith
      exact_mod_cast this
  by_cases hc : b * 2 ^ ((la : Int) - (lb : Int)).toNat
      ≤ a * 2 ^ (-((la : Int) - (lb : Int))).toNat
  · rw [if_pos hc]
    exact ⟨hcond.mp hc, hup⟩
  · rw [if_neg hc]
    refine ⟨hlow, ?_⟩
    rw [sub_add_cancel]
    exact lt_of_not_le (fun h => hc (hcond.mpr h))

/-- The binary exponent `e` of `x` satisfies `2^e <= |x| < 2^(e+1)`. -/
theorem binaryExponent_spec (x : ℚ) (hx : x ≠ 0) :
    (2 : ℚ) ^ binaryExponent x ≤ |x| ∧ |x| < (2 : ℚ) ^ (binaryExponent x + 1) := by
  have hnum : 0 < x.num.natAbs := Int.natAbs_pos.mpr (Rat.num_ne_zero.mpr hx)
  have hden : 0 < x.den := x.den_pos
  obtain ⟨ha1, ha2⟩ := log2Fuel_spec x.num.natAbs x.num.natAbs (le_refl _) hnum
  obtain ⟨hb1, hb2⟩ := log2Fuel_spec x.den x.den (le_refl _) hden
  rw [abs_eq_natAbs_div_den]
  unfold binaryExponent
  exact exponent_aux _ _ _ _ hnum hden ha1 ha2 hb1 hb2

theorem binaryExponent_eq_log (x : ℚ) (hx : x ≠ 0) : binaryExponent x = Int.log 2 |x| := by
  obtain ⟨h1, h2⟩ := binaryExponent_spec x hx
  exact (log_two_eq |x| _ (abs_pos.mpr hx) h1 h2).symm

/-- The rounding to `float64` in terms of the integer logarithm. -/
theorem roundFloat64_def (x : ℚ) :
    roundFloat64 x
      = if x = 0 then 0
        else (roundHalfEven (x / (2 : ℚ) ^ (Int.log 2 |x| - 52)) : ℚ)
          * (2 : ℚ) ^ (Int.log 2 |x| - 52) := by
  unfold roundFloat64
  by_cases hx : x = 0
  · rw [if_pos hx, if_pos hx]
  · rw [if_neg hx, if_neg hx, binaryExponent_eq_log x hx]

/-! ## Rounding to `float64` -/

theorem roundHalfEven_cases (y : ℚ) :
    ((roundHalfEven y : ℚ) = ⌊y⌋ ∧ y - ⌊y⌋ ≤ 1 / 2) ∨
    ((roundHalfEven y : ℚ) = ⌊y⌋ + 1 ∧ 1 / 2 ≤ y - ⌊y⌋) := by
  unfold roundHalfEven
  simp only
  by_cases h1 : y - (⌊y⌋ : ℚ) < 1 / 2
  · left
    rw [if_pos h1]
    exact ⟨rfl, le_of_lt h1⟩
  · rw [if_neg h1]
    by_cases h2 : 1 / 2 < y - (⌊y⌋ : ℚ)
    · right
      rw [if_pos h2]
      exact ⟨by push_cast; rfl, le_of_lt h2⟩
    · rw [if_neg h2]
      have heq : y - (⌊y⌋ : ℚ) = 1 / 2 := le_antisymm (not_lt.mp h2) (not_lt.mp h1)
      by_cases h3 : ⌊y⌋ % 2 = 0
      · left
        rw [if_pos h3]
        exact ⟨rfl, le_of_eq heq⟩
      · right
        rw [if_neg h3]
        exact ⟨by push_cast; rfl, le_of_eq heq.symm⟩

/-- `roundHalfEven y` is an integer nearest to `y`. -/
theorem roundHalfEven_nearest (y : ℚ) (j : Int) :
    |(roundHalfEven y : ℚ) - y| ≤ |(j : ℚ) - y| := by
  have hf : (⌊y⌋ : ℚ) ≤ y := Int.floor_le y
  have hlt : y < (⌊y⌋ : ℚ) + 1 := Int.lt_floor_add_one y
  have hj : (j : ℚ) ≤ ⌊y⌋ ∨ (⌊y⌋ : ℚ) + 1 ≤ j := by
    rcases le_or_lt j ⌊y⌋ with h | h
    · left
      exact_mod_cast h
    · right
      have : ⌊y⌋ + 1 ≤ j := h
      exact_mod_cast this
  rcases roundHalfEven_cases y with ⟨hr, hh⟩ | ⟨hr, hh⟩
  · rw [hr]
    rcases hj with hj | hj
    · rw [abs_of_nonpos (by linarith), abs_of_nonpos (by linarith)]
      linarith
    · rw [abs_of_nonpos (by linarith), abs_of_nonneg (by linarith)]
      linarith
  · rw [hr]
    rcases hj with hj | hj
    · rw [abs_of_nonneg (by linarith), abs_of_nonpos (by linarith)]
      linarith
    · rw [abs_of_nonneg (by linarith), abs_of_nonneg (by linarith)]
      linarith

/-- `roundHalfEven y` is within one half of `y`. -/
theorem roundHalfEven_half (y : ℚ) : |(roundHalfEven y : ℚ) - y| ≤ 1 / 2 := by
  have hf : (⌊y⌋ : ℚ) ≤ y := Int.floor_le y
  have hlt : y < (⌊y⌋ : ℚ) + 1 := Int.lt_floor_add_one y
  rcases roundHalfEven_cases y with ⟨hr, hh⟩ | ⟨hr, hh⟩
  · rw [hr, abs_of_nonpos (by linarith)]
    linarith
  · rw [hr, abs_of_nonneg (by linarith)]
    linarith

theorem roundFloat64_sub (x : ℚ) (hx : x ≠ 0) :
    roundFloat64 x - x
      = ((roundHalfEven (x / (2 : ℚ) ^ (Int.log 2 |x| - 52)) : ℚ)
          - x / (2 : ℚ) ^ (Int.log 2 |x| - 52)) * (2 : ℚ) ^ (Int.log 2 |x| - 52) := by
  have hu : (2 : ℚ) ^ (Int.log 2 |x| - 52) ≠ 0 := zpow_ne_zero _ (by norm_num)
  rw [roundFloat64_def, if_neg hx, sub_mul, div_mul_cancel₀ _ hu]

/-- The rounding error is at most `|x| / 2^53`. -/
theorem roundFloat64_error (x : ℚ) (hx : x ≠ 0) :
    |roundFloat64 x - x| ≤ |x| / 2 ^ 53 := by
  have hpos : (0 : ℚ) < (2 : ℚ) ^ (Int.log 2 |x| - 52) := zpow_pos (by norm_num) _
  have habs : (0 : ℚ) < |x| := abs_pos.mpr hx
  have hlog : ((2 : ℕ) : ℚ) ^ Int.log 2 |x| ≤ |x| := Int.zpow_log_le_self (by norm_num) habs
  have hsplit : (2 : ℚ) ^ (Int.log 2 |x| - 52) = (2 : ℚ) ^ Int.log 2 |x| / 2 ^ 52 := by
    rw [zpow_sub₀ (by norm_num)]
    norm_num
  rw [roundFloat64_sub x hx, abs_mul, abs_of_pos hpos]
  have hhalf := roundHalfEven_half (x / (2 : ℚ) ^ (Int.log 2 |x| - 52))
  calc |(roundHalfEven (x / (2 : ℚ) ^ (Int.log 2 |x| - 52)) : ℚ)
          - x / (2 : ℚ) ^ (Int.log 2 |x| - 52)| * (2 : ℚ) ^ (Int.log 2 |x| - 52)
      ≤ 1 / 2 * (2 : ℚ) ^ (Int.log 2 |x| - 52) := mul_le_mul_of_nonneg_right hhalf hpos.le
    _ = (2 : ℚ) ^ Int.log 2 |x| / 2 ^ 53 := by
        rw [hsplit]
        ring
    _ ≤ |x| / 2 ^ 53 := by
        apply div_le_div_of_nonneg_right _ (by positivity)
        simpa using hlog

/-- Below `2^53` the `float64` grid contains the integers: rounding `x` is at least as close to
`x` as any integer. -/
theorem roundFloat64_nearest_int (x : ℚ) (hx : x ≠ 0) (hlt : |x| < 2 ^ 53) (m : Int) :
    |roundFloat64 x - x| ≤ |(m : ℚ) - x| := by
  have habs : (0 : ℚ) < |x| := abs_pos.mpr hx
  have hlog : Int.log 2 |x| < 53 := by
    rw [← Int.lt_zpow_iff_log_lt (by norm_num) habs]
    have h53 : ((2 : ℕ) : ℚ) ^ (53 : ℤ) = (2 : ℚ) ^ (53 : ℕ) := by norm_num
    rw [h53]
    exact hlt
  obtain ⟨t, ht⟩ : ∃ t : ℕ, Int.log 2 |x| - 52 = -(t : ℤ) :=
    ⟨(52 - Int.log 2 |x|).toNat, by omega⟩
  have hu : (2 : ℚ) ^ (Int.log 2 |x| - 52) = ((2 : ℚ) ^ t)⁻¹ := by
    rw [ht, zpow_neg, zpow_natCast]
  have hpos : (0 : ℚ) < ((2 : ℚ) ^ t)⁻¹ := by positivity
  rw [roundFloat64_sub x hx, hu, abs_mul, abs_of_pos hpos]
  have hnear := roundHalfEven_nearest (x / ((2 : ℚ) ^ t)⁻¹) (m * 2 ^ t)
  have hm : (m : ℚ) - x = (((m * 2 ^ t : ℤ) : ℚ) - x / ((2 : ℚ) ^ t)⁻¹) * ((2 : ℚ) ^ t)⁻¹ := by
    have h2 : ((2 : ℚ) ^ t) ≠ 0 := by positivity
    push_cast
    field_simp
    ring
  rw [hm, abs_mul, abs_of_pos hpos]
  exact mul_le_mul_of_nonneg_right hnear hpos.le

/-- An integer of absolute value below `2^53` is a `float64`. -/
theorem float64OfInt_exact (n : Int) (hn : |n| < 2 ^ 53) : float64OfInt n = n := by
  unfold float64OfInt
  by_cases h0 : (n : ℚ) = 0
  · rw [h0]
    unfold roundFloat64
    rw [if_pos rfl]
  · have hlt : |(n : ℚ)| < 2 ^ 53 := by
      have : ((|n| : ℤ) : ℚ) < ((2 ^ 53 : ℤ) : ℚ) := by exact_mod_cast hn
      simpa using this
    have := roundFloat64_nearest_int (n : ℚ) h0 hlt n
    rw [sub_self, abs_zero] at this
    have h := abs_nonpos_iff.mp this
    linarith

/-- The floor of the rounded quotient of two integers below `2^53` is the floor of the exact
quotient. -/
theorem floor_roundFloat64_div (a d : Int) (ha : |a| < 2 ^ 53) (hd : 0 < d) :
    ⌊roundFloat64 ((a : ℚ) / (d : ℚ))⌋ = ⌊(a : ℚ) / (d : ℚ)⌋ := by
  have hdq : (0 : ℚ) < (d : ℚ) := by exact_mod_cast hd
  have hd1 : (1 : ℚ) ≤ (d : ℚ) := by exact_mod_cast hd
  by_cases h0 : (a : ℚ) / (d : ℚ) = 0
  · rw [h0]
    unfold roundFloat64
    rw [if_pos rfl]
  · have haq : |(a : ℚ)| < 2 ^ 53 := by
      have : ((|a| : ℤ) : ℚ) < ((2 ^ 53 : ℤ) : ℚ) := by exact_mod_cast ha
      simpa using this
    have habs : |(a : ℚ) / (d : ℚ)| = |(a : ℚ)| / (d : ℚ) := by
      rw [abs_div, abs_of_pos hdq]
    have hxlt : |(a : ℚ) / (d : ℚ)| < 2 ^ 53 := by
      rw [habs]
      calc |(a : ℚ)| / (d : ℚ) ≤ |(a : ℚ)| := div_le_self (abs_nonneg _) hd1
        _ < 2 ^ 53 := haq
    have hfl : ((⌊(a : ℚ) / (d : ℚ)⌋ : ℤ) : ℚ) ≤ (a : ℚ) / (d : ℚ) := Int.floor_le _
    have hfl1 : (a : ℚ) / (d : ℚ) < (⌊(a : ℚ) / (d : ℚ)⌋ : ℚ) + 1 := Int.lt_floor_add_one _
    have hnear := roundFloat64_nearest_int _ h0 hxlt ⌊(a : ℚ) / (d : ℚ)⌋
    have herr := roundFloat64_error _ h0
    rw [Int.floor_eq_iff]
    constructor
    · rw [abs_of_nonpos (a := (⌊(a : ℚ) / (d : ℚ)⌋ : ℚ) - (a : ℚ) / (d : ℚ)) (by linarith)]
        at hnear
      have := neg_abs_le (roundFloat64 ((a : ℚ) / (d : ℚ)) - (a : ℚ) / (d : ℚ))
      linarith
    · -- the distance of the quotient to the next integer is at least `1 / d`
      have hgap : (1 : ℚ) / (d : ℚ) ≤ (⌊(a : ℚ) / (d : ℚ)⌋ : ℚ) + 1 - (a : ℚ) / (d : ℚ) := by
        have h1 : (a : ℚ) < ((⌊(a : ℚ) / (d : ℚ)⌋ + 1 : ℤ) : ℚ) * (d : ℚ) := by
          have := (div_lt_iff₀ hdq).mp hfl1
          push_cast
          exact this
        have h2 : a < (⌊(a : ℚ) / (d : ℚ)⌋ + 1) * d := by exact_mod_cast h1
        have h3 : a + 1 ≤ (⌊(a : ℚ) / (d : ℚ)⌋ + 1) * d := h2
        have h4 : (a : ℚ) + 1 ≤ ((⌊(a : ℚ) / (d : ℚ)⌋ : ℚ) + 1) * (d : ℚ) := by exact_mod_cast h3
        rw [div_le_iff₀ hdq]
        have : ((⌊(a : ℚ) / (d : ℚ)⌋ : ℚ) + 1 - (a : ℚ) / (d : ℚ)) * (d : ℚ)
            = ((⌊(a : ℚ) / (d : ℚ)⌋ : ℚ) + 1) * (d : ℚ) - (a : ℚ) := by
          field_simp
        rw [this]
        linarith
      have hsmall : |(a : ℚ) / (d : ℚ)| / 2 ^ 53 < 1 / (d : ℚ) := by
        rw [habs, div_div, div_lt_div_iff₀ (by positivity) hdq]
        calc |(a : ℚ)| * (d : ℚ) < 2 ^ 53 * (d : ℚ) := by
              exact mul_lt_mul_of_pos_right haq hdq
          _ = 1 * ((d : ℚ) * 2 ^ 53) := by ring
      have := le_abs_self (roundFloat64 ((a : ℚ) / (d : ℚ)) - (a : ℚ) / (d : ℚ))
      linarith

/-! ## C12: the number of posts per channel -/

theorem wrapInt64_of_small (z : Int) (h0 : 0 < z) (h1 : z < 2 ^ 53) : wrapInt64 z = z := by
  unfold wrapInt64
  omega

/-- The integer quotient of line 391 as the floor of the rational quotient. -/
theorem floor_div_eq_ediv (a b : Int) (hb : 0 < b) : ⌊(a : ℚ) / ((b : Int) : ℚ)⌋ = a / b := by
  have hcast : b = ((b.toNat : ℕ) : ℤ) := (Int.toNat_of_nonneg hb.le).symm
  rw [hcast]
  exact Rat.floor_intCast_div_natCast _ _

/-- The float computation of line 391 gives the integer quotient when the operands are below
`2^53` in absolute value. -/
theorem numPostsPerChannel_eq {F : Type} (implementationDependent : Int)
    (config : LoadtestEnviromentConfig F)
    (hP : |config.NumPosts| < 2 ^ 53)
    (hpos : 0 < config.NumTeams * config.NumChannelsPerTeam)
    (hlt : config.NumTeams * config.NumChannelsPerTeam < 2 ^ 53) :
    numPostsPerChannel implementationDependent config
      = config.NumPosts / (config.NumTeams * config.NumChannelsPerTeam) := by
  have hd : float64OfInt (wrapInt64 (config.NumTeams * config.NumChannelsPerTeam))
      = ((config.NumTeams * config.NumChannelsPerTeam : Int) : ℚ) := by
    rw [wrapInt64_of_small _ hpos hlt]
    exact float64OfInt_exact _ (by rw [abs_of_pos hpos]; exact hlt)
  have hn : float64OfInt config.NumPosts = (config.NumPosts : ℚ) := float64OfInt_exact _ hP
  have hdq : (0 : ℚ) < ((config.NumTeams * config.NumChannelsPerTeam : Int) : ℚ) := by
    exact_mod_cast hpos
  have hfloor := floor_roundFloat64_div config.NumPosts
    (config.NumTeams * config.NumChannelsPerTeam) hP hpos
  have hrange : -2 ^ 63 ≤ config.NumPosts / (config.NumTeams * config.NumChannelsPerTeam) ∧
      config.NumPosts / (config.NumTeams * config.NumChannelsPerTeam) < 2 ^ 63 := by
    have habs := abs_lt.mp hP
    have h1 : config.NumPosts / (config.NumTeams * config.NumChannelsPerTeam) < 2 ^ 53 :=
      Int.ediv_lt_of_lt_mul hpos (by nlinarith)
    have h2 : -2 ^ 53 ≤ config.NumPosts / (config.NumTeams * config.NumChannelsPerTeam) :=
      Int.le_ediv_of_mul_le hpos (by nlinarith)
    constructor <;> omega
  unfold numPostsPerChannel
  simp only
  rw [hd, if_neg (ne_of_gt hdq), hn, hfloor, floor_div_eq_ediv _ _ hpos, if_pos hrange]

/-- C12 (as amended). In `LoadPosts` the per-channel post target is the total post count
divided evenly over all team-channel pairs, rounded down: for
`0 < NumTeams*NumChannelsPerTeam < 2^53` and `|NumPosts| < 2^53` it equals
`floor(NumPosts / (NumTeams*NumChannelsPerTeam))`; it is computed once from the configuration,
so it is the same value for every channel. -/
theorem C12_posts_per_channel {F : Type} (implementationDependent : Int)
    (config : LoadtestEnviromentConfig F)
    (hP : |config.NumPosts| < 2 ^ 53)
    (hpos : 0 < config.NumTeams * config.NumChannelsPerTeam)
    (hlt : config.NumTeams * config.NumChannelsPerTeam < 2 ^ 53) :
    numPostsPerChannel implementationDependent config
      = ⌊(config.NumPosts : ℚ) / ((config.NumTeams * config.NumChannelsPerTeam : Int) : ℚ)⌋ ∧
    numPostsPerChannel implementationDependent config
      = config.NumPosts / (config.NumTeams * config.NumChannelsPerTeam) := by
  have main := numPostsPerChannel_eq implementationDependent config hP hpos hlt
  constructor
  · rw [main]
    exact (floor_div_eq_ediv _ _ hpos).symm
  · exact main

/-- The witness of C12 (as amended): for 1000 posts, 2 teams and 3 channels per team the target
is 166. -/
theorem C12_posts_per_channel_witness :
    numPostsPerChannel 0 thousandPostsConfig = 166 :=
  (C12_posts_per_channel 0 thousandPostsConfig (by decide) (by decide) (by decide)).2

theorem roundHalfEven_of_floor (y : ℚ) (f : Int) (hf : ⌊y⌋ = f) (hr : y - f < 1 / 2) :
    roundHalfEven y = f := by
  unfold roundHalfEven
  simp only [hf]
  rw [if_pos hr]

theorem roundHalfEven_tie_even (y : ℚ) (f : Int) (hf : ⌊y⌋ = f) (hr : y - f = 1 / 2)
    (he : f % 2 = 0) : roundHalfEven y = f := by
  unfold roundHalfEven
  simp only [hf]
  rw [if_neg (by rw [hr]; exact lt_irrefl _), if_neg (by rw [hr]; exact lt_irrefl _), if_pos he]

theorem roundFloat64_two_pow_53_add_one :
    roundFloat64 9007199254740993 = 9007199254740992 := by
  have hlog : Int.log 2 |(9007199254740993 : ℚ)| = 53 :=
    log_two_eq _ 53 (by norm_num) (by norm_num) (by norm_num)
  have hfl : ⌊(9007199254740993 : ℚ) / (2 : ℚ) ^ ((53 : ℤ) - 52)⌋ = 4503599627370496 := by
    rw [Int.floor_eq_iff]
    constructor <;> norm_num
  rw [roundFloat64_def, if_neg (by norm_num)]
  simp only [hlog]
  rw [roundHalfEven_tie_even _ 4503599627370496 hfl (by norm_num) (by decide)]
  norm_num

theorem roundFloat64_two_pow_53 :
    roundFloat64 9007199254740992 = 9007199254740992 := by
  have hlog : Int.log 2 |(9007199254740992 : ℚ)| = 53 :=
    log_two_eq _ 53 (by norm_num) (by norm_num) (by norm_num)
  have hfl : ⌊(9007199254740992 : ℚ) / (2 : ℚ) ^ ((53 : ℤ) - 52)⌋ = 4503599627370496 := by
    rw [Int.floor_eq_iff]
    constructor <;> norm_num
  rw [roundFloat64_def, if_neg (by norm_num)]
  simp only [hlog]
  rw [roundHalfEven_of_floor _ 4503599627370496 hfl (by norm_num)]
  norm_num

/-- The counterexample to C12 as stated: with `NumPosts = 2^53 + 1`, one team and one channel,
`float64(NumPosts)` is `2^53` (the tie is rounded to even), so the target is
`9007199254740992`, while `floor(NumPosts / (NumTeams*NumChannelsPerTeam))` is
`9007199254740993`. -/
theorem C12_counterexample_above_two_pow_53 :
    0 < hugePostsConfig.NumTeams * hugePostsConfig.NumChannelsPerTeam ∧
    float64OfInt hugePostsConfig.NumPosts = 9007199254740992 ∧
    numPostsPerChannel 0 hugePostsConfig = 9007199254740992 ∧
    ⌊(hugePostsConfig.NumPosts : ℚ)
      / ((hugePostsConfig.NumTeams * hugePostsConfig.NumChannelsPerTeam : Int) : ℚ)⌋
      = 9007199254740993 ∧
    numPostsPerChannel 0 hugePostsConfig
      ≠ ⌊(hugePostsConfig.NumPosts : ℚ)
          / ((hugePostsConfig.NumTeams * hugePostsConfig.NumChannelsPerTeam : Int) : ℚ)⌋ := by
  have hposts : float64OfInt hugePostsConfig.NumPosts = 9007199254740992 := by
    unfold float64OfInt
    have : ((hugePostsConfig.NumPosts : Int) : ℚ) = 9007199254740993 := by
      show ((9007199254740993 : Int) : ℚ) = 9007199254740993
      norm_num
    rw [this]
    exact roundFloat64_two_pow_53_add_one
  have hdiv : float64OfInt (wrapInt64 (hugePostsConfig.NumTeams
      * hugePostsConfig.NumChannelsPerTeam)) = 1 := by
    have hw : wrapInt64 (hugePostsConfig.NumTeams * hugePostsConfig.NumChannelsPerTeam) = 1 := by
      decide
    rw [hw]
    have := float64OfInt_exact 1 (by decide)
    simpa using this
  have hval : numPostsPerChannel 0 hugePostsConfig = 9007199254740992 := by
    unfold numPostsPerChannel
    simp only
    rw [hdiv, if_neg (by norm_num), hposts, div_one, roundFloat64_two_pow_53]
    have hfl : ⌊(9007199254740992 : ℚ)⌋ = 9007199254740992 := by
      rw [Int.floor_eq_iff]
      constructor <;> norm_num
    rw [hfl, if_pos (by decide)]
  have hexact : ⌊(hugePostsConfig.NumPosts : ℚ)
      / ((hugePostsConfig.NumTeams * hugePostsConfig.NumChannelsPerTeam : Int) : ℚ)⌋
      = 9007199254740993 := by
    have h1 : ((hugePostsConfig.NumPosts : Int) : ℚ) = 9007199254740993 := by
      show ((9007199254740993 : Int) : ℚ) = 9007199254740993
      norm_num
    have h2 : ((hugePostsConfig.NumTeams * hugePostsConfig.NumChannelsPerTeam : Int) : ℚ)
        = 1 := by
      show (((1 : Int) * 1 : Int) : ℚ) = 1
      norm_num
    rw [h1, h2, Int.floor_eq_iff]
    constructor <;> norm_num
  refine ⟨by decide, hposts, hval, hexact, ?_⟩
  rw [hval, hexact]
  decide

/-! ## The loops of the post fabrication -/

theorem forLoop_error {σ : Type} (Inv : Nat → σ → Prop) (n : Nat)
    (body : Nat → σ → Except Panic σ) (s : σ) (e : Panic) (h0 : Inv 0 s)
    (hstep : ∀ k st st1, k < n → Inv k st → body k st = .ok st1 → Inv (k + 1) st1)
    (hrun : forLoop n body s = .error e) :
    ∃ k st, k < n ∧ Inv k st ∧ body k st = .error e := by
  induction n with
  | zero =>
    rw [forLoop_zero] at hrun
    cases hrun
  | succ n ih =>
    rw [forLoop_succ] at hrun
    cases hmid : forLoop n body s with
    | error e1 =>
      rw [hmid] at hrun
      cases hrun
      obtain ⟨k, st, hk, hinv, hb⟩ :=
        ih (fun k st st1 hk => hstep k st st1 (Nat.lt_succ_of_lt hk)) hmid
      exact ⟨k, st, Nat.lt_succ_of_lt hk, hinv, hb⟩
    | ok s2 =>
      rw [hmid] at hrun
      have hinv := forLoop_invariant Inv n body s s2 h0
        (fun k st st1 hk => hstep k st st1 (Nat.lt_succ_of_lt hk)) hmid
      exact ⟨n, s2, Nat.lt_succ_self n, hinv, hrun⟩

theorem batchCount_spec (n : Int) (q : Nat) : ((100 * q : Nat) : Int) < n ↔ q < batchCount n := by
  unfold batchCount
  omega

theorem forStepFrom_eq_foldlM {σ : Type} (n : Int) (body : Nat → σ → Except Panic σ) :
    ∀ (m fuel k : Nat) (s : σ), k + m = batchCount n → m ≤ fuel →
      forStepFrom fuel (100 * k) n 100 body s
        = (List.range' k m).foldlM (fun st q => body (100 * q) st) s := by
  intro m
  induction m with
  | zero =>
    intro fuel k s hk _
    have hnot : ¬ ((100 * k : Nat) : Int) < n := by
      rw [batchCount_spec]
      omega
    cases fuel with
    | zero => rfl
    | succ f =>
      unfold forStepFrom
      rw [if_neg hnot]
      rfl
  | succ m ih =>
    intro fuel k s hk hfuel
    have hlt : ((100 * k : Nat) : Int) < n := by
      rw [batchCount_spec]
      omega
    cases fuel with
    | zero => omega
    | succ f =>
      unfold forStepFrom
      rw [if_pos hlt]
      rw [List.range'_succ, List.foldlM_cons]
      cases hb : body (100 * k) s with
      | error e => rfl
      | ok s1 =>
        simp only
        have := ih f (k + 1) s1 (by omega) (by omega)
        rw [Nat.mul_add, Nat.mul_one] at this
        rw [this]
        rfl

/-- The loop `for i := 0; i < n; i += 100` makes `ceil(n / 100)` iterations, the iteration `q`
with `i = 100 * q`. -/
theorem forStepFrom_eq_forLoop {σ : Type} (n : Int) (body : Nat → σ → Except Panic σ)
    (fuel : Nat) (hfuel : batchCount n ≤ fuel) (s : σ) :
    forStepFrom fuel 0 n 100 body s = forLoop (batchCount n) (fun q st => body (100 * q) st) s := by
  have := forStepFrom_eq_foldlM n body (batchCount n) fuel 0 s (by omega) hfuel
  rw [Nat.mul_zero] at this
  rw [this]
  unfold forLoop
  rw [List.range_eq_range']

theorem batchCount_le_toNat (n : Int) : batchCount n ≤ n.toNat := by
  unfold batchCount
  omega

theorem fabricateChannel_eq (config : LoadtestEnviromentConfig ℚ) (draws : PostDraws)
    (users : List ModelUser) (channels : List ModelChannel) (channelNum : Nat)
    (statement : Option String) (execError : Nat → Bool) (n : Int) :
    fabricateChannel config draws users channels channelNum statement execError n
      = forLoop (batchCount n)
          (fun q st =>
            fabricateBatch config draws users channels channelNum statement execError
              (100 * q) st)
          ([], []) := by
  unfold fabricateChannel
  exact forStepFrom_eq_forLoop n _ _ (batchCount_le_toNat n) _

/-- More fuel does not change the result of the loop over `i`. -/
theorem fabricateChannel_fuel (config : LoadtestEnviromentConfig ℚ) (draws : PostDraws)
    (users : List ModelUser) (channels : List ModelChannel) (channelNum : Nat)
    (statement : Option String) (execError : Nat → Bool) (n : Int) (fuel : Nat)
    (hfuel : n.toNat ≤ fuel) :
    forStepFrom fuel 0 n 100
        (fabricateBatch config draws users channels channelNum statement execError) ([], [])
      = fabricateChannel config draws users channels channelNum statement execError n := by
  rw [fabricateChannel_eq]
  exact forStepFrom_eq_forLoop n _ _ (le_trans (batchCount_le_toNat n) hfuel) _

/-! ## One post -/

theorem postValues_eq (id : String) (now : Int) (userId channelId parentRoot message : String) :
    postValues id now userId channelId parentRoot message
      = (mkPostRow id now userId channelId parentRoot message).values := rfl

theorem PostRow.length_values (r : PostRow) : r.values.length = 18 := rfl

theorem pickParentRoot_ok (config : LoadtestEnviromentConfig ℚ) (draws : PostDraws) (i j : Nat)
    (id : String) (roots : List String) (pr : String) (roots1 : List String)
    (h : pickParentRoot config draws i j id roots = .ok (pr, roots1)) :
    (j = 0 → pr = "" ∧ roots1 = roots ++ [id]) ∧
    (j ≠ 0 → roots1 = roots ∧ (pr = "" ∨ pr ∈ roots)) ∧
    (config.ReplyChance ≤ 0 → pr = "") := by
  unfold pickParentRoot at h
  by_cases hj : j = 0
  · rw [if_pos hj] at h
    cases h
    exact ⟨fun _ => ⟨rfl, rfl⟩, fun hne => absurd hj hne, fun _ => rfl⟩
  · rw [if_neg hj] at h
    by_cases hreply : draws.Float64 i j < config.ReplyChance
    · rw [if_pos hreply] at h
      have hpos : ¬ config.ReplyChance ≤ 0 := by
        intro hle
        have := draws.Float64_nonneg i j
        linarith
      by_cases hlen : roots.length = 0
      · rw [if_pos hlen] at h
        cases h
      · rw [if_neg hlen] at h
        cases hidx : index roots (draws.Intn i j roots.length) with
        | error e => rw [hidx] at h; cases h
        | ok root =>
          rw [hidx] at h
          cases h
          have hget := (index_eq_ok _ _ _).mp hidx
          obtain ⟨hlt, heq⟩ := List.getElem?_eq_some_iff.mp hget
          refine ⟨fun h0 => absurd h0 hj, fun _ => ⟨rfl, Or.inr ?_⟩, fun hle => absurd hle hpos⟩
          exact heq ▸ List.getElem_mem hlt
    · rw [if_neg hreply] at h
      cases h
      exact ⟨fun h0 => absurd h0 hj, fun _ => ⟨rfl, Or.inl rfl⟩, fun _ => rfl⟩

/-- The draw of a root panics only when the list of roots is empty. -/
theorem pickParentRoot_error (config : LoadtestEnviromentConfig ℚ) (draws : PostDraws) (i j : Nat)
    (id : String) (roots : List String) (e : Panic)
    (h : pickParentRoot config draws i j id roots = .error e) : j ≠ 0 ∧ roots = [] := by
  unfold pickParentRoot at h
  by_cases hj : j = 0
  · rw [if_pos hj] at h
    cases h
  · rw [if_neg hj] at h
    by_cases hreply : draws.Float64 i j < config.ReplyChance
    · rw [if_pos hreply] at h
      by_cases hlen : roots.length = 0
      · exact ⟨hj, List.length_eq_zero.mp hlen⟩
      · rw [if_neg hlen] at h
        have hlt := draws.Intn_lt i j roots.length (Nat.pos_of_ne_zero hlen)
        have hget : roots[draws.Intn i j roots.length]? = some (roots[draws.Intn i j roots.length]) :=
          List.getElem?_eq_getElem hlt
        rw [(index_eq_ok _ _ _).mpr hget] at h
        cases h
    · rw [if_neg hreply] at h
      cases h

theorem pickParentRoot_succeeds (config : LoadtestEnviromentConfig ℚ) (draws : PostDraws)
    (i j : Nat) (id : String) (roots : List String) (h : j ≠ 0 → roots ≠ []) :
    ∃ r, pickParentRoot config draws i j id roots = .ok r := by
  cases hp : pickParentRoot config draws i j id roots with
  | ok r => exact ⟨r, rfl⟩
  | error e =>
    obtain ⟨hj, hr⟩ := pickParentRoot_error config draws i j id roots e hp
    exact absurd hr (h hj)

/-- A post that is fabricated: the values appended and the list of roots after it. -/
theorem fabricatePost_ok (config : LoadtestEnviromentConfig ℚ) (draws : PostDraws)
    (users : List ModelUser) (channels : List ModelChannel) (channelNum i j : Nat)
    (st st1 : List SqlValue × List String)
    (h : fabricatePost config draws users channels channelNum i j st = .ok st1) :
    ∃ (user : ModelUser) (channel : ModelChannel) (parentRoot : String),
      users[(j + i + channelNum) % users.length]? = some user ∧
      channels[channelNum]? = some channel ∧
      st1.1 = st.1 ++ (mkPostRow (draws.NewId i j) (draws.Now i j - draws.Int63n i j) user.Id
        channel.Id parentRoot ("PL" ++ draws.SentencesN i j)).values ∧
      (j = 0 → parentRoot = "" ∧ st1.2 = st.2 ++ [draws.NewId i j]) ∧
      (j ≠ 0 → st1.2 = st.2 ∧ (parentRoot = "" ∨ parentRoot ∈ st.2)) ∧
      (config.ReplyChance ≤ 0 → parentRoot = "") := by
  unfold fabricatePost at h
  simp only at h
  by_cases hr : config.PostTimeRange ≤ 0
  · rw [if_pos hr] at h
    cases h
  · rw [if_neg hr] at h
    cases hp : pickParentRoot config draws i j (draws.NewId i j) st.2 with
    | error e => rw [hp] at h; cases h
    | ok pr =>
      obtain ⟨parentRoot, roots1⟩ := pr
      rw [hp] at h
      simp only at h
      by_cases hu : users.length = 0
      · rw [if_pos hu] at h
        cases h
      · rw [if_neg hu] at h
        cases hiu : index users ((j + i + channelNum) % users.length) with
        | error e => rw [hiu] at h; cases h
        | ok user =>
          rw [hiu] at h
          simp only at h
          cases hic : index channels channelNum with
          | error e => rw [hic] at h; cases h
          | ok channel =>
            rw [hic] at h
            simp only at h
            cases h
            obtain ⟨h1, h2, h3⟩ := pickParentRoot_ok config draws i j _ _ _ _ hp
            exact ⟨user, channel, parentRoot, (index_eq_ok _ _ _).mp hiu,
              (index_eq_ok _ _ _).mp hic, rfl, h1, h2, h3⟩

/-- The ways in which the fabrication of one post panics. -/
theorem fabricatePost_error (config : LoadtestEnviromentConfig ℚ) (draws : PostDraws)
    (users : List ModelUser) (channels : List ModelChannel) (channelNum i j : Nat)
    (st : List SqlValue × List String) (e : Panic)
    (h : fabricatePost config draws users channels channelNum i j st = .error e) :
    (config.PostTimeRange ≤ 0 ∧ e = .invalidArgumentInt63n) ∨ (j ≠ 0 ∧ st.2 = []) ∨
    (users = [] ∧ e = .integerDivideByZero) ∨
    (channels.length ≤ channelNum ∧ e = .indexOutOfRange) := by
  unfold fabricatePost at h
  simp only at h
  by_cases hr : config.PostTimeRange ≤ 0
  · rw [if_pos hr] at h
    cases h
    exact Or.inl ⟨hr, rfl⟩
  · rw [if_neg hr] at h
    cases hp : pickParentRoot config draws i j (draws.NewId i j) st.2 with
    | error e1 =>
      exact Or.inr (Or.inl (pickParentRoot_error config draws i j _ _ e1 hp))
    | ok pr =>
      obtain ⟨parentRoot, roots1⟩ := pr
      rw [hp] at h
      simp only at h
      by_cases hu : users.length = 0
      · rw [if_pos hu] at h
        cases h
        exact Or.inr (Or.inr (Or.inl ⟨List.length_eq_zero.mp hu, rfl⟩))
      · rw [if_neg hu] at h
        have hlt : (j + i + channelNum) % users.length < users.length :=
          Nat.mod_lt _ (Nat.pos_of_ne_zero hu)
        rw [(index_eq_ok _ _ _).mpr (List.getElem?_eq_getElem hlt)] at h
        simp only at h
        cases hic : index channels channelNum with
        | error e1 =>
          rw [hic] at h
          cases h
          refine Or.inr (Or.inr (Or.inr ?_))
          unfold index at hic
          cases hc : channels[channelNum]? with
          | some c => rw [hc] at hic; cases hic
          | none =>
            rw [hc] at hic
            cases hic
            exact ⟨List.getElem?_eq_none_iff.mp hc, rfl⟩
        | ok channel =>
          rw [hic] at h
          cases h

/-! ## One batch -/

theorem flatMap_append_singleton {α β : Type} (xs : List α) (x : α) (f : α → List β) :
    (xs ++ [x]).flatMap f = xs.flatMap f ++ f x := by
  simp [List.flatMap_append]

theorem getElem?_append_singleton {α : Type} (xs : List α) (x y : α) (j : Nat)
    (h : (xs ++ [x])[j]? = some y) : xs[j]? = some y ∨ (j = xs.length ∧ y = x) := by
  by_cases hj : j < xs.length
  · rw [List.getElem?_append_left hj] at h
    exact Or.inl h
  · rw [List.getElem?_append_right (not_lt.mp hj)] at h
    cases hk : j - xs.length with
    | zero =>
      rw [hk] at h
      simp only [List.getElem?_cons_zero, Option.some.injEq] at h
      exact Or.inr ⟨by omega, h.symm⟩
    | succ k =>
      rw [hk] at h
      simp at h

/-- The invariant of the loop over `j`: after `k` posts of the batch that starts at `i`. -/
theorem fabricatePosts_ok (config : LoadtestEnviromentConfig ℚ) (draws : PostDraws)
    (users : List ModelUser) (channels : List ModelChannel) (channelNum i : Nat)
    (roots : List String) (n : Nat) (st1 : List SqlValue × List String)
    (h : forLoop n (fabricatePost config draws users channels channelNum i) ([], roots)
      = .ok st1) :
    ∃ rows : List PostRow, rows.length = n ∧ st1.1 = rows.flatMap PostRow.values ∧
      (n = 0 → st1.2 = roots) ∧ (0 < n → st1.2 = roots ++ [draws.NewId i 0]) ∧
      ∀ j row, rows[j]? = some row →
        BatchRowOK config (roots ++ [draws.NewId i 0]) j row := by
  refine forLoop_invariant
    (fun k (st : List SqlValue × List String) =>
      ∃ rows : List PostRow, rows.length = k ∧ st.1 = rows.flatMap PostRow.values ∧
        (k = 0 → st.2 = roots) ∧ (0 < k → st.2 = roots ++ [draws.NewId i 0]) ∧
        ∀ j row, rows[j]? = some row →
          BatchRowOK config (roots ++ [draws.NewId i 0]) j row)
    n _ _ st1 ?_ ?_ h
  · exact ⟨[], rfl, rfl, fun _ => rfl, fun h0 => absurd h0 (Nat.lt_irrefl 0),
      fun j row hr => by simp at hr⟩
  · intro k st st2 _ hinv hb
    obtain ⟨rows, hlen, hvals, hzero, hpos, hrows⟩ := hinv
    obtain ⟨user, channel, parentRoot, _, _, hv, hj0, hjne, hreply⟩ :=
      fabricatePost_ok config draws users channels channelNum i k st st2 hb
    refine ⟨rows ++ [mkPostRow (draws.NewId i k) (draws.Now i k - draws.Int63n i k) user.Id
        channel.Id parentRoot ("PL" ++ draws.SentencesN i k)], ?_, ?_, ?_, ?_, ?_⟩
    · simp [hlen]
    · rw [hv, hvals, flatMap_append_singleton]
    · intro hk
      omega
    · intro _
      by_cases hk : k = 0
      · subst hk
        rw [(hj0 rfl).2, hzero rfl]
      · rw [(hjne hk).1, hpos (Nat.pos_of_ne_zero hk)]
    · intro j row hr
      rcases getElem?_append_singleton _ _ _ _ hr with hold | ⟨hjk, hrow⟩
      · exact hrows j row hold
      · subst hrow
        rw [hlen] at hjk
        subst hjk
        refine ⟨rfl, rfl, ?_, ?_, ?_⟩
        · intro hk
          subst hk
          refine ⟨(hj0 rfl).1, ?_⟩
          simp [mkPostRow]
        · by_cases hk : j = 0
          · exact Or.inl (hj0 hk).1
          · rcases (hjne hk).2 with he | hm
            · exact Or.inl he
            · refine Or.inr ?_
              rw [hpos (Nat.pos_of_ne_zero hk)] at hm
              exact hm
        · exact hreply

/-- A batch that is submitted: one call of `Exec` with the values of 100 posts, and one more
root. -/
theorem fabricateBatch_ok (config : LoadtestEnviromentConfig ℚ) (draws : PostDraws)
    (users : List ModelUser) (channels : List ModelChannel) (channelNum : Nat)
    (statement : Option String) (execError : Nat → Bool) (i : Nat)
    (st st1 : List ExecCall × List String)
    (h : fabricateBatch config draws users channels channelNum statement execError i st
      = .ok st1) :
    st1.2 = st.2 ++ [draws.NewId i 0] ∧
    ∃ rows : List PostRow, rows.length = 100 ∧
      st1.1 = st.1 ++ [{ vals := rows.flatMap PostRow.values, failed := execError i }] ∧
      ∀ j row, rows[j]? = some row → BatchRowOK config st1.2 j row := by
  unfold fabricateBatch at h
  cases hl : forLoop 100 (fabricatePost config draws users channels channelNum i) ([], st.2) with
  | error e => rw [hl] at h; cases h
  | ok r =>
    obtain ⟨vals, rootPosts⟩ := r
    rw [hl] at h
    simp only at h
    cases statement with
    | none => cases h
    | some q =>
      simp only at h
      cases h
      obtain ⟨rows, hlen, hvals, _, hpos, hrows⟩ :=
        fabricatePosts_ok config draws users channels channelNum i st.2 100 _ hl
      simp only at hvals hpos
      have hroots := hpos (by decide)
      refine ⟨hroots, rows, hlen, by rw [hvals], ?_⟩
      simp only
      rw [hroots]
      exact hrows

/-- The ways in which a batch panics. -/
theorem fabricateBatch_error (config : LoadtestEnviromentConfig ℚ) (draws : PostDraws)
    (users : List ModelUser) (channels : List ModelChannel) (channelNum : Nat)
    (statement : Option String) (execError : Nat → Bool) (i : Nat)
    (st : List ExecCall × List String) (e : Panic)
    (h : fabricateBatch config draws users channels channelNum statement execError i st
      = .error e) :
    (config.PostTimeRange ≤ 0 ∧ e = .invalidArgumentInt63n) ∨
    (users = [] ∧ e = .integerDivideByZero) ∨
    (channels.length ≤ channelNum ∧ e = .indexOutOfRange) ∨
    (statement = none ∧ e = .nilDereference) := by
  unfold fabricateBatch at h
  cases hl : forLoop 100 (fabricatePost config draws users channels channelNum i) ([], st.2) with
  | error e1 =>
    rw [hl] at h
    cases h
    have hstep : ∀ k (s s1 : List SqlValue × List String), k < 100 → (0 < k → s.2 ≠ []) →
        fabricatePost config draws users channels channelNum i k s = .ok s1 →
        (0 < k + 1 → s1.2 ≠ []) := by
      intro k s s1 _ hinv hb _
      obtain ⟨_, _, _, _, _, _, hj0, hjne, _⟩ :=
        fabricatePost_ok config draws users channels channelNum i k s s1 hb
      by_cases hk : k = 0
      · rw [(hj0 hk).2]
        simp
      · rw [(hjne hk).1]
        exact hinv (Nat.pos_of_ne_zero hk)
    obtain ⟨k, s, _, hinv, hb⟩ := forLoop_error
      (fun k (s : List SqlValue × List String) => 0 < k → s.2 ≠ [])
      100 _ _ e (fun h0 => absurd h0 (Nat.lt_irrefl 0)) hstep hl
    rcases fabricatePost_error config draws users channels channelNum i k s e hb with
      h1 | ⟨hk, hs⟩ | h3 | h4
    · exact Or.inl h1
    · exact absurd hs (hinv (Nat.pos_of_ne_zero hk))
    · exact Or.inr (Or.inl h3)
    · exact Or.inr (Or.inr (Or.inl h4))
  | ok r =>
    obtain ⟨vals, rootPosts⟩ := r
    rw [hl] at h
    simp only at h
    cases statement with
    | none =>
      cases h
      exact Or.inr (Or.inr (Or.inr ⟨rfl, rfl⟩))
    | some q => cases h

/-! ## One channel -/

/-- The calls of `Exec` and the roots of a channel whose loop ends. -/
theorem fabricateChannel_ok (config : LoadtestEnviromentConfig ℚ) (draws : PostDraws)
    (users : List ModelUser) (channels : List ModelChannel) (channelNum : Nat)
    (statement : Option String) (execError : Nat → Bool) (n : Int)
    (calls : List ExecCall) (roots : List String)
    (h : fabricateChannel config draws users channels channelNum statement execError n
      = .ok (calls, roots)) :
    calls.length = batchCount n ∧ roots.length = batchCount n ∧
    (∀ b, b < batchCount n → roots[b]? = some (draws.NewId (100 * b) 0)) ∧
    ∀ b call, calls[b]? = some call → BatchOK config execError roots b call := by
  rw [fabricateChannel_eq] at h
  have hinv := forLoop_invariant
    (fun q (st : List ExecCall × List String) =>
      st.1.length = q ∧ st.2.length = q ∧
      (∀ b, b < q → st.2[b]? = some (draws.NewId (100 * b) 0)) ∧
      ∀ b call, st.1[b]? = some call → BatchOK config execError st.2 b call)
    (batchCount n) _ _ (calls, roots) ?_ ?_ h
  · exact hinv
  · exact ⟨rfl, rfl, fun b hb => absurd hb (Nat.not_lt_zero b), fun b call hc => by simp at hc⟩
  · intro q st st1 _ hinv hb
    obtain ⟨hc, hr, hid, hcalls⟩ := hinv
    obtain ⟨hroots, rows, hlen, hcalls1, hrows⟩ :=
      fabricateBatch_ok config draws users channels channelNum statement execError (100 * q)
        st st1 hb
    refine ⟨by rw [hcalls1]; simp [hc], by rw [hroots]; simp [hr], ?_, ?_⟩
    · intro b hbq
      rw [hroots]
      by_cases hlt : b < q
      · rw [List.getElem?_append_left (by omega)]
        exact hid b hlt
      · have hbe : b = q := by omega
        subst hbe
        rw [List.getElem?_append_right (by omega)]
        simp [hr]
    · intro b call hcall
      rw [hcalls1] at hcall
      rcases getElem?_append_singleton _ _ _ _ hcall with hold | ⟨hbq, hnew⟩
      · obtain ⟨hf, rows0, hl0, hv0, hr0⟩ := hcalls b call hold
        have hbq : b < q := by
          have := (List.getElem?_eq_some_iff.mp hold).1
          omega
        refine ⟨hf, rows0, hl0, hv0, ?_⟩
        have htake : st1.2.take (b + 1) = st.2.take (b + 1) := by
          rw [hroots, List.take_append_of_le_length (by omega)]
        rw [htake]
        exact hr0
      · subst hnew
        rw [hc] at hbq
        subst hbq
        refine ⟨rfl, rows, hlen, rfl, ?_⟩
        have htake : st1.2.take (b + 1) = st1.2 := by
          apply List.take_of_length_le
          rw [hroots]
          simp [hr]
        rw [htake]
        exact hrows

/-- The ways in which the loop of a channel panics. -/
theorem fabricateChannel_error (config : LoadtestEnviromentConfig ℚ) (draws : PostDraws)
    (users : List ModelUser) (channels : List ModelChannel) (channelNum : Nat)
    (statement : Option String) (execError : Nat → Bool) (n : Int) (e : Panic)
    (h : fabricateChannel config draws users channels channelNum statement execError n
      = .error e) :
    0 < n ∧
    ((config.PostTimeRange ≤ 0 ∧ e = .invalidArgumentInt63n) ∨
     (users = [] ∧ e = .integerDivideByZero) ∨
     (channels.length ≤ channelNum ∧ e = .indexOutOfRange) ∨
     (statement = none ∧ e = .nilDereference)) := by
  rw [fabricateChannel_eq] at h
  obtain ⟨k, st, hk, _, hb⟩ := forLoop_error (fun _ (_ : List ExecCall × List String) => True)
    (batchCount n) _ _ e trivial (fun _ _ _ _ _ _ => trivial) h
  refine ⟨?_, fabricateBatch_error config draws users channels channelNum statement execError
    (100 * k) st e hb⟩
  unfold batchCount at hk
  omega

/-- The loop of a channel ends without a panic when `PostTimeRange` is positive, the team has a
user, the channel exists and the statement was prepared. -/
theorem fabricateChannel_succeeds (config : LoadtestEnviromentConfig ℚ) (draws : PostDraws)
    (users : List ModelUser) (channels : List ModelChannel) (channelNum : Nat)
    (query : String) (execError : Nat → Bool) (n : Int)
    (hrange : 0 < config.PostTimeRange) (husers : users ≠ [])
    (hchannel : channelNum < channels.length) :
    ∃ calls roots,
      fabricateChannel config draws users channels channelNum (some query) execError n
        = .ok (calls, roots) := by
  cases hrun : fabricateChannel config draws users channels channelNum (some query) execError n
    with
  | ok r => exact ⟨r.1, r.2, rfl⟩
  | error e =>
    rcases (fabricateChannel_error config draws users channels channelNum _ execError n e
      hrun).2 with h1 | h2 | h3 | h4
    · exact absurd h1.1 (not_le.mpr hrange)
    · exact absurd h2.1 husers
    · exact absurd h3.1 (not_le.mpr hchannel)
    · cases h4.1

/-! ## The text of the insert statement -/

set_option maxRecDepth 8000

theorem data_intercalate_go (sep : String) :
    ∀ (l : List String) (acc : String),
      (String.intercalate.go acc sep l).data
        = acc.data ++ (l.map (fun a => sep.data ++ a.data)).flatten := by
  intro l
  induction l with
  | nil =>
    intro acc
    simp [String.intercalate.go]
  | cons a rest ih =>
    intro acc
    rw [String.intercalate.go, ih]
    simp [String.data_append, List.append_assoc]

theorem data_intercalate_replicate (sep g : String) (n : Nat) :
    (sep.intercalate (List.replicate (n + 1) g)).data
      = g.data ++ (List.replicate n (sep.data ++ g.data)).flatten := by
  rw [List.replicate_succ, String.intercalate, data_intercalate_go]
  simp

theorem data_foldl_append (g : String) :
    ∀ (n : Nat) (a : String),
      ((List.range n).foldl (fun acc _ => acc ++ g) a).data
        = a.data ++ (List.replicate n g.data).flatten := by
  intro n
  induction n with
  | zero =>
    intro a
    simp
  | succ n ih =>
    intro a
    rw [List.range_succ, List.foldl_append]
    simp only [List.foldl_cons, List.foldl_nil, String.data_append]
    rw [ih, List.replicate_succ', List.flatten_append]
    simp

theorem flatten_replicate_snoc {α : Type} (x : List α) (c : α) :
    ∀ n : Nat, (List.replicate (n + 1) (x ++ [c])).flatten
      = x ++ (List.replicate n (c :: x)).flatten ++ [c] := by
  intro n
  induction n with
  | zero => simp
  | succ n ih =>
    rw [List.replicate_succ, List.flatten_cons, ih, List.replicate_succ, List.flatten_cons]
    simp

/-- A statement built as at lines 393-397 is its prefix followed by the row groups, separated
by commas. -/
theorem statement_shape (p g : String) (n : Nat) :
    String.mk ((List.range (n + 1)).foldl (fun acc _ => acc ++ (g ++ ",")) p).data.dropLast
      = p ++ ",".intercalate (List.replicate (n + 1) g) := by
  apply String.ext
  rw [data_foldl_append]
  simp only [String.data_append]
  rw [data_intercalate_replicate]
  have hg : ",".data = [','] := rfl
  have hc : ([','] ++ g.data) = ',' :: g.data := rfl
  rw [hg, flatten_replicate_snoc, hc, ← List.append_assoc, ← List.append_assoc,
    List.dropLast_concat, List.append_assoc]

/-- The row group of the insert statement: 18 placeholders. -/
theorem rowGroup_eq :
    "(?, ?, ?, ?, ?, ?, ?, ?, ?, ?, ?, ?, ?, ?, ?, ?, ?, ?),"
      = "(" ++ ", ".intercalate (List.replicate 18 "?") ++ ")" ++ "," := by
  decide

theorem statementPrefix_eq :
    ("INSERT INTO Posts (Id, CreateAt, UpdateAt, EditAt, DeleteAt, IsPinned, UserId, ChannelId, "
      ++ "RootId, ParentId, OriginalId, Message, Type, Props, Hashtags, Filenames, FileIds, "
      ++ "HasReactions) VALUES ")
      = "INSERT INTO Posts (" ++ ", ".intercalate postColumns ++ ") VALUES " := by
  decide

/-- The insert statement: the prefix with the 18 columns, then 100 row groups separated by
commas. -/
theorem statementStr_eq :
    statementStr
      = "INSERT INTO Posts (" ++ ", ".intercalate postColumns ++ ") VALUES "
        ++ ",".intercalate
            (List.replicate 100 ("(" ++ ", ".intercalate (List.replicate 18 "?") ++ ")")) := by
  unfold statementStr
  simp only
  rw [rowGroup_eq, statementPrefix_eq]
  exact statement_shape _ _ 99

/-- The values of a post are the values of its columns, in the order of `postColumns`. -/
theorem PostRow.values_eq_columns (r : PostRow) :
    postColumns.filterMap r.column = r.values := by
  simp [postColumns, PostRow.column, PostRow.values]

/-! ## C13, C14: the fabrication loop of a channel -/

theorem getLast?_take_succ {α : Type} (l : List α) (b : Nat) (h : b < l.length) :
    (l.take (b + 1)).getLast? = l[b]? := by
  rw [List.getLast?_eq_getElem?, List.length_take, List.getElem?_take]
  have hmin : min (b + 1) l.length - 1 = b := by omega
  rw [hmin, if_pos (Nat.lt_succ_self b)]

theorem mem_take_succ {α : Type} (l : List α) (b : Nat) (x : α) (h : x ∈ l.take (b + 1)) :
    ∃ b1 : Nat, b1 ≤ b ∧ l[b1]? = some x := by
  obtain ⟨k, hk⟩ := List.mem_iff_getElem?.mp h
  rw [List.getElem?_take] at hk
  by_cases hlt : k < b + 1
  · rw [if_pos hlt] at hk
    exact ⟨k, by omega, hk⟩
  · rw [if_neg hlt] at hk
    cases hk

theorem mem_of_getElem? {α : Type} (l : List α) (k : Nat) (x : α) (h : l[k]? = some x) :
    x ∈ l := by
  obtain ⟨hlt, heq⟩ := List.getElem?_eq_some_iff.mp h
  exact heq ▸ List.getElem_mem hlt

theorem getElem?_of_mem {α : Type} (l : List α) (x : α) (h : x ∈ l) : ∃ k : Nat, l[k]? = some x :=
  List.mem_iff_getElem?.mp h

theorem length_flatMap_values (rows : List PostRow) :
    (rows.flatMap PostRow.values).length = 18 * rows.length := by
  induction rows with
  | nil => rfl
  | cons r rest ih =>
    rw [List.flatMap_cons, List.length_append, ih, PostRow.length_values, List.length_cons]
    omega

/-- C13. In the fabrication loop of a channel, when `ReplyChance` is 0 or negative, every post
of every batch submitted has an empty `RootId` and an empty `ParentId`, whatever the random
source `draws` returns: every call of `Exec` passes the values of 100 posts without a parent. -/
theorem C13_no_replies_without_reply_chance (config : LoadtestEnviromentConfig ℚ)
    (draws : PostDraws) (users : List ModelUser) (channels : List ModelChannel)
    (channelNum : Nat) (statement : Option String) (execError : Nat → Bool) (n : Int)
    (calls : List ExecCall) (roots : List String)
    (hreply : config.ReplyChance ≤ 0)
    (h : fabricateChannel config draws users channels channelNum statement execError n
      = .ok (calls, roots)) :
    ∀ call, call ∈ calls →
      ∃ rows : List PostRow, rows.length = 100 ∧ call.vals = rows.flatMap PostRow.values ∧
        ∀ row, row ∈ rows → row.RootId = "" ∧ row.ParentId = "" := by
  obtain ⟨_, _, _, hcalls⟩ :=
    fabricateChannel_ok config draws users channels channelNum statement execError n calls
      roots h
  intro call hmem
  obtain ⟨b, hb⟩ := getElem?_of_mem calls call hmem
  obtain ⟨_, rows, hlen, hvals, hrows⟩ := hcalls b call hb
  refine ⟨rows, hlen, hvals, ?_⟩
  intro row hrow
  obtain ⟨j, hj⟩ := getElem?_of_mem rows row hrow
  obtain ⟨hrp, _, _, _, hno⟩ := hrows j row hj
  exact ⟨hno hreply, by rw [← hrp]; exact hno hreply⟩

/-- The witness of C13: a channel with the target 166 and `ReplyChance = 0`. -/
theorem C13_no_replies_without_reply_chance_witness :
    ∃ calls roots,
      fabricateChannel (postsConfig 2 3 1000 100 0) zeroDraws threeUsers twoChannels 0
        (some statementStr) (fun _ => false) 166 = .ok (calls, roots) ∧
      ∀ call, call ∈ calls →
        ∃ rows : List PostRow, rows.length = 100 ∧ call.vals = rows.flatMap PostRow.values ∧
          ∀ row, row ∈ rows → row.RootId = "" ∧ row.ParentId = "" :=
  ⟨_, _, rfl,
    C13_no_replies_without_reply_chance (postsConfig 2 3 1000 100 0) zeroDraws threeUsers
      twoChannels 0 (some statementStr) (fun _ => false) 166 _ _ (by decide) rfl⟩

/-- C14. In the fabrication loop of a channel, the first post of every batch has an empty
`RootId` and `ParentId` and its id is recorded in `rootPosts` (at the position of the batch);
every post has `RootId = ParentId`, and that value is empty or a root recorded for the current
or an earlier batch of the channel.  The loop never panics on the draw of a root: `rand.Intn` is
never called with an empty list, and an index is out of range only if the channel number is. -/
theorem C14_roots_and_replies (config : LoadtestEnviromentConfig ℚ)
    (draws : PostDraws) (users : List ModelUser) (channels : List ModelChannel)
    (channelNum : Nat) (statement : Option String) (execError : Nat → Bool) (n : Int) :
    (∀ calls roots,
      fabricateChannel config draws users channels channelNum statement execError n
        = .ok (calls, roots) →
      roots.length = calls.length ∧
      ∀ (b : Nat) (call : ExecCall), calls[b]? = some call →
        ∃ rows : List PostRow, rows.length = 100 ∧ call.vals = rows.flatMap PostRow.values ∧
          (∀ first, rows[0]? = some first →
            first.RootId = "" ∧ first.ParentId = "" ∧ roots[b]? = some first.Id) ∧
          ∀ (j : Nat) (row : PostRow), rows[j]? = some row →
            row.RootId = row.ParentId ∧
            (row.RootId = "" ∨ ∃ b1 : Nat, b1 ≤ b ∧ roots[b1]? = some row.RootId)) ∧
    fabricateChannel config draws users channels channelNum statement execError n
      ≠ .error .invalidArgumentIntn ∧
    (channelNum < channels.length →
      fabricateChannel config draws users channels channelNum statement execError n
        ≠ .error .indexOutOfRange) := by
  refine ⟨?_, ?_, ?_⟩
  · intro calls roots h
    obtain ⟨hc, hr, _, hcalls⟩ :=
      fabricateChannel_ok config draws users channels channelNum statement execError n calls
        roots h
    refine ⟨by rw [hc, hr], ?_⟩
    intro b call hb
    obtain ⟨_, rows, hlen, hvals, hrows⟩ := hcalls b call hb
    have hblt : b < roots.length := by
      have := (List.getElem?_eq_some_iff.mp hb).1
      omega
    refine ⟨rows, hlen, hvals, ?_, ?_⟩
    · intro first hfirst
      obtain ⟨hrp, _, hzero, _, _⟩ := hrows 0 first hfirst
      obtain ⟨hroot, hlast⟩ := hzero rfl
      refine ⟨hroot, by rw [← hrp]; exact hroot, ?_⟩
      rw [← getLast?_take_succ roots b hblt]
      exact hlast
    · intro j row hj
      obtain ⟨hrp, _, _, hmem, _⟩ := hrows j row hj
      refine ⟨hrp, ?_⟩
      rcases hmem with he | hm
      · exact Or.inl he
      · exact Or.inr (mem_take_succ roots b _ hm)
  · intro herr
    rcases (fabricateChannel_error config draws users channels channelNum statement execError n
      _ herr).2 with h1 | h2 | h3 | h4
    · cases h1.2
    · cases h2.2
    · cases h3.2
    · cases h4.2
  · intro hlt herr
    rcases (fabricateChannel_error config draws users channels channelNum statement execError n
      _ herr).2 with h1 | h2 | h3 | h4
    · cases h1.2
    · cases h2.2
    · exact absurd h3.1 (not_le.mpr hlt)
    · cases h4.2

/-- The witness of C14: a channel with the target 166 in which every post that is not the first
of its batch is a reply (`ReplyChance = 1`). -/
theorem C14_roots_and_replies_witness :
    ∃ calls roots,
      fabricateChannel (postsConfig 2 3 1000 100 1) zeroDraws threeUsers twoChannels 0
        (some statementStr) (fun _ => false) 166 = .ok (calls, roots) ∧
      roots = ["post0", "post100"] ∧
      roots.length = calls.length ∧
      ∀ (b : Nat) (call : ExecCall), calls[b]? = some call →
        ∃ rows : List PostRow, rows.length = 100 ∧ call.vals = rows.flatMap PostRow.values ∧
          (∀ first, rows[0]? = some first →
            first.RootId = "" ∧ first.ParentId = "" ∧ roots[b]? = some first.Id) ∧
          ∀ (j : Nat) (row : PostRow), rows[j]? = some row →
            row.RootId = row.ParentId ∧
            (row.RootId = "" ∨ ∃ b1 : Nat, b1 ≤ b ∧ roots[b1]? = some row.RootId) :=
  ⟨_, _, rfl, rfl,
    (C14_roots_and_replies (postsConfig 2 3 1000 100 1) zeroDraws threeUsers twoChannels 0
      (some statementStr) (fun _ => false) 166).1 _ _ rfl⟩

/-! ## The fetch loops -/

/-- With the fuel 50 the loop over the pages of the users ends: it stops once 10000 users are
collected, which takes at most 50 full pages. -/
theorem fetchUsers_finishes (w : World) (teamId : String) :
    ∀ (fuel page total : Nat) (users : List ModelUser), total = 200 * page → total < 10000 →
      50 ≤ page + fuel → (fetchUsers w teamId fuel page total users).2 ≠ .error .unfinished := by
  intro fuel
  induction fuel with
  | zero =>
    intro page total users ht hlt hfuel
    omega
  | succ fuel ih =>
    intro page total users ht hlt hfuel
    unfold fetchUsers
    cases hp : w.GetUsersInTeam teamId page with
    | none =>
      simp only
      intro h
      cases h
    | some newusers =>
      cases newusers with
      | nil =>
        simp only
        intro h
        cases h
      | cons u us =>
        simp only
        by_cases hcap : total + (u :: us).length ≥ 10000
        · rw [if_pos hcap]
          intro h
          cases h
        · rw [if_neg hcap]
          by_cases hfull : (u :: us).length = 200
          · rw [if_pos hfull]
            simp only
            exact ih (page + 1) (total + (u :: us).length) _ (by omega) (by omega) (by omega)
          · rw [if_neg hfull]
            intro h
            cases h

/-- The users collected are never more than 10000 when no page holds more than 200 users. -/
theorem fetchUsers_length_le (w : World) (teamId : String)
    (hpages : ∀ page newusers, w.GetUsersInTeam teamId page = some newusers →
      newusers.length ≤ 200) :
    ∀ (fuel page total : Nat) (users result : List ModelUser), users.length = total →
      total < 10000 → total = 200 * page →
      (fetchUsers w teamId fuel page total users).2 = .ok result → result.length ≤ 10000 := by
  intro fuel
  induction fuel with
  | zero =>
    intro page total users result _ _ _ h
    cases h
  | succ fuel ih =>
    intro page total users result hl hlt ht h
    unfold fetchUsers at h
    cases hp : w.GetUsersInTeam teamId page with
    | none =>
      rw [hp] at h
      cases h
    | some newusers =>
      have hle := hpages page newusers hp
      rw [hp] at h
      cases newusers with
      | nil => cases h
      | cons u us =>
        simp only at h
        by_cases hcap : total + (u :: us).length ≥ 10000
        · rw [if_pos hcap] at h
          cases h
          rw [List.length_append]
          omega
        · rw [if_neg hcap] at h
          by_cases hfull : (u :: us).length = 200
          · rw [if_pos hfull] at h
            simp only at h
            exact ih (page + 1) (total + (u :: us).length) _ result
              (by rw [List.length_append, hl]) (by omega) (by omega) h
          · rw [if_neg hfull] at h
            cases h
            rw [List.length_append]
            omega

/-! ## The requests of a team -/

theorem fetchChannels_events (w : World) (teamId : String) :
    ∀ (fuel page : Nat) (channels : List ModelChannel) (e : Event),
      e ∈ (fetchChannels w teamId fuel page channels).1 → e.isAbout teamId = true := by
  intro fuel
  induction fuel with
  | zero =>
    intro page channels e he
    simp [fetchChannels] at he
  | succ fuel ih =>
    intro page channels e he
    unfold fetchChannels at he
    cases hp : w.GetPublicChannelsForTeam teamId page with
    | none =>
      rw [hp] at he
      simp only [List.mem_singleton] at he
      subst he
      simp [Event.isAbout]
    | some newchannels =>
      rw [hp] at he
      simp only at he
      by_cases hfull : newchannels.length = 200
      · rw [if_pos hfull] at he
        simp only [List.mem_cons] at he
        rcases he with he | he
        · subst he
          simp [Event.isAbout]
        · exact ih _ _ e he
      · rw [if_neg hfull] at he
        simp only [List.mem_singleton] at he
        subst he
        simp [Event.isAbout]

theorem fetchUsers_events (w : World) (teamId : String) :
    ∀ (fuel page total : Nat) (users : List ModelUser) (e : Event),
      e ∈ (fetchUsers w teamId fuel page total users).1 → e.isAbout teamId = true := by
  intro fuel
  induction fuel with
  | zero =>
    intro page total users e he
    simp [fetchUsers] at he
  | succ fuel ih =>
    intro page total users e he
    unfold fetchUsers at he
    cases hp : w.GetUsersInTeam teamId page with
    | none =>
      rw [hp] at he
      simp only [List.mem_singleton] at he
      subst he
      simp [Event.isAbout]
    | some newusers =>
      rw [hp] at he
      cases newusers with
      | nil =>
        simp only [List.mem_singleton] at he
        subst he
        simp [Event.isAbout]
      | cons u us =>
        simp only at he
        by_cases hcap : total + (u :: us).length ≥ 10000
        · rw [if_pos hcap] at he
          simp only [List.mem_singleton] at he
          subst he
          simp [Event.isAbout]
        · rw [if_neg hcap] at he
          by_cases hfull : (u :: us).length = 200
          · rw [if_pos hfull] at he
            simp only [List.mem_cons] at he
            rcases he with he | he
            · subst he
              simp [Event.isAbout]
            · exact ih _ _ _ e he
          · rw [if_neg hfull] at he
            simp only [List.mem_singleton] at he
            subst he
            simp [Event.isAbout]

theorem runActions_events (action : Nat → List Event × Except Panic Unit) (P : Event → Prop)
    (h : ∀ k e, e ∈ (action k).1 → P e) :
    ∀ (ks : List Nat) (e : Event), e ∈ (runActions action ks).1 → P e := by
  intro ks
  induction ks with
  | nil =>
    intro e he
    simp [runActions] at he
  | cons k rest ih =>
    intro e he
    unfold runActions at he
    cases ha : action k with
    | mk events res =>
      rw [ha] at he
      cases res with
      | error p =>
        simp only at he
        exact h k e (by rw [ha]; exact he)
      | ok u =>
        simp only [List.mem_append] at he
        rcases he with he | he
        · exact h k e (by rw [ha]; exact he)
        · exact ih e he

/-- Every request made for a team is about that team. -/
theorem processTeam_events (w : World) (fuel : Nat) (config : LoadtestEnviromentConfig ℚ)
    (statement : Option String) (n : Int) (teamIndex : Nat) (team : ModelTeam) (e : Event)
    (he : e ∈ (processTeam w fuel config statement n teamIndex team).1) :
    e.isAbout team.Id = true := by
  unfold processTeam at he
  by_cases hname : HasPrefix team.Name "loadtestteam" = true
  · rw [if_neg (by simp [hname])] at he
    cases hc : fetchChannels w team.Id fuel 0 [] with
    | mk events1 res1 =>
      have h1 : ∀ e, e ∈ events1 → e.isAbout team.Id = true := by
        intro e1 he1
        exact fetchChannels_events w team.Id fuel 0 [] e1 (by rw [hc]; exact he1)
      rw [hc] at he
      cases res1 with
      | error o => exact h1 e he
      | ok channels =>
        simp only at he
        cases hu : fetchUsers w team.Id 50 0 0 [] with
        | mk events2 res2 =>
          have h2 : ∀ e, e ∈ events2 → e.isAbout team.Id = true := by
            intro e2 he2
            exact fetchUsers_events w team.Id 50 0 0 [] e2 (by rw [hu]; exact he2)
          rw [hu] at he
          cases res2 with
          | error o =>
            simp only [List.mem_append] at he
            rcases he with he | he
            · exact h1 e he
            · exact h2 e he
          | ok users =>
            simp only at he
            have h3 : ∀ e, e ∈ (ThreadSplit channels.length
                (channelWorker w config statement n teamIndex team users channels)).1 →
                e.isAbout team.Id = true := by
              intro e3 he3
              refine runActions_events _ (fun e => e.isAbout team.Id = true) ?_ _ e3 he3
              intro k e4 he4
              unfold channelWorker at he4
              cases hf : fabricateChannel config (w.draws teamIndex k) users channels k
                  statement (w.execError teamIndex k) n with
              | error p =>
                rw [hf] at he4
                simp at he4
              | ok r =>
                rw [hf] at he4
                simp only [List.mem_map] at he4
                obtain ⟨c, _, hc4⟩ := he4
                subst hc4
                simp [Event.isAbout]
            cases ht : ThreadSplit channels.length
                (channelWorker w config statement n teamIndex team users channels) with
            | mk events3 res3 =>
              rw [ht] at he h3
              cases res3 with
              | error p =>
                simp only [List.mem_append] at he
                rcases he with (he | he) | he
                · exact h1 e he
                · exact h2 e he
                · exact h3 e he
              | ok u =>
                simp only [List.mem_append] at he
                rcases he with (he | he) | he
                · exact h1 e he
                · exact h2 e he
                · exact h3 e he
  · rw [if_pos (by simp [hname])] at he
    simp at he

/-! ## The loop over the teams -/

theorem processTeams_events (w : World) (fuel : Nat) (config : LoadtestEnviromentConfig ℚ)
    (statement : Option String) (n : Int) :
    ∀ (teams : List ModelTeam) (teamIndex : Nat) (e : Event),
      e ∈ (processTeams w fuel config statement n teamIndex teams).1 →
      ∃ team, team ∈ teams ∧ e.isAbout team.Id = true := by
  intro teams
  induction teams with
  | nil =>
    intro teamIndex e he
    simp [processTeams] at he
  | cons team rest ih =>
    intro teamIndex e he
    unfold processTeams at he
    cases hp : processTeam w fuel config statement n teamIndex team with
    | mk events res =>
      have h1 : ∀ e, e ∈ events → e.isAbout team.Id = true := by
        intro e1 he1
        exact processTeam_events w fuel config statement n teamIndex team e1
          (by rw [hp]; exact he1)
      rw [hp] at he
      cases res with
      | error o => exact ⟨team, List.mem_cons_self _ _, h1 e he⟩
      | ok u =>
        simp only [List.mem_append] at he
        rcases he with he | he
        · exact ⟨team, List.mem_cons_self _ _, h1 e he⟩
        · obtain ⟨t, ht, hab⟩ := ih _ e he
          exact ⟨t, List.mem_cons_of_mem _ ht, hab⟩

/-- When the processing of a team ends the run, the teams after it are not looked at. -/
theorem processTeams_stop (w : World) (fuel : Nat) (config : LoadtestEnviromentConfig ℚ)
    (statement : Option String) (n : Int) (t : ModelTeam) (post : List ModelTeam) :
    ∀ (pre : List ModelTeam) (teamIndex : Nat),
      (∃ o, (processTeam w fuel config statement n (teamIndex + pre.length) t).2 = .error o) →
      processTeams w fuel config statement n teamIndex (pre ++ t :: post)
        = processTeams w fuel config statement n teamIndex (pre ++ [t]) ∧
      ∃ o, (processTeams w fuel config statement n teamIndex (pre ++ t :: post)).2
        = .error o := by
  intro pre
  induction pre with
  | nil =>
    intro teamIndex hstop
    obtain ⟨o, ho⟩ := hstop
    simp only [List.length_nil, Nat.add_zero] at ho
    simp only [List.nil_append]
    unfold processTeams
    cases hp : processTeam w fuel config statement n teamIndex t with
    | mk events res =>
      rw [hp] at ho
      simp only at ho
      subst ho
      exact ⟨rfl, o, rfl⟩
  | cons team rest ih =>
    intro teamIndex hstop
    obtain ⟨o, ho⟩ := hstop
    have hidx : teamIndex + (team :: rest).length = teamIndex + 1 + rest.length := by
      simp only [List.length_cons]
      omega
    rw [hidx] at ho
    obtain ⟨heq, o1, ho1⟩ := ih (teamIndex + 1) ⟨o, ho⟩
    simp only [List.cons_append]
    unfold processTeams
    cases hp : processTeam w fuel config statement n teamIndex team with
    | mk events res =>
      cases res with
      | error o2 => exact ⟨rfl, o2, rfl⟩
      | ok u =>
        simp only
        rw [heq]
        refine ⟨rfl, o1, ?_⟩
        rw [← heq]
        exact ho1

/-- When the teams before `t` are processed to the end, the run ends the way the processing of
`t` ends. -/
theorem processTeams_stop_outcome (w : World) (fuel : Nat) (config : LoadtestEnviromentConfig ℚ)
    (statement : Option String) (n : Int) (t : ModelTeam) (post : List ModelTeam) (o : Outcome) :
    ∀ (pre : List ModelTeam) (teamIndex : Nat),
      (processTeams w fuel config statement n teamIndex pre).2 = .ok () →
      (processTeam w fuel config statement n (teamIndex + pre.length) t).2 = .error o →
      (processTeams w fuel config statement n teamIndex (pre ++ t :: post)).2 = .error o := by
  intro pre
  induction pre with
  | nil =>
    intro teamIndex _ ho
    simp only [List.length_nil, Nat.add_zero] at ho
    simp only [List.nil_append]
    unfold processTeams
    cases hp : processTeam w fuel config statement n teamIndex t with
    | mk events res =>
      rw [hp] at ho
      simp only at ho
      subst ho
      rfl
  | cons team rest ih =>
    intro teamIndex hpre ho
    have hidx : teamIndex + (team :: rest).length = teamIndex + 1 + rest.length := by
      simp only [List.length_cons]
      omega
    rw [hidx] at ho
    simp only [List.cons_append]
    unfold processTeams at hpre ⊢
    cases hp : processTeam w fuel config statement n teamIndex team with
    | mk events res =>
      rw [hp] at hpre
      cases res with
      | error o2 => cases hpre
      | ok u =>
        simp only at hpre ⊢
        exact ih (teamIndex + 1) hpre ho

/-- The processing of a team ends the run when a request for its channels or for its users
fails. -/
theorem processTeam_fetch_failure (w : World) (fuel : Nat)
    (config : LoadtestEnviromentConfig ℚ) (statement : Option String) (n : Int)
    (teamIndex : Nat) (t : ModelTeam)
    (hname : HasPrefix t.Name "loadtestteam" = true)
    (hfail : (fetchChannels w t.Id fuel 0 []).2 = .error .returned ∨
      ∃ channels, (fetchChannels w t.Id fuel 0 []).2 = .ok channels ∧
        (fetchUsers w t.Id 50 0 0 []).2 = .error .returned) :
    (processTeam w fuel config statement n teamIndex t).2 = .error .returned := by
  unfold processTeam
  rw [if_neg (by simp [hname])]
  cases hc : fetchChannels w t.Id fuel 0 [] with
  | mk events1 res1 =>
    rw [hc] at hfail
    simp only at hfail
    rcases hfail with h1 | ⟨channels, h1, h2⟩
    · subst h1
      rfl
    · subst h1
      simp only
      cases hu : fetchUsers w t.Id 50 0 0 [] with
      | mk events2 res2 =>
        rw [hu] at h2
        simp only at h2
        subst h2
        rfl

theorem Event.isAbout_unique (a b : String) (e : Event) (ha : e.isAbout a = true)
    (hb : e.isAbout b = true) : a = b := by
  cases e <;> simp [Event.isAbout] at ha hb <;> rw [← ha, ← hb]

/-! ## The shape of a run of `LoadPosts` -/

/-- A run in which the database is reached and the teams are listed: the value of
`numPostsPerChannel` is `n`. -/
theorem LoadPosts_of_teams (w : World) (fuel : Nat) (config : LoadtestEnviromentConfig ℚ)
    (teams : List ModelTeam) (n : Int) (hopen : w.openError = false)
    (hping : w.pingError = false) (hteams : w.GetAllTeams = some teams)
    (hn : numPostsPerChannel w.implementationDependent config = n) :
    LoadPosts w fuel config
      = match (processTeams w fuel config
            (if w.prepareError then none else some statementStr) n 0 teams).2 with
        | .error o =>
          { events := [.dbOpen, .dbPing, .login, .getAllTeams (config.NumTeams + 200),
              .prepare statementStr]
              ++ (processTeams w fuel config
                (if w.prepareError then none else some statementStr) n 0 teams).1,
            outcome := o }
        | .ok _ =>
          match (if w.prepareError then none else some statementStr : Option String) with
          | none =>
            { events := [.dbOpen, .dbPing, .login, .getAllTeams (config.NumTeams + 200),
                .prepare statementStr]
                ++ (processTeams w fuel config
                  (if w.prepareError then none else some statementStr) n 0 teams).1,
              outcome := .panicked .nilDereference }
          | some _ =>
            { events := [.dbOpen, .dbPing, .login, .getAllTeams (config.NumTeams + 200),
                .prepare statementStr]
                ++ (processTeams w fuel config
                  (if w.prepareError then none else some statementStr) n 0 teams).1
                ++ [.close],
              outcome := .returned } := by
  unfold LoadPosts
  rw [hopen, hping, hteams, hn]
  rfl

theorem numPostsPerChannel_loadPostsConfig (implementationDependent : Int) :
    numPostsPerChannel implementationDependent loadPostsConfig = 100 :=
  numPostsPerChannel_eq implementationDependent loadPostsConfig (by decide) (by decide)
    (by decide)

/-! ## C15, C16, C17: the control flow of `LoadPosts` -/

set_option maxRecDepth 8000

/-- C15 (evaluation of the code at the failing input). A team with exactly 200 users: page 0 of
its users is full, so page 1 is requested, and page 1 is empty; line 436 evaluates
`newusers[0]` on it and `LoadPosts` panics with an index out of range, after the request for
page 1 and before any post is fabricated.  The same happens at page 0 for a team without
users. -/
theorem C15_panic_on_empty_user_page :
    (fullPageWorld.GetUsersInTeam "team0" 0).map List.length = some 200 ∧
    fullPageWorld.GetUsersInTeam "team0" 1 = some [] ∧
    fetchUsers fullPageWorld "team0" 50 0 0 []
      = ([.getUsersInTeam "team0" 0, .getUsersInTeam "team0" 1],
          .error (.panicked .indexOutOfRange)) ∧
    LoadPosts fullPageWorld 10 loadPostsConfig
      = { events := [.dbOpen, .dbPing, .login, .getAllTeams 202, .prepare statementStr,
            .getPublicChannelsForTeam "team0" 0, .getUsersInTeam "team0" 0,
            .getUsersInTeam "team0" 1],
          outcome := .panicked .indexOutOfRange } ∧
    LoadPosts noUsersWorld 10 loadPostsConfig
      = { events := [.dbOpen, .dbPing, .login, .getAllTeams 202, .prepare statementStr,
            .getPublicChannelsForTeam "team0" 0, .getUsersInTeam "team0" 0],
          outcome := .panicked .indexOutOfRange } := by
  refine ⟨rfl, rfl, rfl, ?_, ?_⟩
  · rw [LoadPosts_of_teams fullPageWorld 10 loadPostsConfig loadtestTeams 100 rfl rfl rfl
      (numPostsPerChannel_loadPostsConfig _)]
    rfl
  · rw [LoadPosts_of_teams noUsersWorld 10 loadPostsConfig loadtestTeams 100 rfl rfl rfl
      (numPostsPerChannel_loadPostsConfig _)]
    rfl

/-- C16 (counterexample to the claim as stated). Two teams with the prefix; the request for
the channels of `team0` fails (or the request for its users): `LoadPosts` returns at once, with
no request and no insert for `team1`, although the fetches of `team1` succeed and a run with
`team1` alone executes an insert for each of its two channels. -/
theorem C16_counterexample_later_team_not_fabricated :
    LoadPosts channelFetchFailsWorld 10 loadPostsConfig
      = { events := [.dbOpen, .dbPing, .login, .getAllTeams 202, .prepare statementStr,
            .getPublicChannelsForTeam "team0" 0],
          outcome := .returned } ∧
    LoadPosts userFetchFailsWorld 10 loadPostsConfig
      = { events := [.dbOpen, .dbPing, .login, .getAllTeams 202, .prepare statementStr,
            .getPublicChannelsForTeam "team0" 0, .getUsersInTeam "team0" 0],
          outcome := .returned } ∧
    (LoadPosts secondTeamWorld 10 loadPostsConfig).outcome = .returned ∧
    ((LoadPosts secondTeamWorld 10 loadPostsConfig).events.filter Event.isExec).length
      = 2 := by
  refine ⟨?_, ?_, ?_⟩
  · rw [LoadPosts_of_teams channelFetchFailsWorld 10 loadPostsConfig loadtestTeams 100 rfl rfl
      rfl (numPostsPerChannel_loadPostsConfig _)]
    rfl
  · rw [LoadPosts_of_teams userFetchFailsWorld 10 loadPostsConfig loadtestTeams 100 rfl rfl
      rfl (numPostsPerChannel_loadPostsConfig _)]
    rfl
  · rw [LoadPosts_of_teams secondTeamWorld 10 loadPostsConfig _ 100 rfl rfl rfl
      (numPostsPerChannel_loadPostsConfig _)]
    exact ⟨rfl, rfl⟩

/-- C17 (evaluation of the code at the failing input). A failure of `db.Prepare` is logged
only: `LoadPosts` goes on to request the channels and the users of the first team and then
panics at `statement.Exec` on the nil statement.  A failed login is logged only as well: the
run requests the teams, fetches their channels and users and executes the four inserts, as
without the failure.  A database that cannot be opened or pinged does end the run at once. -/
theorem C17_login_and_prepare_failures_are_not_fatal :
    LoadPosts prepareFailsWorld 10 loadPostsConfig
      = { events := [.dbOpen, .dbPing, .login, .getAllTeams 202, .prepare statementStr,
            .getPublicChannelsForTeam "team0" 0, .getUsersInTeam "team0" 0],
          outcome := .panicked .nilDereference } ∧
    LoadPosts loginFailsWorld 10 loadPostsConfig = LoadPosts healthyWorld 10 loadPostsConfig ∧
    (LoadPosts loginFailsWorld 10 loadPostsConfig).outcome = .returned ∧
    ((LoadPosts loginFailsWorld 10 loadPostsConfig).events.filter Event.isExec).length = 4 ∧
    ((LoadPosts loginFailsWorld 10 loadPostsConfig).events.filter
      (Event.isAbout "team1")).length = 4 ∧
    LoadPosts openFailsWorld 10 loadPostsConfig
      = { events := [.dbOpen], outcome := .returned } ∧
    LoadPosts pingFailsWorld 10 loadPostsConfig
      = { events := [.dbOpen, .dbPing], outcome := .returned } := by
  have hlogin := LoadPosts_of_teams loginFailsWorld 10 loadPostsConfig loadtestTeams 100 rfl
    rfl rfl (numPostsPerChannel_loadPostsConfig _)
  refine ⟨?_, rfl, ?_, ?_, ?_, rfl, rfl⟩
  · rw [LoadPosts_of_teams prepareFailsWorld 10 loadPostsConfig loadtestTeams 100 rfl rfl rfl
      (numPostsPerChannel_loadPostsConfig _)]
    rfl
  · rw [hlogin]
    rfl
  · rw [hlogin]
    rfl
  · rw [hlogin]
    rfl

set_option maxRecDepth 8000

/-! ## The expression `int(math.Floor(float64(n) * p))` -/

/-- The value of the expression is an `int`. -/
theorem floorMul_range {S : Type} (env : Env S) (n : Int) (p : ℚ) :
    -2 ^ 63 ≤ env.floorMul n p ∧ env.floorMul n p < 2 ^ 63 := by
  unfold Env.floorMul
  simp only
  split
  · assumption
  · exact env.outOfRangeInt_range n p

/-- When the operands and the product are below `2^53` in absolute value, the value of the
expression lies between the floor and the ceiling of the exact product: the rounding of the
product to `float64` does not cross an integer. -/
theorem floorMul_between {S : Type} (env : Env S) (n : Int) (p : ℚ) (hn : |n| < 2 ^ 53)
    (hx : |(n : ℚ) * p| < 2 ^ 53) :
    ⌊(n : ℚ) * p⌋ ≤ env.floorMul n p ∧ env.floorMul n p ≤ ⌈(n : ℚ) * p⌉ := by
  have hfl : ⌊(n : ℚ) * p⌋ ≤ ⌊roundFloat64 ((n : ℚ) * p)⌋ ∧
      ⌊roundFloat64 ((n : ℚ) * p)⌋ ≤ ⌈(n : ℚ) * p⌉ := by
    by_cases h0 : (n : ℚ) * p = 0
    · rw [h0, roundFloat64_def, if_pos rfl]
      simp
    · have h1 := roundFloat64_nearest_int _ h0 hx ⌊(n : ℚ) * p⌋
      have h2 := roundFloat64_nearest_int _ h0 hx ⌈(n : ℚ) * p⌉
      have hf := Int.floor_le ((n : ℚ) * p)
      have hc := Int.le_ceil ((n : ℚ) * p)
      rw [abs_of_nonpos (by linarith : ((⌊(n : ℚ) * p⌋ : Int) : ℚ) - (n : ℚ) * p ≤ 0)] at h1
      rw [abs_of_nonneg (by linarith : (0 : ℚ) ≤ ((⌈(n : ℚ) * p⌉ : Int) : ℚ) - (n : ℚ) * p)] at h2
      have h3 := neg_abs_le (roundFloat64 ((n : ℚ) * p) - (n : ℚ) * p)
      have h4 := le_abs_self (roundFloat64 ((n : ℚ) * p) - (n : ℚ) * p)
      constructor
      · apply Int.le_floor.mpr
        linarith
      · have h5 := Int.floor_le (roundFloat64 ((n : ℚ) * p))
        have : ((⌊roundFloat64 ((n : ℚ) * p)⌋ : Int) : ℚ) ≤ ((⌈(n : ℚ) * p⌉ : Int) : ℚ) := by
          linarith
        exact_mod_cast this
  have habs := abs_lt.mp hx
  have hlo : (-2 ^ 53 : Int) ≤ ⌊(n : ℚ) * p⌋ := by
    apply Int.le_floor.mpr
    push_cast
    linarith
  have hhi : ⌈(n : ℚ) * p⌉ ≤ (2 ^ 53 : Int) := by
    apply Int.ceil_le.mpr
    push_cast
    linarith
  unfold Env.floorMul
  simp only
  rw [float64OfInt_exact n hn, if_pos ⟨by omega, by omega⟩]
  exact hfl

/-- When moreover the exact product is an integer, it is the value of the expression. -/
theorem floorMul_of_integer {S : Type} (env : Env S) (n : Int) (p : ℚ) (k : Int)
    (hn : |n| < 2 ^ 53) (hk : (n : ℚ) * p = k) (hx : |k| < 2 ^ 53) :
    env.floorMul n p = k := by
  have hx2 : |(n : ℚ) * p| < 2 ^ 53 := by
    rw [hk]
    have : ((|k| : ℤ) : ℚ) < ((2 ^ 53 : ℤ) : ℚ) := by exact_mod_cast hx
    simpa using this
  obtain ⟨h1, h2⟩ := floorMul_between env n p hn hx2
  rw [hk, Int.floor_intCast] at h1
  rw [hk, Int.ceil_intCast] at h2
  omega

/-- A run that returns has allocated its users: their number is within the allocation limit. -/
theorem distribute_numUsers_le {S : Type} (env : Env S) (config : LoadtestEnviromentConfig ℚ)
    (res : List UserImportData × List TeamImportData × List ChannelImportData)
    (h : distribute env config = .ok res) :
    0 ≤ config.NumUsers ∧ 336 * config.NumUsers ≤ 2 ^ 48 := by
  unfold distribute at h
  split at h
  · cases h
  · rename_i hU
    have := (makesliceFails_eq_false 336 config.NumUsers).mp (Bool.eq_false_iff.mpr hU)
    unfold maxAlloc at this
    push_cast at this
    exact this

set_option maxRecDepth 8000

/-! ## C4: the members of a channel -/

theorem teamMembers_length_lt {S : Type} (env : Env S) (config : LoadtestEnviromentConfig ℚ)
    (r : GenerateBulkloadFileResult)
    (hd : distribute env config = .ok (r.Users, r.Teams, r.Channels)) (name : String) :
    |((teamMembers r name).length : Int)| < 2 ^ 53 := by
  obtain ⟨hU, hmax⟩ := distribute_numUsers_le env config _ hd
  obtain ⟨_, _, _, _, _, hlen, _⟩ := distribute_ok env config _ _ _ hd
  have hle : (teamMembers r name).length ≤ r.Users.length := List.length_filter_le _ _
  rw [abs_of_nonneg (Int.natCast_nonneg _)]
  omega

/-- C4 (as amended). In the result of `GenerateBulkloadFile`, for every team and every channel
of that team, the users given a membership of that channel are pairwise distinct (and no user
holds two memberships of one channel name within a team), are all members of that team, and
number exactly `max(0, min(F, teamMemberCount))`, where `F` is the value of
`int(math.Floor(float64(teamMemberCount) * tier percentage of the channel))`: the floor of the
product rounded to `float64`, which lies between the floor and the ceiling of the exact product
when that is below `2^53` in absolute value, or the value that the implementation gives to the
conversion when that floor is not an `int`.  In particular no channel has more members than its
team, whatever the percentages. The member count of the team is the one of its tier. -/
theorem C4_channel_members_capped {S : Type} (env : Env S) (sched : List Actor)
    (config : LoadtestEnviromentConfig ℚ) (r : GenerateBulkloadFileResult)
    (h : GenerateBulkloadFile env sched config = .ok r) :
    (∀ u ∈ r.Users, ∀ t ∈ u.Teams, (t.Channels.map (fun c => c.Name)).Nodup) ∧
    ∀ teamNum c : Nat, (teamNum : Int) < config.NumTeams →
      (c : Int) < config.NumChannelsPerTeam →
      ((channelMembers r ("loadtestteam" ++ Itoa teamNum)
          ("loadtestchannel" ++ Itoa c)).length : Int)
        = max 0 (min
            (env.floorMul ((teamMembers r ("loadtestteam" ++ Itoa teamNum)).length : Int)
              (channelUserPercent env config config.NumChannelsPerTeam.toNat c))
            ((teamMembers r ("loadtestteam" ++ Itoa teamNum)).length : Int)) ∧
      (channelMembers r ("loadtestteam" ++ Itoa teamNum) ("loadtestchannel" ++ Itoa c)).Nodup ∧
      (∀ u ∈ channelMembers r ("loadtestteam" ++ Itoa teamNum) ("loadtestchannel" ++ Itoa c),
        u ∈ teamMembers r ("loadtestteam" ++ Itoa teamNum)) ∧
      (channelMembers r ("loadtestteam" ++ Itoa teamNum) ("loadtestchannel" ++ Itoa c)).length
        ≤ (teamMembers r ("loadtestteam" ++ Itoa teamNum)).length ∧
      ((teamMembers r ("loadtestteam" ++ Itoa teamNum)).length : Int)
        = teamMemberTarget env config ("loadtestteam" ++ Itoa teamNum) ∧
      env.floorMul ((teamMembers r ("loadtestteam" ++ Itoa teamNum)).length : Int)
          (channelUserPercent env config config.NumChannelsPerTeam.toNat c)
        = (if -2 ^ 63 ≤ ⌊roundFloat64
                (((teamMembers r ("loadtestteam" ++ Itoa teamNum)).length : ℚ)
                  * channelUserPercent env config config.NumChannelsPerTeam.toNat c)⌋ ∧
              ⌊roundFloat64
                (((teamMembers r ("loadtestteam" ++ Itoa teamNum)).length : ℚ)
                  * channelUserPercent env config config.NumChannelsPerTeam.toNat c)⌋ < 2 ^ 63
            then ⌊roundFloat64
                (((teamMembers r ("loadtestteam" ++ Itoa teamNum)).length : ℚ)
                  * channelUserPercent env config config.NumChannelsPerTeam.toNat c)⌋
            else env.outOfRangeInt ((teamMembers r ("loadtestteam" ++ Itoa teamNum)).length : Int)
              (channelUserPercent env config config.NumChannelsPerTeam.toNat c)) ∧
      (|((teamMembers r ("loadtestteam" ++ Itoa teamNum)).length : ℚ)
          * channelUserPercent env config config.NumChannelsPerTeam.toNat c| < 2 ^ 53 →
        ⌊((teamMembers r ("loadtestteam" ++ Itoa teamNum)).length : ℚ)
            * channelUserPercent env config config.NumChannelsPerTeam.toNat c⌋
          ≤ env.floorMul ((teamMembers r ("loadtestteam" ++ Itoa teamNum)).length : Int)
              (channelUserPercent env config config.NumChannelsPerTeam.toNat c) ∧
        env.floorMul ((teamMembers r ("loadtestteam" ++ Itoa teamNum)).length : Int)
            (channelUserPercent env config config.NumChannelsPerTeam.toNat c)
          ≤ ⌈((teamMembers r ("loadtestteam" ++ Itoa teamNum)).length : ℚ)
              * channelUserPercent env config config.NumChannelsPerTeam.toNat c⌉) := by
  obtain ⟨hd, _⟩ := GenerateBulkloadFile_ok env sched config r h
  constructor
  · obtain ⟨effs, hel, hok, hlen, hus⟩ := distribute_users env config _ _ _ hd
    intro u hu t ht
    obtain ⟨j, hj, hju⟩ := List.getElem_of_mem hu
    have hj' : r.Users[j]? = some u := by rw [List.getElem?_eq_getElem hj, hju]
    rw [(hus j u hj').2.2.1, List.mem_map] at ht
    obtain ⟨e, he, het⟩ := ht
    obtain ⟨p, teamNum, _, _, _, hOK, _, _⟩ :=
      effect_facts env config effs hok e (mem_effs_of_mem_teamsOf effs j e he).1
    rw [← het]
    exact (membership_channel_names_nodup env config p teamNum e hOK j).1
  · intro teamNum c ht hc
    have hnlt := teamMembers_length_lt env config r hd ("loadtestteam" ++ Itoa teamNum)
    obtain ⟨e, ce, hname, hcname, htm, hcm, htarget, hle, hcount, _⟩ :=
      member_counts env config r hd teamNum c (by omega) (by omega)
    have hn1 : "loadtestteam" ++ Itoa teamNum = e.name := hname.symm
    have hn2 : "loadtestchannel" ++ Itoa c = ce.name := hcname.symm
    rw [hn1] at hnlt
    rw [hn1, hn2, htm, hcm]
    rw [htm] at hnlt
    refine ⟨?_, ?_, ?_, hle, htarget, ?_, ?_⟩
    · rw [hcount, Int.toNat_eq_max, max_comm]
    · exact List.Nodup.filter _ (users_nodup env config _ _ _ hd)
    · intro u hu
      unfold channelMembers at hu
      unfold teamMembers
      rw [List.mem_filter] at hu ⊢
      refine ⟨hu.1, ?_⟩
      have := hu.2
      unfold isChannelMember at this
      unfold isTeamMember
      rw [List.any_eq_true] at this ⊢
      obtain ⟨t, ht1, ht2⟩ := this
      rw [Bool.and_eq_true] at ht2
      exact ⟨t, ht1, ht2.1⟩
    · unfold Env.floorMul
      simp only
      rw [float64OfInt_exact _ hnlt]
      rfl
    · intro hx
      have := floorMul_between env (e.members.length : Int)
        (channelUserPercent env config config.NumChannelsPerTeam.toNat c) hnlt
        (by exact_mod_cast hx)
      exact_mod_cast this

/-- The witness of C4 (as amended): the first channel of the first team of the example
configuration. -/
theorem C4_channel_members_capped_witness :
    ∃ r, GenerateBulkloadFile rotatingEnv (alternating 30) exampleConfig = .ok r ∧
      ((channelMembers r ("loadtestteam" ++ Itoa 0) ("loadtestchannel" ++ Itoa 0)).length : Int)
        = max 0 (min
            (rotatingEnv.floorMul ((teamMembers r ("loadtestteam" ++ Itoa 0)).length : Int)
              (channelUserPercent rotatingEnv exampleConfig
                exampleConfig.NumChannelsPerTeam.toNat 0))
            ((teamMembers r ("loadtestteam" ++ Itoa 0)).length : Int)) := by
  with_unfolding_all exact ⟨_, rfl,
    ((C4_channel_members_capped rotatingEnv (alternating 30) exampleConfig _ rfl).2 0 0
      (by decide) (by decide)).1⟩

/-- The counterexample to C4 as stated: with the user percentage `-0.5` for high volume
channels, the team has 2 members and its channel none, while
`min(floor(2 * (-0.5)), 2) = -1`. -/
theorem C4_counterexample_negative_percentage :
    ∃ r, GenerateBulkloadFile rotatingEnv (alternating 10) negativeChannelPercentConfig = .ok r ∧
      (teamMembers r ("loadtestteam" ++ Itoa 0)).length = 2 ∧
      (channelMembers r ("loadtestteam" ++ Itoa 0) ("loadtestchannel" ++ Itoa 0)).length = 0 ∧
      min (rotatingEnv.floorMul 2 (channelUserPercent rotatingEnv negativeChannelPercentConfig 1 0))
        2 = -1 ∧
      ((channelMembers r ("loadtestteam" ++ Itoa 0) ("loadtestchannel" ++ Itoa 0)).length : Int)
        ≠ min
            (rotatingEnv.floorMul ((teamMembers r ("loadtestteam" ++ Itoa 0)).length : Int)
              (channelUserPercent rotatingEnv negativeChannelPercentConfig 1 0))
            ((teamMembers r ("loadtestteam" ++ Itoa 0)).length : Int) := by
  with_unfolding_all exact ⟨_, rfl, by decide, by decide, by decide, by decide⟩

/-- The user percentage `1e30` for high volume channels: the floor of the product `2e30` is not
an `int`; on amd64 the conversion yields `-2^63`, and the channel of the team of 2 gets no
member. -/
theorem channel_members_with_percentage_1e30 :
    ∃ r, GenerateBulkloadFile rotatingEnv (alternating 10) hugeChannelPercentConfig = .ok r ∧
      (teamMembers r ("loadtestteam" ++ Itoa 0)).length = 2 ∧
      (channelMembers r ("loadtestteam" ++ Itoa 0) ("loadtestchannel" ++ Itoa 0)).length = 0 ∧
      rotatingEnv.floorMul 2 (channelUserPercent rotatingEnv hugeChannelPercentConfig 1 0)
        = -2 ^ 63 ∧
      ⌊roundFloat64 (2 * channelUserPercent rotatingEnv hugeChannelPercentConfig 1 0)⌋
        = 2000000000000000039769249677312 := by
  with_unfolding_all exact ⟨_, rfl, by decide, by decide, by decide, by decide⟩

/-- The product of `100` and the `float64` nearest to `0.29` rounds to a `float64` below `29`:
the value of the expression is `28`. -/
theorem floorMul_100_times_29_percent :
    rotatingEnv.floorMul 100 (float64Literal (29 / 100)) = 28 := by
  with_unfolding_all decide

set_option maxRecDepth 8000

/-! ## C6: the tiers of the teams -/

/-- A run that returns has allocated its teams: their number is within the allocation limit. -/
theorem distribute_numTeams_le {S : Type} (env : Env S) (config : LoadtestEnviromentConfig ℚ)
    (res : List UserImportData × List TeamImportData × List ChannelImportData)
    (h : distribute env config = .ok res) :
    0 ≤ config.NumTeams ∧ 72 * config.NumTeams ≤ 2 ^ 48 := by
  unfold distribute at h
  split at h
  · cases h
  · split at h
    · cases h
    · cases hgt : generateTeams config.NumTeams with
      | error e =>
        simp only [hgt] at h
        cases h
      | ok teams =>
        unfold generateTeams at hgt
        split at hgt
        · cases hgt
        · rename_i hT
          have := (makesliceFails_eq_false 72 config.NumTeams).mp (Bool.eq_false_iff.mpr hT)
          unfold maxAlloc at this
          push_cast at this
          exact this

/-- The expression `int(math.Floor(float64(n) * p))` for an `n` that `float64` represents
exactly. -/
theorem floorMul_eq {S : Type} (env : Env S) (n : Int) (p : ℚ) (hn : |n| < 2 ^ 53) :
    env.floorMul n p
      = (if -2 ^ 63 ≤ ⌊roundFloat64 ((n : ℚ) * p)⌋ ∧ ⌊roundFloat64 ((n : ℚ) * p)⌋ < 2 ^ 63
          then ⌊roundFloat64 ((n : ℚ) * p)⌋ else env.outOfRangeInt n p) := by
  unfold Env.floorMul
  simp only
  rw [float64OfInt_exact _ hn]

/-- The entry of the team-choice table for a team membership of a user of the result. -/
theorem teamChoice_entry {S : Type} (env : Env S) (config : LoadtestEnviromentConfig ℚ)
    (r : GenerateBulkloadFileResult)
    (hd : distribute env config = .ok (r.Users, r.Teams, r.Channels))
    (u : UserImportData) (hu : u ∈ r.Users) (k : Nat) (t : UserTeamImportData)
    (hk : u.Teams[k]? = some t) :
    u.TeamChoice[k]?
      = some ({ Item := .int k, Weight := teamSelectionWeight env config t.Name } : Choice) := by
  obtain ⟨effs, hel, hok, hlen, hus⟩ := distribute_users env config _ _ _ hd
  obtain ⟨j, hj, hju⟩ := List.getElem_of_mem hu
  have hj' : r.Users[j]? = some u := by rw [List.getElem?_eq_getElem hj, hju]
  obtain ⟨_, _, hteams, hclen, hcpt⟩ := hus j u hj'
  rw [hteams, List.getElem?_map] at hk
  cases he : (teamsOf effs j)[k]? with
  | none => rw [he] at hk; cases hk
  | some e =>
    rw [he] at hk
    simp only [Option.map_some', Option.some.injEq] at hk
    have hmem : e ∈ teamsOf effs j := by
      obtain ⟨hlt, heq⟩ := List.getElem?_eq_some_iff.mp he
      exact heq ▸ List.getElem_mem hlt
    obtain ⟨p, teamNum, _, _, _, hOK, _, hpos⟩ :=
      effect_facts env config effs hok e (mem_effs_of_mem_teamsOf effs j e hmem).1
    rw [hcpt k e he, ← hk, membership_name]
    unfold teamSelectionWeight
    rw [hpos, hOK.2.1]

/-- C6 (as amended). Let `H = int(math.Floor(float64(NumTeams) * PercentHighVolumeTeams))` and
`M = int(math.Floor(float64(NumTeams) * PercentMidVolumeTeams))`: the floor of the product
rounded to `float64` (or what the implementation makes of the conversion when that floor is not
an `int`), which lies between the floor and the ceiling of the exact product when that is below
`2^53` in absolute value. Provided `M` is not negative and the `int` sum `H + M` does not
overflow, in a run of `GenerateBulkloadFile` that returns `r` the team at position `p` of the
team permutation is of the high tier iff `p <= H`, of the mid tier iff `H < p <= H+M` and of the
low tier iff `p > H+M` (the tests are strict, so the team at a cutoff position is placed in the
earlier tier); in `r` the team has the member count of its tier and the entry of the team-choice
table of every one of its members carries the selection weight of its tier; and
`max(0, min(NumTeams, H+1))` positions are of the high tier. -/
theorem C6_team_tiering {S : Type} (env : Env S) (sched : List Actor)
    (config : LoadtestEnviromentConfig ℚ) (r : GenerateBulkloadFileResult)
    (h : GenerateBulkloadFile env sched config = .ok r)
    (hM : 0 ≤ env.floorMul config.NumTeams config.PercentMidVolumeTeams)
    (hsum : env.floorMul config.NumTeams config.PercentHighVolumeTeams
      + env.floorMul config.NumTeams config.PercentMidVolumeTeams < 2 ^ 63) :
    (∀ p teamNum : Nat, (teamPermutation env config)[p]? = some teamNum →
      (teamTierLabel env config p = Tier.high ↔
        (p : Int) ≤ env.floorMul config.NumTeams config.PercentHighVolumeTeams) ∧
      (teamTierLabel env config p = Tier.mid ↔
        env.floorMul config.NumTeams config.PercentHighVolumeTeams < (p : Int) ∧
        (p : Int) ≤ env.floorMul config.NumTeams config.PercentHighVolumeTeams
          + env.floorMul config.NumTeams config.PercentMidVolumeTeams) ∧
      (teamTierLabel env config p = Tier.low ↔
        (p : Int) > env.floorMul config.NumTeams config.PercentHighVolumeTeams
          + env.floorMul config.NumTeams config.PercentMidVolumeTeams) ∧
      ((teamMembers r ("loadtestteam" ++ Itoa teamNum)).length : Int)
        = (teamTierValues env config (teamTierLabel env config p)).1 ∧
      (∀ u ∈ r.Users, ∀ (k : Nat) (t : UserTeamImportData), u.Teams[k]? = some t →
        t.Name = "loadtestteam" ++ Itoa teamNum →
        u.TeamChoice[k]? = some
          ({ Item := .int k
             Weight := (teamTierValues env config (teamTierLabel env config p)).2 } : Choice))) ∧
    (((List.range config.NumTeams.toNat).filter
        (fun p => decide (teamTierLabel env config p = Tier.high))).length : Int)
      = max 0 (min config.NumTeams
          (env.floorMul config.NumTeams config.PercentHighVolumeTeams + 1)) ∧
    (∀ pct : ℚ,
      env.floorMul config.NumTeams pct
        = (if -2 ^ 63 ≤ ⌊roundFloat64 ((config.NumTeams : ℚ) * pct)⌋ ∧
              ⌊roundFloat64 ((config.NumTeams : ℚ) * pct)⌋ < 2 ^ 63
            then ⌊roundFloat64 ((config.NumTeams : ℚ) * pct)⌋
            else env.outOfRangeInt config.NumTeams pct) ∧
      (|(config.NumTeams : ℚ) * pct| < 2 ^ 53 →
        ⌊(config.NumTeams : ℚ) * pct⌋ ≤ env.floorMul config.NumTeams pct ∧
        env.floorMul config.NumTeams pct ≤ ⌈(config.NumTeams : ℚ) * pct⌉)) := by
  obtain ⟨hd, _⟩ := GenerateBulkloadFile_ok env sched config r h
  obtain ⟨hT0, hTmax⟩ := distribute_numTeams_le env config _ hd
  have hTlt : |config.NumTeams| < 2 ^ 53 := by
    rw [abs_of_nonneg hT0]
    omega
  obtain ⟨hH0, _⟩ := floorMul_range env config.NumTeams config.PercentHighVolumeTeams
  have hw : wrapInt64 (env.floorMul config.NumTeams config.PercentHighVolumeTeams
      + env.floorMul config.NumTeams config.PercentMidVolumeTeams)
      = env.floorMul config.NumTeams config.PercentHighVolumeTeams
        + env.floorMul config.NumTeams config.PercentMidVolumeTeams :=
    wrapInt64_eq_self _ (by omega) hsum
  have hhigh : ∀ p : Nat, teamTierLabel env config p = Tier.high ↔
      (p : Int) ≤ env.floorMul config.NumTeams config.PercentHighVolumeTeams := by
    intro p
    unfold teamTierLabel
    rw [tierOf_high_iff, hw]
    constructor
    · intro hp; exact hp.1
    · intro hp; exact ⟨hp, by omega⟩
  refine ⟨?_, ?_, ?_⟩
  · intro p teamNum hp
    obtain ⟨h1, h2⟩ := team_member_count env config r hd p teamNum hp
    rw [teamTier_eq_values] at h1 h2
    refine ⟨hhigh p, ?_, ?_, h1, ?_⟩
    · unfold teamTierLabel
      rw [tierOf_mid_iff, hw]
    · unfold teamTierLabel
      rw [tierOf_low_iff, hw]
    · intro u hu k t hk hname
      rw [teamChoice_entry env config r hd u hu k t hk, hname, ← h2]
      rfl
  · have hfun : (fun p : Nat => decide (teamTierLabel env config p = Tier.high))
        = (fun p : Nat =>
            decide ((p : Int) ≤ env.floorMul config.NumTeams config.PercentHighVolumeTeams)) := by
      funext p
      exact decide_eq_decide.mpr (hhigh p)
    rw [hfun, count_positions_le, Int.toNat_of_nonneg hT0]
  · intro pct
    exact ⟨floorMul_eq env _ pct hTlt, fun hx => floorMul_between env _ pct hTlt hx⟩

/-- The witness of C6 (as amended): the example configuration, where `H = 0` and `M = 0`; the
team at position 0 is of the high tier, the team at position 1 of the low tier. -/
theorem C6_team_tiering_witness :
    ∃ r, GenerateBulkloadFile rotatingEnv (alternating 30) exampleConfig = .ok r ∧
      (teamTierLabel rotatingEnv exampleConfig 0 = Tier.high ↔
        ((0 : Nat) : Int) ≤ rotatingEnv.floorMul exampleConfig.NumTeams
          exampleConfig.PercentHighVolumeTeams) ∧
      (((List.range exampleConfig.NumTeams.toNat).filter
          (fun p => decide (teamTierLabel rotatingEnv exampleConfig p = Tier.high))).length : Int)
        = max 0 (min exampleConfig.NumTeams
            (rotatingEnv.floorMul exampleConfig.NumTeams exampleConfig.PercentHighVolumeTeams
              + 1)) := by
  with_unfolding_all exact ⟨_, rfl,
    ((C6_team_tiering rotatingEnv (alternating 30) exampleConfig _ rfl (by decide)
      (by decide)).1 0 _ rfl).1,
    (C6_team_tiering rotatingEnv (alternating 30) exampleConfig _ rfl (by decide)
      (by decide)).2.1⟩

/-- The counterexample to C6 as stated: with the percentage `-1/2` of mid volume teams and two
teams, `H = 0` and `M = -1`; the team at position `p = 0` satisfies `p <= H`, yet it is of the
low tier and gets the member count `0` of the low tier, not the count `2` of the high tier. -/
theorem C6_counterexample_negative_mid_percentage :
    ∃ r, GenerateBulkloadFile rotatingEnv (alternating 10) negativeMidPercentConfig = .ok r ∧
      rotatingEnv.floorMul negativeMidPercentConfig.NumTeams
        negativeMidPercentConfig.PercentHighVolumeTeams = 0 ∧
      rotatingEnv.floorMul negativeMidPercentConfig.NumTeams
        negativeMidPercentConfig.PercentMidVolumeTeams = -1 ∧
      (teamPermutation rotatingEnv negativeMidPercentConfig)[0]? = some 0 ∧
      teamTierLabel rotatingEnv negativeMidPercentConfig 0 = Tier.low ∧
      (teamTierValues rotatingEnv negativeMidPercentConfig Tier.high).1 = 2 ∧
      (teamMembers r ("loadtestteam" ++ Itoa 0)).length = 0 ∧
      ¬ (teamTierLabel rotatingEnv negativeMidPercentConfig 0 = Tier.high ↔
          ((0 : Nat) : Int) ≤ rotatingEnv.floorMul negativeMidPercentConfig.NumTeams
            negativeMidPercentConfig.PercentHighVolumeTeams) := by
  with_unfolding_all exact ⟨_, rfl, by decide, by decide, by decide, by decide, by decide,
    by decide, by decide⟩

/-- The rule of the tiers without the two provisos: the second test compares the position with
the `int` sum of the two counts, which wraps around at `2^63`. -/
theorem team_tier_rule {S : Type} (env : Env S) (config : LoadtestEnviromentConfig ℚ)
    (p : Nat) :
    (teamTierLabel env config p = Tier.high ↔
      (p : Int) ≤ env.floorMul config.NumTeams config.PercentHighVolumeTeams ∧
      (p : Int) ≤ wrapInt64 (env.floorMul config.NumTeams config.PercentHighVolumeTeams
        + env.floorMul config.NumTeams config.PercentMidVolumeTeams)) ∧
    (teamTierLabel env config p = Tier.mid ↔
      env.floorMul config.NumTeams config.PercentHighVolumeTeams < (p : Int) ∧
      (p : Int) ≤ wrapInt64 (env.floorMul config.NumTeams config.PercentHighVolumeTeams
        + env.floorMul config.NumTeams config.PercentMidVolumeTeams)) ∧
    (teamTierLabel env config p = Tier.low ↔
      (p : Int) > wrapInt64 (env.floorMul config.NumTeams config.PercentHighVolumeTeams
        + env.floorMul config.NumTeams config.PercentMidVolumeTeams)) := by
  unfold teamTierLabel
  exact ⟨tierOf_high_iff p _ _, tierOf_mid_iff p _ _, tierOf_low_iff p _ _⟩

/-- The percentages `4e18` of high and of mid volume teams with two teams: `H = M = 8e18`, the
`int` sum `H + M` wraps around to a negative number, and the team at position 0 is of the low
tier and has no member, although `0 <= H`. -/
theorem team_tier_when_the_sum_overflows :
    ∃ r, GenerateBulkloadFile rotatingEnv (alternating 10) overflowingPercentConfig = .ok r ∧
      rotatingEnv.floorMul overflowingPercentConfig.NumTeams
        overflowingPercentConfig.PercentHighVolumeTeams = 8 * 10 ^ 18 ∧
      rotatingEnv.floorMul overflowingPercentConfig.NumTeams
        overflowingPercentConfig.PercentMidVolumeTeams = 8 * 10 ^ 18 ∧
      wrapInt64 (8 * 10 ^ 18 + 8 * 10 ^ 18) = 16 * 10 ^ 18 - 2 ^ 64 ∧
      (teamPermutation rotatingEnv overflowingPercentConfig)[0]? = some 0 ∧
      teamTierLabel rotatingEnv overflowingPercentConfig 0 = Tier.low ∧
      (teamMembers r ("loadtestteam" ++ Itoa 0)).length = 0 := by
  with_unfolding_all exact ⟨_, rfl, by decide, by decide, by decide, by decide, by decide,
    by decide⟩

set_option maxRecDepth 8000

/-! ## C16: a failed fetch in the loop over the teams -/

/-- The requests made for the first teams of a list open the requests made for the whole
list. -/
theorem processTeams_events_append (w : World) (fuel : Nat) (config : LoadtestEnviromentConfig ℚ)
    (statement : Option String) (n : Int) (rest : List ModelTeam) :
    ∀ (pre : List ModelTeam) (teamIndex : Nat),
      ∃ tail, (processTeams w fuel config statement n teamIndex (pre ++ rest)).1
        = (processTeams w fuel config statement n teamIndex pre).1 ++ tail := by
  intro pre
  induction pre with
  | nil =>
    intro teamIndex
    refine ⟨(processTeams w fuel config statement n teamIndex rest).1, ?_⟩
    simp only [List.nil_append]
    rfl
  | cons team more ih =>
    intro teamIndex
    obtain ⟨tail, ht⟩ := ih (teamIndex + 1)
    simp only [List.cons_append]
    unfold processTeams
    cases hp : processTeam w fuel config statement n teamIndex team with
    | mk events res =>
      cases res with
      | error o => exact ⟨[], by simp⟩
      | ok u =>
        simp only
        exact ⟨tail, by rw [ht, List.append_assoc]⟩

/-- When the teams before `t` are processed to the end and the processing of `t` ends the run,
the requests of the run are those of the teams before `t` followed by those of `t`. -/
theorem processTeams_events_stop (w : World) (fuel : Nat) (config : LoadtestEnviromentConfig ℚ)
    (statement : Option String) (n : Int) (t : ModelTeam) (post : List ModelTeam) (o : Outcome) :
    ∀ (pre : List ModelTeam) (teamIndex : Nat),
      (processTeams w fuel config statement n teamIndex pre).2 = .ok () →
      (processTeam w fuel config statement n (teamIndex + pre.length) t).2 = .error o →
      (processTeams w fuel config statement n teamIndex (pre ++ t :: post)).1
        = (processTeams w fuel config statement n teamIndex pre).1
          ++ (processTeam w fuel config statement n (teamIndex + pre.length) t).1 := by
  intro pre
  induction pre with
  | nil =>
    intro teamIndex _ ho
    simp only [List.length_nil, Nat.add_zero] at ho ⊢
    simp only [List.nil_append]
    unfold processTeams
    cases hp : processTeam w fuel config statement n teamIndex t with
    | mk events res =>
      rw [hp] at ho
      simp only at ho
      subst ho
      rfl
  | cons team more ih =>
    intro teamIndex hpre ho
    have hidx : teamIndex + (team :: more).length = teamIndex + 1 + more.length := by
      simp only [List.length_cons]
      omega
    rw [hidx] at ho ⊢
    simp only [List.cons_append]
    unfold processTeams at hpre ⊢
    cases hp : processTeam w fuel config statement n teamIndex team with
    | mk events res =>
      rw [hp] at hpre
      cases res with
      | error o2 => cases hpre
      | ok u =>
        simp only at hpre ⊢
        rw [ih (teamIndex + 1) hpre ho, List.append_assoc]

/-- C16 (as amended). In `LoadPosts`, a failure to fetch the channels or the users of a team
(whose name has the prefix) ends the whole run: `statement.Close` is not reached, and no request
is made and no insert executed for any later team (a team further down the list whose id
differs from the ids of the teams up to the failing one).  The requests and the inserts of the
earlier teams remain: the run begins with the five opening requests followed by all the
requests and inserts of the loop over the teams before the failing one; and when these teams
were processed to the end, `LoadPosts` returns at the failure and the run consists of exactly
the opening requests, the requests and inserts of the earlier teams and the requests of the
failing team. -/
theorem C16_fetch_failure_ends_the_run (w : World) (fuel : Nat)
    (config : LoadtestEnviromentConfig ℚ) (pre : List ModelTeam) (t : ModelTeam)
    (post : List ModelTeam)
    (hopen : w.openError = false) (hping : w.pingError = false)
    (hteams : w.GetAllTeams = some (pre ++ t :: post))
    (hname : HasPrefix t.Name "loadtestteam" = true)
    (hfail : (fetchChannels w t.Id fuel 0 []).2 = .error .returned ∨
      ∃ channels, (fetchChannels w t.Id fuel 0 []).2 = .ok channels ∧
        (fetchUsers w t.Id 50 0 0 []).2 = .error .returned) :
    Event.close ∉ (LoadPosts w fuel config).events ∧
    (∀ later, later ∈ post → (∀ earlier, earlier ∈ pre ++ [t] → earlier.Id ≠ later.Id) →
      ∀ e, e ∈ (LoadPosts w fuel config).events → e.isAbout later.Id = false) ∧
    ((processTeams w fuel config (if w.prepareError then none else some statementStr)
        (numPostsPerChannel w.implementationDependent config) 0 pre).2 = .ok () →
      (LoadPosts w fuel config).outcome = .returned) ∧
    (∃ tail, (LoadPosts w fuel config).events
      = [.dbOpen, .dbPing, .login, .getAllTeams (config.NumTeams + 200), .prepare statementStr]
        ++ (processTeams w fuel config (if w.prepareError then none else some statementStr)
            (numPostsPerChannel w.implementationDependent config) 0 pre).1
        ++ tail) ∧
    ((processTeams w fuel config (if w.prepareError then none else some statementStr)
        (numPostsPerChannel w.implementationDependent config) 0 pre).2 = .ok () →
      (LoadPosts w fuel config).events
        = [.dbOpen, .dbPing, .login, .getAllTeams (config.NumTeams + 200),
            .prepare statementStr]
          ++ (processTeams w fuel config (if w.prepareError then none else some statementStr)
              (numPostsPerChannel w.implementationDependent config) 0 pre).1
          ++ (processTeam w fuel config (if w.prepareError then none else some statementStr)
              (numPostsPerChannel w.implementationDependent config) pre.length t).1) := by
  have hstop := processTeam_fetch_failure w fuel config
    (if w.prepareError then none else some statementStr)
    (numPostsPerChannel w.implementationDependent config)
  obtain ⟨heq, o, ho⟩ := processTeams_stop w fuel config
    (if w.prepareError then none else some statementStr)
    (numPostsPerChannel w.implementationDependent config) t post pre 0
    ⟨.returned, hstop _ t hname hfail⟩
  have hrun0 : (LoadPosts w fuel config).events
      = [.dbOpen, .dbPing, .login, .getAllTeams (config.NumTeams + 200), .prepare statementStr]
        ++ (processTeams w fuel config (if w.prepareError then none else some statementStr)
            (numPostsPerChannel w.implementationDependent config) 0 (pre ++ t :: post)).1 := by
    rw [LoadPosts_of_teams w fuel config (pre ++ t :: post) _ hopen hping hteams rfl, ho]
  have hrun : (LoadPosts w fuel config).events
      = [.dbOpen, .dbPing, .login, .getAllTeams (config.NumTeams + 200), .prepare statementStr]
        ++ (processTeams w fuel config (if w.prepareError then none else some statementStr)
            (numPostsPerChannel w.implementationDependent config) 0 (pre ++ [t])).1 := by
    rw [hrun0, heq]
  have hmem : ∀ e, e ∈ (LoadPosts w fuel config).events →
      e.isAbout "" = false ∧ e ≠ .close ∨
      ∃ team, team ∈ pre ++ [t] ∧ e.isAbout team.Id = true := by
    intro e he
    rw [hrun, List.mem_append] at he
    rcases he with he | he
    · left
      simp only [List.mem_cons, List.mem_singleton, List.not_mem_nil, or_false] at he
      rcases he with he | he | he | he | he <;> subst he <;> exact ⟨rfl, by simp⟩
    · exact Or.inr (processTeams_events w fuel config _ _ _ 0 e he)
  refine ⟨?_, ?_, ?_, ?_, ?_⟩
  · intro hclose
    rcases hmem _ hclose with ⟨_, hne⟩ | ⟨team, _, hab⟩
    · exact hne rfl
    · simp [Event.isAbout] at hab
  · intro later _ hdistinct e he
    cases hl : e.isAbout later.Id with
    | false => rfl
    | true =>
      rcases hmem e he with ⟨_, _⟩ | ⟨team, hteam, hab⟩
      · rw [hrun, List.mem_append] at he
        rcases he with he | he
        · simp only [List.mem_cons, List.mem_singleton, List.not_mem_nil, or_false] at he
          rcases he with he | he | he | he | he <;> subst he <;> simp [Event.isAbout] at hl
        · obtain ⟨team, hteam, hab⟩ := processTeams_events w fuel config _ _ _ 0 e he
          exact absurd (Event.isAbout_unique _ _ e hab hl) (hdistinct team hteam)
      · exact absurd (Event.isAbout_unique _ _ e hab hl) (hdistinct team hteam)
  · intro hpre
    have hout := processTeams_stop_outcome w fuel config
      (if w.prepareError then none else some statementStr)
      (numPostsPerChannel w.implementationDependent config) t post .returned pre 0 hpre
      (hstop _ t hname hfail)
    rw [LoadPosts_of_teams w fuel config (pre ++ t :: post) _ hopen hping hteams rfl, hout]
  · obtain ⟨tail, ht⟩ := processTeams_events_append w fuel config
      (if w.prepareError then none else some statementStr)
      (numPostsPerChannel w.implementationDependent config) (t :: post) pre 0
    exact ⟨tail, by rw [hrun0, ht, List.append_assoc]⟩
  · intro hpre
    have hev := processTeams_events_stop w fuel config
      (if w.prepareError then none else some statementStr)
      (numPostsPerChannel w.implementationDependent config) t post .returned pre 0 hpre
      (hstop _ t hname hfail)
    rw [Nat.zero_add] at hev
    rw [hrun0, hev, List.append_assoc]

/-- The witness of C16 (as amended): three teams, of which the first is processed to the end
(its two channels get one insert each) and the second fails at the request for its channels;
the run keeps the requests and the two inserts of the first team and makes no request for the
third. -/
theorem C16_fetch_failure_ends_the_run_witness :
    Event.close ∉ (LoadPosts secondTeamFailsWorld 10 loadPostsConfig).events ∧
    (∀ e, e ∈ (LoadPosts secondTeamFailsWorld 10 loadPostsConfig).events →
      e.isAbout "team2" = false) ∧
    (LoadPosts secondTeamFailsWorld 10 loadPostsConfig).outcome = .returned ∧
    (LoadPosts secondTeamFailsWorld 10 loadPostsConfig).events
      = [.dbOpen, .dbPing, .login, .getAllTeams 202, .prepare statementStr]
        ++ (processTeams secondTeamFailsWorld 10 loadPostsConfig (some statementStr) 100 0
            [{ Id := "team0", Name := "loadtestteam0" }]).1
        ++ [.getPublicChannelsForTeam "team1" 0] ∧
    ((processTeams secondTeamFailsWorld 10 loadPostsConfig (some statementStr) 100 0
        [{ Id := "team0", Name := "loadtestteam0" }]).1.filter Event.isExec).length = 2 :=
  have hn := numPostsPerChannel_loadPostsConfig secondTeamFailsWorld.implementationDependent
  have hpre : (processTeams secondTeamFailsWorld 10 loadPostsConfig
      (if secondTeamFailsWorld.prepareError then none else some statementStr)
      (numPostsPerChannel secondTeamFailsWorld.implementationDependent loadPostsConfig) 0
      [{ Id := "team0", Name := "loadtestteam0" }]).2 = .ok () := by
    rw [hn]
    rfl
  have h := C16_fetch_failure_ends_the_run secondTeamFailsWorld 10 loadPostsConfig
    [{ Id := "team0", Name := "loadtestteam0" }]
    { Id := "team1", Name := "loadtestteam1" } [{ Id := "team2", Name := "loadtestteam2" }]
    rfl rfl rfl (by decide) (Or.inl rfl)
  ⟨h.1, h.2.1 { Id := "team2", Name := "loadtestteam2" } (by simp) (by simp), h.2.2.1 hpre,
    by
      have h5 := h.2.2.2.2 hpre
      rw [hn] at h5
      exact h5,
    rfl⟩

set_option maxRecDepth 8000

/-! ## C18, C19: the batches of a channel and their values -/

/-- The users of a team whose fetch ends without a failure are not empty: an empty page panics
at line 436. -/
theorem fetchUsers_ne_nil (w : World) (teamId : String) :
    ∀ (fuel page total : Nat) (acc : List ModelUser) (events : List Event)
      (users : List ModelUser),
      fetchUsers w teamId fuel page total acc = (events, .ok users) → users ≠ [] := by
  intro fuel
  induction fuel with
  | zero =>
    intro page total acc events users h
    simp [fetchUsers] at h
  | succ fuel ih =>
    intro page total acc events users h
    unfold fetchUsers at h
    cases hg : w.GetUsersInTeam teamId page with
    | none =>
      rw [hg] at h
      simp at h
    | some newusers =>
      rw [hg] at h
      cases newusers with
      | nil => simp at h
      | cons a rest =>
        simp only at h
        split at h
        · simp only [Prod.mk.injEq, Except.ok.injEq] at h
          rw [← h.2]
          simp
        · split at h
          · simp only [Prod.mk.injEq] at h
            exact ih _ _ _ _ _ (Prod.ext rfl h.2)
          · simp only [Prod.mk.injEq, Except.ok.injEq] at h
            rw [← h.2]
            simp

/-- C18 (as amended). In `LoadPosts`, for a per-channel target `n`, when `PostTimeRange` is
positive and the insert statement was prepared, the loop of a channel (of a team with a user,
for a channel that exists: both hold for every call that `LoadPosts` makes; and for
`n <= 2^63 - 100`, so that the counter `i` of the loop stays an `int`) submits exactly
`ceil(n / 100)` batches (none when `n <= 0`), each with exactly 100 posts:
`100 * ceil(n / 100)` posts, at least `n` and less than `n + 100`.  The result of `Exec` is
only recorded: whatever calls fail, the number of batches is the same. -/
theorem C18_batches_per_channel (config : LoadtestEnviromentConfig ℚ)
    (draws : PostDraws) (users : List ModelUser) (channels : List ModelChannel)
    (channelNum : Nat) (query : String) (execError : Nat → Bool) (n : Int)
    (hrange : 0 < config.PostTimeRange) (husers : users ≠ [])
    (hchannel : channelNum < channels.length) (hn : n ≤ 2 ^ 63 - 100) :
    ∃ calls roots,
      fabricateChannel config draws users channels channelNum (some query) execError n
        = .ok (calls, roots) ∧
      calls.length = batchCount n ∧
      (n ≤ 0 → calls = []) ∧
      n ≤ 100 * (calls.length : Int) ∧
      (0 < n → 100 * (calls.length : Int) < n + 100) ∧
      (∀ b : Nat, b < calls.length → 100 * (b : Int) + 100 < 2 ^ 63) ∧
      ∀ (b : Nat) (call : ExecCall), calls[b]? = some call →
        call.failed = execError (100 * b) ∧
        call.vals.length = 1800 ∧
        ∃ rows : List PostRow, rows.length = 100 ∧ call.vals = rows.flatMap PostRow.values := by
  obtain ⟨calls, roots, h⟩ :=
    fabricateChannel_succeeds config draws users channels channelNum query execError n hrange
      husers hchannel
  obtain ⟨hc, _, _, hcalls⟩ :=
    fabricateChannel_ok config draws users channels channelNum _ execError n calls roots h
  refine ⟨calls, roots, h, hc, ?_, ?_, ?_, ?_, ?_⟩
  · intro hn0
    apply List.length_eq_zero.mp
    rw [hc]
    unfold batchCount
    omega
  · rw [hc]
    unfold batchCount
    omega
  · intro hn0
    rw [hc]
    unfold batchCount
    omega
  · intro b hb
    rw [hc] at hb
    unfold batchCount at hb
    omega
  · intro b call hb
    obtain ⟨hf, rows, hlen, hvals, _⟩ := hcalls b call hb
    exact ⟨hf, by rw [hvals, length_flatMap_values, hlen], rows, hlen, hvals⟩

/-- The witness of C18 (as amended): the target 166 gives 2 batches, the first of which
fails. -/
theorem C18_batches_per_channel_witness :
    ∃ calls roots,
      fabricateChannel (postsConfig 2 3 1000 100 0) zeroDraws threeUsers twoChannels 0
        (some statementStr) (fun i => decide (i = 0)) 166 = .ok (calls, roots) ∧
      calls.length = batchCount 166 ∧
      ((166 : Int) ≤ 0 → calls = []) ∧
      (166 : Int) ≤ 100 * (calls.length : Int) ∧
      ((0 : Int) < 166 → 100 * (calls.length : Int) < 166 + 100) ∧
      (∀ b : Nat, b < calls.length → 100 * (b : Int) + 100 < 2 ^ 63) ∧
      ∀ (b : Nat) (call : ExecCall), calls[b]? = some call →
        call.failed = (fun i => decide (i = 0)) (100 * b) ∧
        call.vals.length = 1800 ∧
        ∃ rows : List PostRow, rows.length = 100 ∧ call.vals = rows.flatMap PostRow.values :=
  C18_batches_per_channel (postsConfig 2 3 1000 100 0) zeroDraws threeUsers twoChannels 0
    statementStr (fun i => decide (i = 0)) 166 (by decide) (by decide) (by decide) (by decide)

/-- The counterexample to C18 as stated: for the target 166 the claim has the loop of the
channel submit `ceil(166 / 100) = 2` batches.  With `PostTimeRange = 0` the first call of
`rand.Int63n` panics, and with a statement that was not prepared the first call of
`statement.Exec` panics on the nil statement: in both runs the loop ends in a panic and no
batch is submitted. -/
theorem C18_counterexample_no_batch_submitted :
    batchCount 166 = 2 ∧
    fabricateChannel (postsConfig 2 3 1000 0 0) zeroDraws threeUsers twoChannels 0
      (some statementStr) (fun _ => false) 166 = .error .invalidArgumentInt63n ∧
    fabricateChannel (postsConfig 2 3 1000 100 0) zeroDraws threeUsers twoChannels 0
      none (fun _ => false) 166 = .error .nilDereference :=
  ⟨rfl, rfl, rfl⟩

/-! ### The values of a batch -/

/-- The value of `parentRoot` that lines 461-468 compute. -/
theorem pickParentRoot_value (config : LoadtestEnviromentConfig ℚ) (draws : PostDraws)
    (i j : Nat) (id : String) (roots : List String) (pr : String) (roots1 : List String)
    (h : pickParentRoot config draws i j id roots = .ok (pr, roots1)) :
    pr = (if j = 0 then ""
      else if draws.Float64 i j < config.ReplyChance then
        (roots[draws.Intn i j roots.length]?).getD ""
      else "") := by
  unfold pickParentRoot at h
  by_cases hj : j = 0
  · rw [if_pos hj] at h
    cases h
    rw [if_pos hj]
  · rw [if_neg hj] at h
    rw [if_neg hj]
    by_cases hreply : draws.Float64 i j < config.ReplyChance
    · rw [if_pos hreply] at h
      rw [if_pos hreply]
      by_cases hlen : roots.length = 0
      · rw [if_pos hlen] at h
        cases h
      · rw [if_neg hlen] at h
        cases hidx : index roots (draws.Intn i j roots.length) with
        | error e => rw [hidx] at h; cases h
        | ok root =>
          rw [hidx] at h
          cases h
          rw [(index_eq_ok _ _ _).mp hidx]
          rfl
    · rw [if_neg hreply] at h
      rw [if_neg hreply]
      cases h
      rfl

/-- A post that is fabricated: the 18 values appended for it. -/
theorem fabricatePost_row (config : LoadtestEnviromentConfig ℚ) (draws : PostDraws)
    (users : List ModelUser) (channels : List ModelChannel) (channelNum i j : Nat)
    (st st1 : List SqlValue × List String)
    (h : fabricatePost config draws users channels channelNum i j st = .ok st1) :
    ∃ (user : ModelUser) (channel : ModelChannel),
      users[(j + i + channelNum) % users.length]? = some user ∧
      channels[channelNum]? = some channel ∧
      st1.1 = st.1 ++ (mkPostRow (draws.NewId i j) (draws.Now i j - draws.Int63n i j) user.Id
        channel.Id
        (if j = 0 then ""
          else if draws.Float64 i j < config.ReplyChance then
            (st.2[draws.Intn i j st.2.length]?).getD ""
          else "")
        ("PL" ++ draws.SentencesN i j)).values := by
  unfold fabricatePost at h
  simp only at h
  by_cases hr : config.PostTimeRange ≤ 0
  · rw [if_pos hr] at h
    cases h
  · rw [if_neg hr] at h
    cases hp : pickParentRoot config draws i j (draws.NewId i j) st.2 with
    | error e => rw [hp] at h; cases h
    | ok pr =>
      obtain ⟨parentRoot, roots1⟩ := pr
      rw [hp] at h
      simp only at h
      by_cases hu : users.length = 0
      · rw [if_pos hu] at h
        cases h
      · rw [if_neg hu] at h
        cases hiu : index users ((j + i + channelNum) % users.length) with
        | error e => rw [hiu] at h; cases h
        | ok user =>
          rw [hiu] at h
          simp only at h
          cases hic : index channels channelNum with
          | error e => rw [hic] at h; cases h
          | ok channel =>
            rw [hic] at h
            simp only at h
            cases h
            refine ⟨user, channel, (index_eq_ok _ _ _).mp hiu, (index_eq_ok _ _ _).mp hic, ?_⟩
            rw [← pickParentRoot_value config draws i j _ _ _ _ hp]
            rfl

/-- The posts of the batch that starts at `i`, when `rootPosts` is `roots` before the batch. -/
theorem fabricatePosts_rows (config : LoadtestEnviromentConfig ℚ) (draws : PostDraws)
    (users : List ModelUser) (channels : List ModelChannel) (channelNum i : Nat)
    (roots : List String) (n : Nat) (st1 : List SqlValue × List String)
    (h : forLoop n (fabricatePost config draws users channels channelNum i) ([], roots)
      = .ok st1) :
    ∃ rows : List PostRow, rows.length = n ∧ st1.1 = rows.flatMap PostRow.values ∧
      ∀ j row, rows[j]? = some row →
        ∃ (user : ModelUser) (channel : ModelChannel),
          users[(j + i + channelNum) % users.length]? = some user ∧
          channels[channelNum]? = some channel ∧
          row = mkPostRow (draws.NewId i j) (draws.Now i j - draws.Int63n i j) user.Id
            channel.Id
            (if j = 0 then ""
              else if draws.Float64 i j < config.ReplyChance then
                ((roots ++ [draws.NewId i 0])[draws.Intn i j (roots.length + 1)]?).getD ""
              else "")
            ("PL" ++ draws.SentencesN i j) := by
  have hinv := forLoop_invariant
    (fun k (st : List SqlValue × List String) =>
      ∃ rows : List PostRow, rows.length = k ∧ st.1 = rows.flatMap PostRow.values ∧
        (k = 0 → st.2 = roots) ∧ (0 < k → st.2 = roots ++ [draws.NewId i 0]) ∧
        ∀ j row, rows[j]? = some row →
          ∃ (user : ModelUser) (channel : ModelChannel),
            users[(j + i + channelNum) % users.length]? = some user ∧
            channels[channelNum]? = some channel ∧
            row = mkPostRow (draws.NewId i j) (draws.Now i j - draws.Int63n i j) user.Id
              channel.Id
              (if j = 0 then ""
                else if draws.Float64 i j < config.ReplyChance then
                  ((roots ++ [draws.NewId i 0])[draws.Intn i j (roots.length + 1)]?).getD ""
                else "")
              ("PL" ++ draws.SentencesN i j))
    n _ _ st1 ?_ ?_ h
  · obtain ⟨rows, h1, h2, _, _, h5⟩ := hinv
    exact ⟨rows, h1, h2, h5⟩
  · exact ⟨[], rfl, rfl, fun _ => rfl, fun h0 => absurd h0 (Nat.lt_irrefl 0),
      fun j row hr => by simp at hr⟩
  · intro k st st2 _ hinv hb
    obtain ⟨rows, hlen, hvals, hzero, hpos, hrows⟩ := hinv
    obtain ⟨_, _, _, _, _, _, hj0, hjne, _⟩ :=
      fabricatePost_ok config draws users channels channelNum i k st st2 hb
    obtain ⟨user, channel, hu, hc, hv⟩ :=
      fabricatePost_row config draws users channels channelNum i k st st2 hb
    refine ⟨rows ++ [mkPostRow (draws.NewId i k) (draws.Now i k - draws.Int63n i k) user.Id
        channel.Id
        (if k = 0 then ""
          else if draws.Float64 i k < config.ReplyChance then
            (st.2[draws.Intn i k st.2.length]?).getD ""
          else "")
        ("PL" ++ draws.SentencesN i k)], ?_, ?_, ?_, ?_, ?_⟩
    · simp [hlen]
    · rw [hv, hvals, flatMap_append_singleton]
    · intro hk
      omega
    · intro _
      by_cases hk : k = 0
      · subst hk
        rw [(hj0 rfl).2, hzero rfl]
      · rw [(hjne hk).1, hpos (Nat.pos_of_ne_zero hk)]
    · intro j row hr
      rcases getElem?_append_singleton _ _ _ _ hr with hold | ⟨hjk, hrow⟩
      · exact hrows j row hold
      · rw [hlen] at hjk
        subst hjk
        refine ⟨user, channel, hu, hc, ?_⟩
        rw [hrow]
        by_cases hk : j = 0
        · simp only [if_pos hk]
        · simp only [if_neg hk]
          rw [hpos (Nat.pos_of_ne_zero hk)]
          simp only [List.length_append, List.length_singleton]

/-- A batch that is submitted: the values of its call of `Exec`. -/
theorem fabricateBatch_rows (config : LoadtestEnviromentConfig ℚ) (draws : PostDraws)
    (users : List ModelUser) (channels : List ModelChannel) (channelNum : Nat)
    (statement : Option String) (execError : Nat → Bool) (i : Nat)
    (st st1 : List ExecCall × List String)
    (h : fabricateBatch config draws users channels channelNum statement execError i st
      = .ok st1) :
    st1.2 = st.2 ++ [draws.NewId i 0] ∧
    ∃ rows : List PostRow, rows.length = 100 ∧
      st1.1 = st.1 ++ [{ vals := rows.flatMap PostRow.values, failed := execError i }] ∧
      ∀ j row, rows[j]? = some row →
        ∃ (user : ModelUser) (channel : ModelChannel),
          users[(j + i + channelNum) % users.length]? = some user ∧
          channels[channelNum]? = some channel ∧
          row = mkPostRow (draws.NewId i j) (draws.Now i j - draws.Int63n i j) user.Id
            channel.Id
            (if j = 0 then ""
              else if draws.Float64 i j < config.ReplyChance then
                ((st.2 ++ [draws.NewId i 0])[draws.Intn i j (st.2.length + 1)]?).getD ""
              else "")
            ("PL" ++ draws.SentencesN i j) := by
  obtain ⟨hroots, _⟩ :=
    fabricateBatch_ok config draws users channels channelNum statement execError i st st1 h
  refine ⟨hroots, ?_⟩
  unfold fabricateBatch at h
  cases hl : forLoop 100 (fabricatePost config draws users channels channelNum i) ([], st.2) with
  | error e => rw [hl] at h; cases h
  | ok r =>
    obtain ⟨vals, rootPosts⟩ := r
    rw [hl] at h
    simp only at h
    cases statement with
    | none => cases h
    | some q =>
      simp only at h
      cases h
      obtain ⟨rows, hlen, hvals, hrows⟩ :=
        fabricatePosts_rows config draws users channels channelNum i st.2 100 _ hl
      simp only at hvals
      exact ⟨rows, hlen, by rw [hvals], hrows⟩

theorem getElem?_roots (draws : PostDraws) (q k : Nat) (hk : k < q + 1) :
    ((((List.range q).map (fun b => draws.NewId (100 * b) 0)) ++ [draws.NewId (100 * q) 0])[k]?).getD
        ""
      = draws.NewId (100 * k) 0 := by
  have : ((List.range q).map (fun b => draws.NewId (100 * b) 0)) ++ [draws.NewId (100 * q) 0]
      = (List.range (q + 1)).map (fun b => draws.NewId (100 * b) 0) := by
    rw [List.range_succ, List.map_append]
    rfl
  rw [this, List.getElem?_map, List.getElem?_range hk]
  rfl

/-- The values of every call of `Exec` of a channel whose loop ends. -/
theorem fabricateChannel_rows (config : LoadtestEnviromentConfig ℚ) (draws : PostDraws)
    (users : List ModelUser) (channels : List ModelChannel) (channelNum : Nat)
    (statement : Option String) (execError : Nat → Bool) (n : Int)
    (calls : List ExecCall) (roots : List String)
    (h : fabricateChannel config draws users channels channelNum statement execError n
      = .ok (calls, roots)) :
    ∀ b call, calls[b]? = some call →
      ∃ rows : List PostRow, rows.length = 100 ∧ call.vals = rows.flatMap PostRow.values ∧
        ∀ j row, rows[j]? = some row →
          ∃ (user : ModelUser) (channel : ModelChannel),
            users[(j + 100 * b + channelNum) % users.length]? = some user ∧
            channels[channelNum]? = some channel ∧
            row = mkPostRow (draws.NewId (100 * b) j)
              (draws.Now (100 * b) j - draws.Int63n (100 * b) j) user.Id channel.Id
              (if j = 0 then ""
                else if draws.Float64 (100 * b) j < config.ReplyChance then
                  draws.NewId (100 * draws.Intn (100 * b) j (b + 1)) 0
                else "")
              ("PL" ++ draws.SentencesN (100 * b) j) := by
  rw [fabricateChannel_eq] at h
  have hinv := forLoop_invariant
    (fun q (st : List ExecCall × List String) =>
      st.1.length = q ∧ st.2 = (List.range q).map (fun b => draws.NewId (100 * b) 0) ∧
      ∀ b call, st.1[b]? = some call →
        ∃ rows : List PostRow, rows.length = 100 ∧ call.vals = rows.flatMap PostRow.values ∧
          ∀ j row, rows[j]? = some row →
            ∃ (user : ModelUser) (channel : ModelChannel),
              users[(j + 100 * b + channelNum) % users.length]? = some user ∧
              channels[channelNum]? = some channel ∧
              row = mkPostRow (draws.NewId (100 * b) j)
                (draws.Now (100 * b) j - draws.Int63n (100 * b) j) user.Id channel.Id
                (if j = 0 then ""
                  else if draws.Float64 (100 * b) j < config.ReplyChance then
                    draws.NewId (100 * draws.Intn (100 * b) j (b + 1)) 0
                  else "")
                ("PL" ++ draws.SentencesN (100 * b) j))
    (batchCount n) _ _ (calls, roots) ?_ ?_ h
  · exact hinv.2.2
  · exact ⟨rfl, rfl, fun b call hc => by simp at hc⟩
  · intro q st st1 _ hinv hb
    obtain ⟨hc, hr, hcalls⟩ := hinv
    obtain ⟨hroots, rows, hlen, hcalls1, hrows⟩ :=
      fabricateBatch_rows config draws users channels channelNum statement execError (100 * q)
        st st1 hb
    refine ⟨by rw [hcalls1]; simp [hc], ?_, ?_⟩
    · rw [hroots, hr, List.range_succ, List.map_append]
      rfl
    · intro b call hcall
      rw [hcalls1] at hcall
      rcases getElem?_append_singleton _ _ _ _ hcall with hold | ⟨hbq, hnew⟩
      · exact hcalls b call hold
      · rw [hc] at hbq
        subst hbq
        subst hnew
        refine ⟨rows, hlen, rfl, ?_⟩
        intro j row hj
        obtain ⟨user, channel, hu, hch, hrow⟩ := hrows j row hj
        refine ⟨user, channel, hu, hch, ?_⟩
        rw [hrow]
        by_cases hk : j = 0
        · simp only [if_pos hk]
        · simp only [if_neg hk]
          by_cases hreply : draws.Float64 (100 * b) j < config.ReplyChance
          · simp only [if_pos hreply]
            have hlenr : st.2.length = b := by rw [hr]; simp
            rw [hlenr, hr, getElem?_roots draws b _ (draws.Intn_lt _ _ _ (Nat.succ_pos b))]
          · simp only [if_neg hreply]

/-- C19. The insert statement names the 18 columns of `postColumns` and has exactly 100 row
groups of 18 placeholders, separated by commas, with no trailing comma; every call of `Exec`
passes exactly 1800 values: for each of the 100 posts of the batch, in the order of the batch,
the values of the 18 columns in the order of `postColumns`.  For post `j` of batch `b` of the
channel (`i = 100 * b`) these are: the new id; as `CreateAt` and as `UpdateAt` the time drawn
(`time.Now().Unix() - rand.Int63n(...)`); `0` for `EditAt`, `DeleteAt` and `IsPinned`; the id
of the user at index `(j + i + channelNum) % len(users)`; the id of the channel; as `RootId` and
as `ParentId` the value `parentRoot` (empty for `j = 0` and when no reply is drawn, else the id
of the root drawn, the first post of batch `rand.Intn(b + 1)`); the empty `OriginalId`; the
message `"PL"` followed by the sentence drawn; the empty `Type`; the `Props` `"{}"`; the empty
`Hashtags`; `"[]"` for `Filenames` and `FileIds`; and `0` for `HasReactions`. -/
theorem C19_insert_statement_and_values (config : LoadtestEnviromentConfig ℚ)
    (draws : PostDraws) (users : List ModelUser) (channels : List ModelChannel)
    (channelNum : Nat) (statement : Option String) (execError : Nat → Bool) (n : Int)
    (calls : List ExecCall) (roots : List String)
    (h : fabricateChannel config draws users channels channelNum statement execError n
      = .ok (calls, roots)) :
    postColumns
      = ["Id", "CreateAt", "UpdateAt", "EditAt", "DeleteAt", "IsPinned", "UserId", "ChannelId",
         "RootId", "ParentId", "OriginalId", "Message", "Type", "Props", "Hashtags",
         "Filenames", "FileIds", "HasReactions"] ∧
    postColumns.length = 18 ∧
    statementStr
      = "INSERT INTO Posts (" ++ ", ".intercalate postColumns ++ ") VALUES "
        ++ ",".intercalate
            (List.replicate 100 ("(" ++ ", ".intercalate (List.replicate 18 "?") ++ ")")) ∧
    ∀ (b : Nat) (call : ExecCall), calls[b]? = some call →
      call.vals.length = 1800 ∧
      ∃ rows : List PostRow, rows.length = 100 ∧
        call.vals = rows.flatMap (fun row => postColumns.filterMap row.column) ∧
        call.vals = rows.flatMap (fun row =>
          [SqlValue.str row.Id, SqlValue.int row.CreateAt, SqlValue.int row.UpdateAt,
           SqlValue.int row.EditAt, SqlValue.int row.DeleteAt, SqlValue.int row.IsPinned,
           SqlValue.str row.UserId, SqlValue.str row.ChannelId, SqlValue.str row.RootId,
           SqlValue.str row.ParentId, SqlValue.str row.OriginalId, SqlValue.str row.Message,
           SqlValue.str row.Type_, SqlValue.str row.Props, SqlValue.str row.Hashtags,
           SqlValue.str row.Filenames, SqlValue.str row.FileIds,
           SqlValue.int row.HasReactions]) ∧
        ∀ (j : Nat) (row : PostRow), rows[j]? = some row →
          row.Id = draws.NewId (100 * b) j ∧
          row.CreateAt = draws.Now (100 * b) j - draws.Int63n (100 * b) j ∧
          row.CreateAt = row.UpdateAt ∧
          row.EditAt = 0 ∧ row.DeleteAt = 0 ∧ row.IsPinned = 0 ∧
          (∃ user : ModelUser,
            users[(j + 100 * b + channelNum) % users.length]? = some user ∧
            row.UserId = user.Id) ∧
          (∃ channel : ModelChannel,
            channels[channelNum]? = some channel ∧ row.ChannelId = channel.Id) ∧
          row.RootId
            = (if j = 0 then ""
                else if draws.Float64 (100 * b) j < config.ReplyChance then
                  draws.NewId (100 * draws.Intn (100 * b) j (b + 1)) 0
                else "") ∧
          row.ParentId = row.RootId ∧
          row.OriginalId = "" ∧
          row.Message = "PL" ++ draws.SentencesN (100 * b) j ∧
          row.Type_ = "" ∧ row.Props = "\x7b\x7d" ∧ row.Hashtags = "" ∧
          row.Filenames = "[]" ∧ row.FileIds = "[]" ∧ row.HasReactions = 0 := by
  refine ⟨rfl, rfl, statementStr_eq, ?_⟩
  intro b call hb
  obtain ⟨rows, hlen, hvals, hrows⟩ :=
    fabricateChannel_rows config draws users channels channelNum statement execError n calls
      roots h b call hb
  refine ⟨by rw [hvals, length_flatMap_values, hlen], rows, hlen, ?_, ?_, ?_⟩
  · have hf : (fun row : PostRow => postColumns.filterMap row.column) = PostRow.values :=
      funext PostRow.values_eq_columns
    rw [hvals, hf]
  · rw [hvals]
    rfl
  · intro j row hj
    obtain ⟨user, channel, hu, hch, hrow⟩ := hrows j row hj
    subst hrow
    exact ⟨rfl, rfl, rfl, rfl, rfl, rfl, ⟨user, hu, rfl⟩, ⟨channel, hch, rfl⟩, rfl, rfl, rfl,
      rfl, rfl, rfl, rfl, rfl, rfl, rfl⟩

/-- The witness of C19: the two calls of `Exec` of a channel with the target 166; the second
post of the second batch is by the user at index `(1 + 100 + 1) % 3 = 0`, in the channel
`cid1`, and replies to the root drawn, the first post of the channel. -/
theorem C19_insert_statement_and_values_witness :
    ∃ calls roots,
      fabricateChannel (postsConfig 2 3 1000 100 1) zeroDraws threeUsers twoChannels 1
        (some statementStr) (fun _ => false) 166 = .ok (calls, roots) ∧
      calls.length = 2 ∧
      (calls[1]?.map (fun call => (call.vals.drop 18).take 18))
        = some [.str "post101", .int 1499999999, .int 1499999999, .int 0, .int 0, .int 0,
            .str "uid0", .str "cid1", .str "post0", .str "post0", .str "", .str "PLLorem ipsum.",
            .str "", .str "\x7b\x7d", .str "", .str "[]", .str "[]", .int 0] ∧
      ∀ (b : Nat) (call : ExecCall), calls[b]? = some call → call.vals.length = 1800 :=
  ⟨_, _, rfl, rfl, rfl, fun b call hb =>
    ((C19_insert_statement_and_values (postsConfig 2 3 1000 100 1) zeroDraws threeUsers
      twoChannels 1 (some statementStr) (fun _ => false) 166 _ _ rfl).2.2.2 b call hb).1⟩

set_option maxRecDepth 8000

/-! ## C20: `PickTeamChannel` on generated users -/

/-- One iteration of the loop over the teams changes a user only by appending one team
membership, the one of the team of the iteration. -/
theorem teamIteration_appends {S : Type} (env : Env S) (config : LoadtestEnviromentConfig ℚ)
    (sequenceNum teamNum : Nat) (users us : List UserImportData) (s s1 : S)
    (hT : teamNum < config.NumTeams.toNat)
    (hU : users.length = config.NumUsers.toNat)
    (h : teamIteration env config
      ((List.range config.NumTeams.toNat).map newTeam)
      (channelsClosed config.NumTeams.toNat config.NumChannelsPerTeam.toNat)
      (channelsByTeamClosed config.NumTeams.toNat config.NumChannelsPerTeam.toNat)
      sequenceNum teamNum (users, s) = .ok (us, s1))
    (j : Nat) (u : UserImportData) (hj : users[j]? = some u) :
    ∃ u1, us[j]? = some u1 ∧
      (u1 = u ∨ ∃ t : UserTeamImportData, u1.Teams = u.Teams ++ [t] ∧
        t.Name = "loadtestteam" ++ Itoa teamNum ∧
        ∀ ch ∈ t.Channels, ∃ c : Nat, c < config.NumChannelsPerTeam.toNat ∧
          ch.Name = "loadtestchannel" ++ Itoa c) := by
  obtain ⟨e, hOK, _, hpt⟩ := teamIteration_ok env config sequenceNum teamNum users us s s1 hT hU h
  refine ⟨applyTeam e j u, by rw [hpt j, hj]; rfl, ?_⟩
  by_cases hm : j ∈ e.members
  · right
    refine ⟨membership e j, by rw [applyTeam_mem e j u hm], ?_, ?_⟩
    · rw [membership_name, hOK.1]
      rfl
    · intro ch hch
      rw [membership_channels, List.mem_map] at hch
      obtain ⟨c1, hc1, hc1ch⟩ := hch
      obtain ⟨hc1', _⟩ := mem_chans_of_mem_channelsOf e.chans j c1 hc1
      obtain ⟨i, hi, hic⟩ := List.getElem_of_mem hc1'
      have hi' : e.chans[i]? = some c1 := by rw [List.getElem?_eq_getElem hi, hic]
      obtain ⟨hcname, _⟩ := hOK.2.2.2.2.2.2 i c1 hi'
      refine ⟨i, by rw [← hOK.2.2.2.2.2.1]; exact hi, ?_⟩
      rw [← hc1ch]
      exact hcname
  · left
    exact applyTeam_not_mem e j u hm

/-- C20. For every user produced by `GenerateBulkloadFile` and every outcome of the weighted
choices (the primitive returns an entry of the table it is given, or an error),
`PickTeamChannel` never indexes out of range: the team-choice table and, in each team
membership, the channel-choice table have the length of `Teams` resp. `Channels` and their
entry `k` has `Item = k`; and whenever `PickTeamChannel` returns a non-nil pair, the team is an
element of the user's `Teams` and the channel an element of that team's `Channels`.  Each
channel membership was appended to the membership of the team being processed when it was
assigned: the run is a sequence of team iterations (`effs`, one for each position of the team
permutation, with the users `members` it added to its team and, for each channel of the team,
the users `sel` among them that it gave the channel to) such that the memberships of the user
with index `j` are, in order, those of the iterations that have `j` among their `members`, each
with the name of the team of the iteration and with exactly the channels, in order, that this
same iteration gave to `j`; and an iteration of the loop over the teams changes a user only by
appending one membership, of the team of the iteration, which holds all the channel memberships
assigned in the iteration. -/
theorem C20_pick_in_range_on_generated_users {S : Type} (env : Env S) (sched : List Actor)
    (config : LoadtestEnviromentConfig ℚ) (r : GenerateBulkloadFileResult)
    (h : GenerateBulkloadFile env sched config = .ok r)
    (WeightedChoice : Nat → List Choice → Except String Choice)
    (hwc : ∀ (n : Nat) (table : List Choice) (c : Choice),
      WeightedChoice n table = .ok c → c ∈ table) :
    (∀ u ∈ r.Users,
      (u.TeamChoice.length = u.Teams.length ∧
        ∀ (k : Nat) (c : Choice), u.TeamChoice[k]? = some c → c.Item = .int k) ∧
      (∀ t ∈ u.Teams,
        t.ChannelChoice.length = t.Channels.length ∧
        (∀ (k : Nat) (c : Choice), t.ChannelChoice[k]? = some c → c.Item = .int k) ∧
        ∀ ch ∈ t.Channels, ∃ c ∈ r.Channels, c.Team = t.Name ∧ c.Name = ch.Name) ∧
      (PickTeamChannel WeightedChoice u).outcome ≠ .error .indexOutOfRange ∧
      (PickTeamChannel WeightedChoice u).outcome ≠ .error .typeAssertion ∧
      ∀ (team : UserTeamImportData) (channel : UserChannelImportData),
        (PickTeamChannel WeightedChoice u).outcome = .ok (some (team, channel)) →
        team ∈ u.Teams ∧ channel ∈ team.Channels) ∧
    (∃ effs : List TeamEffect, effs.length = config.NumTeams.toNat ∧
      (∀ (p : Nat) (e : TeamEffect), effs[p]? = some e →
        ∃ teamNum : Nat, (teamPermutation env config)[p]? = some teamNum ∧
          e.name = "loadtestteam" ++ Itoa teamNum ∧
          e.members.Nodup ∧ (∀ i ∈ e.members, i < r.Users.length) ∧
          e.chans.length = config.NumChannelsPerTeam.toNat ∧
          ∀ (k : Nat) (c : ChannelEffect), e.chans[k]? = some c →
            c.name = "loadtestchannel" ++ Itoa k ∧ c.sel.Nodup ∧
            (∀ x ∈ c.sel, x ∈ e.members) ∧
            ((channelMembers r e.name c.name).length = c.sel.length)) ∧
      ∀ (j : Nat) (u : UserImportData), r.Users[j]? = some u →
        u.Teams.length = (effs.filter (fun e => decide (j ∈ e.members))).length ∧
        ∀ (k : Nat) (e : TeamEffect),
          (effs.filter (fun e => decide (j ∈ e.members)))[k]? = some e →
          ∃ t : UserTeamImportData, u.Teams[k]? = some t ∧ t.Name = e.name ∧
            t.Channels = (e.chans.filter (fun c => decide (j ∈ c.sel))).map
              (fun c => ({ Name := c.name, Roles := "channel_user" } : UserChannelImportData))) ∧
    (∀ (sequenceNum teamNum : Nat) (users us : List UserImportData) (s s1 : S),
      teamNum < config.NumTeams.toNat → users.length = config.NumUsers.toNat →
      teamIteration env config r.Teams r.Channels
        (generateChannels config.NumTeams.toNat config.NumChannelsPerTeam.toNat).2
        sequenceNum teamNum (users, s) = .ok (us, s1) →
      ∀ (j : Nat) (u : UserImportData), users[j]? = some u →
        ∃ u1, us[j]? = some u1 ∧
          (u1 = u ∨ ∃ t : UserTeamImportData, u1.Teams = u.Teams ++ [t] ∧
            t.Name = "loadtestteam" ++ Itoa teamNum ∧
            ∀ ch ∈ t.Channels, ∃ c : Nat, c < config.NumChannelsPerTeam.toNat ∧
              ch.Name = "loadtestchannel" ++ Itoa c)) := by
  obtain ⟨hd, _⟩ := GenerateBulkloadFile_ok env sched config r h
  obtain ⟨_, _, _, hrteams, hchannels, _, _⟩ := distribute_ok env config _ _ _ hd
  obtain ⟨effs, hel, hok, hlen, hus⟩ := distribute_users env config _ _ _ hd
  have hnd := effs_names_nodup env config effs hel hok
  refine ⟨?_, ?_, ?_⟩
  · intro u hu
    obtain ⟨j, hj, hju⟩ := List.getElem_of_mem hu
    have hj' : r.Users[j]? = some u := by rw [List.getElem?_eq_getElem hj, hju]
    obtain ⟨_, _, hteams, hclen, hcpt⟩ := hus j u hj'
    have hs : ChoiceTableOK u.TeamChoice u.Teams.length := by
      constructor
      · rw [hclen, hteams, List.length_map]
      · intro k c hk
        have hlt : k < (teamsOf effs j).length := by
          rw [← hclen]
          exact (List.getElem?_eq_some_iff.mp hk).1
        rw [hcpt k _ (List.getElem?_eq_getElem hlt)] at hk
        rw [← Option.some.inj hk]
    have ht : ∀ t ∈ u.Teams, ChoiceTableOK t.ChannelChoice t.Channels.length := by
      intro t htm
      rw [hteams, List.mem_map] at htm
      obtain ⟨e, _, het⟩ := htm
      rw [← het]
      exact membership_choiceTable e j
    refine ⟨hs, ?_, pick_in_range WeightedChoice hwc u hs ht⟩
    intro t htm
    refine ⟨(ht t htm).1, (ht t htm).2, ?_⟩
    intro ch hch
    rw [hteams, List.mem_map] at htm
    obtain ⟨e, he, het⟩ := htm
    obtain ⟨p, teamNum, _, _, hlt, hOK, hname, _⟩ :=
      effect_facts env config effs hok e (mem_effs_of_mem_teamsOf effs j e he).1
    rw [← het, membership_channels, List.mem_map] at hch
    obtain ⟨c1, hc1, hc1ch⟩ := hch
    obtain ⟨hc1', _⟩ := mem_chans_of_mem_channelsOf e.chans j c1 hc1
    obtain ⟨i, hi, hic⟩ := List.getElem_of_mem hc1'
    have hi' : e.chans[i]? = some c1 := by rw [List.getElem?_eq_getElem hi, hic]
    obtain ⟨hcname, _⟩ := hOK.2.2.2.2.2.2 i c1 hi'
    have hiN : i < config.NumChannelsPerTeam.toNat := by
      rw [← hOK.2.2.2.2.2.1]
      exact hi
    refine ⟨newChannel teamNum i, ?_, ?_, ?_⟩
    · rw [hchannels]
      have := getElem?_channelsClosed _ _ teamNum i hlt hiN
      obtain ⟨hl, heq⟩ := List.getElem?_eq_some_iff.mp this
      exact heq ▸ List.getElem_mem hl
    · rw [← het, membership_name, hname]
      rfl
    · rw [← hc1ch, hcname]
  · refine ⟨effs, hel, ?_, ?_⟩
    · intro p e he
      obtain ⟨teamNum, hperm, hOK⟩ := hok p e he
      have hOK' := hOK
      obtain ⟨hname, _, _, hmnd, hmlt, hclen, hch⟩ := hOK
      have hemem : e ∈ effs := mem_of_getElem? effs p e he
      have hcnd := chans_names_nodup env config p teamNum e hOK'
      refine ⟨teamNum, hperm, hname, hmnd, ?_, hclen, ?_⟩
      · intro i hi
        rw [hlen]
        exact hmlt i hi
      · intro k c hc
        obtain ⟨hcname, _, hsnd, hssub, _⟩ := hch k c hc
        refine ⟨hcname, hsnd, hssub, ?_⟩
        unfold channelMembers
        apply length_filter_of_index_set _ _ _ hsnd
        · intro i hi
          rw [hlen]
          exact hmlt i (hssub i hi)
        · intro j u hj
          exact isChannelMember_iff effs hnd e hemem hcnd c (mem_of_getElem? e.chans k c hc)
            hssub j u (hus j u hj).2.2.1
    · intro j u hj
      obtain ⟨_, _, hteams, _, _⟩ := hus j u hj
      refine ⟨by rw [hteams, List.length_map]; rfl, ?_⟩
      intro k e hk
      refine ⟨membership e j, ?_, membership_name e j, membership_channels e j⟩
      rw [hteams, List.getElem?_map]
      have hk' : (teamsOf effs j)[k]? = some e := hk
      rw [hk']
      rfl
  · intro sequenceNum teamNum users us s s1 hT hU hit j u hj
    rw [hrteams, hchannels, generateChannels_eq] at hit
    exact teamIteration_appends env config sequenceNum teamNum users us s s1 hT hU hit j u hj

/-- The witness of C20: the example configuration with the primitive that returns the first
entry of the table. -/
theorem C20_pick_in_range_on_generated_users_witness :
    ∃ r, GenerateBulkloadFile rotatingEnv (alternating 30) exampleConfig = .ok r ∧
      ∀ u ∈ r.Users, (PickTeamChannel firstChoice u).outcome ≠ .error .indexOutOfRange := by
  with_unfolding_all exact ⟨_, rfl, fun u hu =>
    ((C20_pick_in_range_on_generated_users rotatingEnv (alternating 30) exampleConfig _ rfl
      firstChoice
      (by
        intro n table c hc
        cases table with
        | nil => cases hc
        | cons a rest =>
          cases hc
          exact List.mem_cons_self _ _)).1 u hu).2.2.1⟩

end Loadtest
